import Mathlib

/-!
# Snake game: the AI snake, the food effects and the high-score list

A shallow embedding of `src/ai_snake.cpp` (the route search `Heuristic`,
`GetNeighbors`, `IsWalkable`, `ReconstructPath`, `CalculatePath`; the steering
`UpdateAI`; the foreground interface `SetFoodTarget`, `SetObstacles`,
`SetPlayerSnakeBody`, `StartAI`, `StopAI` and the worker `PathfindingThread`),
of `Game::UpdateAIFoodTarget`, `PlaceFood` and `IsValidFoodPosition` in
`src/game.cpp`, of the food effects in `src/food.cpp`, of the linear moving
obstacles in `src/obstacle.cpp` and of `HighScoreManager` in
`src/highscore.cpp`.

Conventions of the embedding.

* A C++ `int` is a Lean `Int`; the grids are small and no overflow is modelled
  except where a conversion is the point (`toInt32`).  `%` is C++ truncated
  remainder, `Int.tmod`, and `/` is truncated division, `Int.tdiv`.
* A `PathNode*` is the `node_map` key of the node it points to.  Every node is
  created under exactly one key (`node_map[hash] = node`) and never erased, so
  keys and pointers correspond one to one; `nullptr` is `none`.
* `std::priority_queue<PathNode*, std::vector<PathNode*>, comp>` is the binary
  heap on a vector that the C++ standard prescribes (`push` is `push_back` then
  `std::push_heap`, `pop` is `std::pop_heap` then `pop_back`), with the sift
  loops of libstdc++ (`__push_heap`, `__adjust_heap`).  The comparator reads the
  f-cost through the pointer at the time of the comparison, so a node whose
  `g_cost` is overwritten while a pointer to it sits in the vector changes its
  key in place.
* Loops that the source runs until a condition holds take a fuel argument; the
  termination theorem shows the fuel used by `CalculatePath` is enough.
* The two threads are interleaved explicitly.  The foreground calls are
  functions on the agent state; the worker is a position (`WorkerPc`) kept in
  the thread handle, and `workerStep` moves it by one step.  A step is a test
  of the atomic `running_`, a stretch of a critical section, or one pass of the
  search loop, which runs without the mutex.
* `std::sort` is a parameter with its contract (`SortsDescending`); a
  `std::string` is a list of characters and the score file is its content.
-/

namespace SnakeGame

/-- The SDL point: a pair of C++ ints. -/
structure SDL_Point where
  x : Int
  y : Int
  deriving DecidableEq

/-- The node of `ai_snake.h`; `parent` is the key of the parent node in `node_map`. -/
structure PathNode where
  x : Int
  y : Int
  g_cost : Int
  h_cost : Int
  parent : Option Int
  deriving DecidableEq

/-- The f-cost of a node, `g_cost + h_cost`. -/
def PathNode.f_cost (n : PathNode) : Int := n.g_cost + n.h_cost

/-- The map `node_map`: key to node, each key at most once. -/
abbrev NodeMap := List (Int × PathNode)

/-- The locals of `CalculatePath` that live across loop iterations. -/
structure SearchState where
  node_map : NodeMap
  open_set : List Int
  closed_set : List Int
  deriving DecidableEq

/-- The enum `Snake::Direction`. -/
inductive Direction where
  | kUp
  | kDown
  | kLeft
  | kRight
  deriving DecidableEq

/-- Where the worker thread stands in `AISnake::PathfindingThread`.  A step of
the worker is one test of `running_`, one stretch of a critical section, or one
pass of the search loop (which runs unlocked).  `running_` is an atomic that
`StopAI` stores to without the mutex, so the test after the wait and the copy
of the query are separate steps. -/
inductive WorkerPc where
  /-- At the test of `while (running_)`. -/
  | loopHead
  /-- Inside `path_cv_.wait`, the mutex released. -/
  | waiting
  /-- The wait has returned with the mutex held; at `if (!running_) break;`. -/
  | woken
  /-- The test passed; at `path_requested_ = false;`, the mutex still held. -/
  | taking
  /-- Inside `CalculatePath(start, goal)`, before a pass of its `while` loop. -/
  | computing (goal : SDL_Point) (st : SearchState)
  /-- After `CalculatePath` returned `new_path`, before the second lock. -/
  | publishing (new_path : List SDL_Point)
  /-- The thread function has returned. -/
  | exited
  deriving DecidableEq

/-- The members of `AISnake` (with those it inherits from `Snake`).  `head_x` and
`head_y` hold the head cell, `static_cast<int>` of the float members; the
thread handle `pathfinding_thread_` is `none` when it is not joinable and
otherwise holds the position of the worker.  The promise and the future are
never read and are left out. -/
structure AISnake where
  grid_width_ : Int
  grid_height_ : Int
  body : List SDL_Point := []
  obstacles_ : List SDL_Point := []
  player_snake_body_ : List SDL_Point := []
  player_head_ : SDL_Point := ⟨0, 0⟩
  alive : Bool := true
  direction : Direction := Direction.kUp
  head_x : Int := 0
  head_y : Int := 0
  food_target_ : SDL_Point := ⟨0, 0⟩
  path_requested_ : Bool := false
  running_ : Bool := false
  current_path_ : List SDL_Point := []
  path_index_ : Nat := 0
  pathfinding_thread_ : Option WorkerPc := none
  deriving DecidableEq

/-- C++ `std::abs` on int. -/
def c_abs (a : Int) : Int := if a < 0 then -a else a

/-- C++ `std::min(a, b)`: `b` when `b < a`, else `a`. -/
def c_min (a b : Int) : Int := if b < a then b else a

/-- `AISnake::Heuristic`: Manhattan distance with wrapping. -/
def AISnake.Heuristic (s : AISnake) (x1 y1 x2 y2 : Int) : Int :=
  let dx := c_abs (x2 - x1)
  let dy := c_abs (y2 - y1)
  let dx := c_min dx (s.grid_width_ - dx)
  let dy := c_min dy (s.grid_height_ - dy)
  dx + dy

/-- `AISnake::GetNeighbors`: the four cardinal neighbours with wrapping, in the
source order +x, -x, +y, -y. -/
def AISnake.GetNeighbors (s : AISnake) (x y : Int) : List SDL_Point :=
  [ ⟨(x + 1).tmod s.grid_width_, y⟩,
    ⟨(x - 1 + s.grid_width_).tmod s.grid_width_, y⟩,
    ⟨x, (y + 1).tmod s.grid_height_⟩,
    ⟨x, (y - 1 + s.grid_height_).tmod s.grid_height_⟩ ]

/-- One of the loops of `IsWalkable`: does some point of the list sit on `(x, y)`. -/
def occupies (l : List SDL_Point) (x y : Int) : Bool :=
  l.any (fun p => p.x == x && p.y == y)

/-- `AISnake::IsWalkable`: false on an own-body segment, an obstacle, a
player-body segment or the player head. -/
def AISnake.IsWalkable (s : AISnake) (x y : Int) : Bool :=
  if occupies s.body x y then false
  else if occupies s.obstacles_ x y then false
  else if occupies s.player_snake_body_ x y then false
  else if s.player_head_.x == x && s.player_head_.y == y then false
  else true

/-- The lambda `hash` of `CalculatePath`: `p.y * grid_width_ + p.x`. -/
def AISnake.hash (s : AISnake) (p : SDL_Point) : Int := p.y * s.grid_width_ + p.x

/-- Look a key up in `node_map`. -/
def nodeAt (m : NodeMap) (k : Int) : Option PathNode :=
  match m with
  | [] => none
  | (k', n) :: rest => if k' = k then some n else nodeAt rest k

/-- Overwrite the node stored under a key (a write through the pointer). -/
def nodeSet (m : NodeMap) (k : Int) (n : PathNode) : NodeMap :=
  match m with
  | [] => []
  | (k', n') :: rest => if k' = k then (k', n) :: rest else (k', n') :: nodeSet rest k n

/-- The f-cost read through a pointer; the comparator of the queue is
`comp a b := a->f_cost() > b->f_cost()`. -/
def fOf (m : NodeMap) (k : Int) : Int :=
  match nodeAt m k with
  | some n => n.f_cost
  | none => 0

/-- The loop of `__push_heap` with `topIndex = 0`: while the hole is below the
top and `comp(parent, value)`, move the parent into the hole; at the end store
the value in the hole. -/
def pushHeapLoop (m : NodeMap) (value : Int) : Nat → List Int → Nat → List Int
  | 0, a, hole => a.set hole value
  | fuel + 1, a, hole =>
    if 0 < hole ∧ fOf m value < fOf m (a.getD ((hole - 1) / 2) 0) then
      pushHeapLoop m value fuel (a.set hole (a.getD ((hole - 1) / 2) 0)) ((hole - 1) / 2)
    else a.set hole value

/-- The call `open_set.push(p)`: `push_back` then `push_heap`. -/
def pqPush (m : NodeMap) (a : List Int) (p : Int) : List Int :=
  pushHeapLoop m p a.length (a ++ [p]) a.length

/-- The first loop of `__adjust_heap`: while the hole has two children, move the
child preferred by the comparator (the second child unless
`comp(second, first)`) into the hole.  Returns the vector and the hole. -/
def adjustHeapLoop (m : NodeMap) (len : Nat) : Nat → List Int → Nat → List Int × Nat
  | 0, a, hole => (a, hole)
  | fuel + 1, a, hole =>
    if hole < (len - 1) / 2 then
      let second := 2 * (hole + 1)
      let child :=
        if fOf m (a.getD (second - 1) 0) < fOf m (a.getD second 0) then second - 1 else second
      adjustHeapLoop m len fuel (a.set hole (a.getD child 0)) child
    else (a, hole)

/-- The function `__adjust_heap(first, 0, len, value)` on the vector `a` of
length `len`: the loop, the case of a single last child, then `__push_heap`. -/
def adjustHeap (m : NodeMap) (a : List Int) (value : Int) : List Int :=
  let len := a.length
  let r := adjustHeapLoop m len len a 0
  let r2 :=
    if len % 2 = 0 ∧ r.2 = (len - 2) / 2 then
      (r.1.set r.2 (r.1.getD (2 * (r.2 + 1) - 1) 0), 2 * (r.2 + 1) - 1)
    else r
  pushHeapLoop m value len r2.1 r2.2

/-- The call `open_set.pop()`: `pop_heap` then `pop_back`.  With more than one
element `pop_heap` saves the last element as `value`, stores the top in the
last slot (which `pop_back` then removes) and runs `__adjust_heap` on the
elements before it. -/
def pqPop (m : NodeMap) (a : List Int) : List Int :=
  if 1 < a.length then adjustHeap m a.dropLast (a.getD (a.length - 1) 0)
  else a.dropLast

/-- The body of the `for` loop over the neighbours of `current`: skip a closed or
unwalkable neighbour; skip a known node unless `tentative_g` improves on it;
otherwise create the node; then write g, h and parent and push the pointer. -/
def relax (s : AISnake) (goal : SDL_Point) (cur : Int) (current : PathNode)
    (st : SearchState) (neighbor_pos : SDL_Point) : SearchState :=
  let neighbor_hash := s.hash neighbor_pos
  if neighbor_hash ∈ st.closed_set then st
  else if s.IsWalkable neighbor_pos.x neighbor_pos.y = false then st
  else
    let tentative_g := current.g_cost + 1
    let h := s.Heuristic neighbor_pos.x neighbor_pos.y goal.x goal.y
    match nodeAt st.node_map neighbor_hash with
    | some node =>
      if tentative_g ≥ node.g_cost then st
      else
        let m := nodeSet st.node_map neighbor_hash
          { node with g_cost := tentative_g, h_cost := h, parent := some cur }
        { st with node_map := m, open_set := pqPush m st.open_set neighbor_hash }
    | none =>
      let m := st.node_map ++ [(neighbor_hash,
          { x := neighbor_pos.x, y := neighbor_pos.y, g_cost := tentative_g, h_cost := h,
            parent := some cur })]
      { st with node_map := m, open_set := pqPush m st.open_set neighbor_hash }

/-- The `while (current != nullptr)` loop of `ReconstructPath`: the cells from a
node back along the parent pointers. -/
def parentChain (m : NodeMap) : Nat → Option Int → List SDL_Point
  | 0, _ => []
  | _ + 1, none => []
  | fuel + 1, some k =>
    match nodeAt m k with
    | none => []
    | some n => ⟨n.x, n.y⟩ :: parentChain m fuel n.parent

/-- `AISnake::ReconstructPath`: the parent chain of the end node, reversed, with
the first cell (the current position) erased. -/
def ReconstructPath (m : NodeMap) (end_node : Int) : List SDL_Point :=
  ((parentChain m (m.length + 1) (some end_node)).reverse).tail

/-- What one pass through the `while` loop does: return a route, go round
again, or fail on a pointer without a node (which never happens). -/
inductive LoopStep where
  | ret (route : List SDL_Point) (st : SearchState)
  | cont (st : SearchState)
  | stuck

/-- One iteration of the `while (!open_set.empty())` loop of `CalculatePath`,
including the test of the loop condition (an empty queue leaves the loop and
returns the empty route). -/
def loopBody (s : AISnake) (goal : SDL_Point) (st : SearchState) : LoopStep :=
  match st.open_set with
  | [] => .ret [] st
  | cur :: _ =>
    match nodeAt st.node_map cur with
    | none => .stuck
    | some current =>
      let open1 := pqPop st.node_map st.open_set
      let current_hash := current.y * s.grid_width_ + current.x
      if current_hash ∈ st.closed_set then .cont { st with open_set := open1 }
      else
        let st1 : SearchState :=
          { st with open_set := open1, closed_set := current_hash :: st.closed_set }
        if current.x = goal.x ∧ current.y = goal.y then
          .ret (ReconstructPath st1.node_map cur) st1
        else
          .cont ((s.GetNeighbors current.x current.y).foldl (relax s goal cur current) st1)

/-- The `while` loop of `CalculatePath`.  The result is the returned route with
the final state, or `none` when the fuel runs out or the loop is stuck. -/
def searchLoop (s : AISnake) (goal : SDL_Point) :
    Nat → SearchState → Option (List SDL_Point × SearchState)
  | 0, _ => none
  | fuel + 1, st =>
    match loopBody s goal st with
    | .ret route st1 => some (route, st1)
    | .cont st1 => searchLoop s goal fuel st1
    | .stuck => none

/-- The start node built before the `while` loop: g = 0, h = the heuristic, no
parent. -/
def startNode (s : AISnake) (start goal : SDL_Point) : PathNode :=
  { x := start.x, y := start.y, g_cost := 0,
    h_cost := s.Heuristic start.x start.y goal.x goal.y, parent := none }

/-- The state before the `while` loop: the start node in `node_map` and in the
queue, nothing closed. -/
def initState (s : AISnake) (start goal : SDL_Point) : SearchState :=
  let m : NodeMap := [(s.hash start, startNode s start goal)]
  { node_map := m, open_set := pqPush m [] (s.hash start), closed_set := [] }

/-- Fuel for the main loop: every iteration either drops a stale pointer or
closes a cell and pushes at most four pointers. -/
def searchFuel (s : AISnake) : Nat := 4 * (s.grid_width_ * s.grid_height_).toNat + 2

/-- `AISnake::CalculatePath`. -/
def CalculatePath (s : AISnake) (start goal : SDL_Point) : Option (List SDL_Point) :=
  (searchLoop s goal (searchFuel s) (initState s start goal)).map Prod.fst

/-! ## The goal provider of `game.cpp` -/

/-- The kinds of food of `food.h` (`Food::Type`). -/
inductive FoodType where
  | Normal
  | SpeedBoost
  | Slowdown
  | Bonus
  deriving DecidableEq

/-- The data members of `Food`. -/
structure Food where
  position_ : SDL_Point
  type_ : FoodType
  deriving DecidableEq

/-- `Food::GetX`. -/
def Food.GetX (f : Food) : Int := f.position_.x

/-- `Food::GetY`. -/
def Food.GetY (f : Food) : Int := f.position_.y

/-- Conversion of an integer constant to a 32-bit `int`: the value is reduced
modulo 2^32 into the range from -2^31 to 2^31 - 1. -/
def toInt32 (v : Int) : Int := (v + 2147483648) % 4294967296 - 2147483648

/-- The locals `closest_dist`, `target_x`, `target_y` of `UpdateAIFoodTarget`. -/
structure Closest where
  closest_dist : Int
  target_x : Int
  target_y : Int
  deriving DecidableEq

/-- The body of the loop over the foods: take the food when its Manhattan
distance is strictly below the running minimum. -/
def closestStep (ai_x ai_y : Int) (acc : Closest) (food : Food) : Closest :=
  let dx := c_abs (food.GetX - ai_x)
  let dy := c_abs (food.GetY - ai_y)
  let dist := dx + dy
  if dist < acc.closest_dist then
    { closest_dist := dist, target_x := food.GetX, target_y := food.GetY }
  else acc

/-- `Game::UpdateAIFoodTarget`: the arguments of the call
`ai_snake_.SetFoodTarget(target_x, target_y)`, or `none` when the function
returns early on an empty food list.  `WINT_MAX` is the macro of the platform
headers (not part of the repository), taken as a parameter; `ai_x`, `ai_y` are
the AI head coordinates after the cast to int. -/
def UpdateAIFoodTarget (WINT_MAX : Int) (foods : List Food) (ai_x ai_y : Int) :
    Option SDL_Point :=
  if foods.isEmpty then none
  else
    let r := foods.foldl (closestStep ai_x ai_y)
      { closest_dist := toInt32 WINT_MAX, target_x := 0, target_y := 0 }
    some ⟨r.target_x, r.target_y⟩

/-! ## Following the route: `UpdateAI` -/

/-- `AISnake::HasValidPath`. -/
def AISnake.HasValidPath (s : AISnake) : Bool :=
  !s.current_path_.isEmpty && decide (s.path_index_ < s.current_path_.length)

/-- The two statements under `// Handle wrapping` in `UpdateAI` for one axis:
`if (d > dim / 2) d -= dim; if (d < -dim / 2) d += dim;` with the truncating
division of C++. -/
def wrapDelta (d dim : Int) : Int :=
  let d1 := if d > dim.tdiv 2 then d - dim else d
  if d1 < (-dim).tdiv 2 then d1 + dim else d1

/-- The statement under `// Set direction based on delta` in `UpdateAI`; `old` is
the direction before it. -/
def setDirection (dx dy : Int) (old : Direction) : Direction :=
  if c_abs dx > c_abs dy then
    if dx > 0 then Direction.kRight
    else if dx < 0 then Direction.kLeft
    else old
  else
    if dy > 0 then Direction.kDown
    else if dy < 0 then Direction.kUp
    else old

/-- `AISnake::UpdateAI`. -/
def AISnake.UpdateAI (s : AISnake) : AISnake :=
  if s.alive = false then s
  else if s.current_path_.isEmpty || decide (s.path_index_ ≥ s.current_path_.length) then s
  else
    let next := s.current_path_.getD s.path_index_ ⟨0, 0⟩
    let current_x := s.head_x
    let current_y := s.head_y
    let dx := wrapDelta (next.x - current_x) s.grid_width_
    let dy := wrapDelta (next.y - current_y) s.grid_height_
    let s1 := { s with direction := setDirection dx dy s.direction }
    if current_x = next.x ∧ current_y = next.y then
      { s1 with path_index_ := s1.path_index_ + 1 }
    else s1

/-! ## The foreground interface and the worker thread -/

/-- `AISnake::SetFoodTarget`. -/
def AISnake.SetFoodTarget (s : AISnake) (x y : Int) : AISnake :=
  { s with food_target_ := ⟨x, y⟩, path_requested_ := true }

/-- `AISnake::SetObstacles`. -/
def AISnake.SetObstacles (s : AISnake) (obstacles : List SDL_Point) : AISnake :=
  { s with obstacles_ := obstacles }

/-- One step of the worker thread in `AISnake::PathfindingThread`, from the
position held in `pathfinding_thread_`; `none` when the worker cannot move (there
is no thread, the wait predicate is false, or the thread function has
returned).  The step from `taking` is the rest of the critical section up to
`lock.unlock()`: it clears the flag and copies the head cell and the goal, and
only those.  A search pass calls `IsWalkable`, which reads the occupancy
members of the agent as they are at that moment. -/
def workerStep (s : AISnake) : Option AISnake :=
  match s.pathfinding_thread_ with
  | none => none
  | some .loopHead =>
    some { s with pathfinding_thread_ := some (if s.running_ then .waiting else .exited) }
  | some .waiting =>
    if s.path_requested_ || !s.running_ then some { s with pathfinding_thread_ := some .woken }
    else none
  | some .woken =>
    some { s with pathfinding_thread_ := some (if !s.running_ then .exited else .taking) }
  | some .taking =>
    let start : SDL_Point := ⟨s.head_x, s.head_y⟩
    let goal := s.food_target_
    some { s with path_requested_ := false,
                  pathfinding_thread_ := some (.computing goal (initState s start goal)) }
  | some (.computing goal st) =>
    match loopBody s goal st with
    | .ret new_path _ => some { s with pathfinding_thread_ := some (.publishing new_path) }
    | .cont st1 => some { s with pathfinding_thread_ := some (.computing goal st1) }
    | .stuck => none
  | some (.publishing new_path) =>
    some { s with current_path_ := new_path, path_index_ := 0,
                  pathfinding_thread_ := some .loopHead }
  | some .exited => none

/-- Run the worker for `n` steps with no foreground call in between; `none`
when it cannot make that many steps. -/
def workerSteps : Nat → AISnake → Option AISnake
  | 0, s => some s
  | n + 1, s =>
    match workerStep s with
    | none => none
    | some s1 => workerSteps n s1

/-- The worker holds the mutex at this position. -/
def WorkerPc.holdsMutex : WorkerPc → Bool
  | .woken => true
  | .taking => true
  | _ => false

/-- The mutex is held by the worker thread. -/
def mutexHeld (s : AISnake) : Bool :=
  match s.pathfinding_thread_ with
  | some pc => pc.holdsMutex
  | none => false

/-- The thread function of the worker has returned. -/
def threadExited (s : AISnake) : Bool :=
  match s.pathfinding_thread_ with
  | some .exited => true
  | _ => false

/-- What a foreground `lock_guard` waits for: the worker runs until it does not
hold the mutex; `none` when it still holds it after `fuel` steps. -/
def awaitMutex : Nat → AISnake → Option AISnake
  | 0, s => if mutexHeld s then none else some s
  | fuel + 1, s =>
    if mutexHeld s then
      match workerStep s with
      | none => none
      | some s1 => awaitMutex fuel s1
    else some s

/-- `pathfinding_thread_.join()`: the caller blocks while the worker runs until
its thread function returns, and the handle is no longer joinable; `none` when
the worker has not returned after `fuel` steps. -/
def joinWorker : Nat → AISnake → Option AISnake
  | 0, s => if threadExited s then some { s with pathfinding_thread_ := none } else none
  | fuel + 1, s =>
    if threadExited s then some { s with pathfinding_thread_ := none }
    else
      match workerStep s with
      | none => none
      | some s1 => joinWorker fuel s1

/-- `AISnake::StartAI`.  The new thread starts at the head of its loop. -/
def AISnake.StartAI (s : AISnake) : AISnake :=
  if s.running_ then s
  else { s with running_ := true, pathfinding_thread_ := some .loopHead }

/-- `AISnake::StopAI`, with the worker scheduled only where the caller has to
wait for it (for the mutex and in the join); `none` when one of the two waits
does not end.  The store to `running_` comes first and takes no lock. -/
def AISnake.StopAI (s : AISnake) : Option AISnake :=
  if !s.running_ then some s
  else
    let s1 := { s with running_ := false }
    match awaitMutex 2 s1 with
    | none => none
    | some s2 =>
      let s3 := { s2 with path_requested_ := true }
      match s3.pathfinding_thread_ with
      | none => some s3
      | some _ => joinWorker (searchFuel s3 + 4) s3

/-! ## The search with another neighbour order -/

/-- The entries of `l` in the order given by the index list `order`. -/
def reorder (order : List Nat) (l : List SDL_Point) : List SDL_Point :=
  order.filterMap (fun i => l[i]?)

/-- The pass `loopBody` with the `for` loop running over the neighbours in the
order `order`; `[0, 1, 2, 3]` is the order of `GetNeighbors`. -/
def loopBodyOrd (order : List Nat) (s : AISnake) (goal : SDL_Point) (st : SearchState) :
    LoopStep :=
  match st.open_set with
  | [] => .ret [] st
  | cur :: _ =>
    match nodeAt st.node_map cur with
    | none => .stuck
    | some current =>
      let open1 := pqPop st.node_map st.open_set
      let current_hash := current.y * s.grid_width_ + current.x
      if current_hash ∈ st.closed_set then .cont { st with open_set := open1 }
      else
        let st1 : SearchState :=
          { st with open_set := open1, closed_set := current_hash :: st.closed_set }
        if current.x = goal.x ∧ current.y = goal.y then
          .ret (ReconstructPath st1.node_map cur) st1
        else
          .cont ((reorder order (s.GetNeighbors current.x current.y)).foldl
            (relax s goal cur current) st1)

/-- The loop `searchLoop` over the passes `loopBodyOrd`. -/
def searchLoopOrd (order : List Nat) (s : AISnake) (goal : SDL_Point) :
    Nat → SearchState → Option (List SDL_Point × SearchState)
  | 0, _ => none
  | fuel + 1, st =>
    match loopBodyOrd order s goal st with
    | .ret route st1 => some (route, st1)
    | .cont st1 => searchLoopOrd order s goal fuel st1
    | .stuck => none

/-- `CalculatePath` with the neighbours taken in the order `order`. -/
def CalculatePathOrd (order : List Nat) (s : AISnake) (start goal : SDL_Point) :
    Option (List SDL_Point) :=
  (searchLoopOrd order s goal (searchFuel s) (initState s start goal)).map Prod.fst

/-- The state after `n` passes of the `while` loop of `CalculatePath` none of
which returns; `none` when a pass returns or is stuck before. -/
def searchPasses (s : AISnake) (goal : SDL_Point) : Nat → SearchState → Option SearchState
  | 0, st => some st
  | n + 1, st =>
    match loopBody s goal st with
    | .cont st1 => searchPasses s goal n st1
    | _ => none

/-! ## Food effects (`food.h`, `food.cpp`) -/

/-- `GetPoints` of the four food classes; the constructor of each class sets
`type_` to its own kind. -/
def Food.GetPoints (f : Food) : Int :=
  match f.type_ with
  | .Normal => 1
  | .SpeedBoost => 2
  | .Slowdown => 1
  | .Bonus => 5

/-- `ApplyEffect` of the four food classes on a snake state of type `σ` and the
score.  `GrowBody` is `Snake::GrowBody`, whose body is not among the sources,
and `setSpeed` stands for the float assignment to `snake.speed` of the class;
both are parameters and neither can reach the score, a separate `int&`. -/
def Food.ApplyEffect {σ : Type} (GrowBody : σ → σ) (setSpeed : FoodType → σ → σ) (f : Food)
    (snake : σ) (score : Int) : σ × Int :=
  match f.type_ with
  | .Normal => (setSpeed .Normal (GrowBody snake), score + f.GetPoints)
  | .SpeedBoost => (setSpeed .SpeedBoost (GrowBody snake), score + f.GetPoints)
  | .Slowdown => (setSpeed .Slowdown (GrowBody snake), score + f.GetPoints)
  | .Bonus => (GrowBody snake, score + f.GetPoints)

/-! ## The high-score list (`highscore.h`, `highscore.cpp`) -/

/-- The struct `ScoreEntry`; a `std::string` is its list of characters. -/
structure ScoreEntry where
  name : List Char
  score : Int
  deriving DecidableEq

/-- The members of `HighScoreManager`, with the content of the file `filename_`
in place of the name: `none` when the file does not exist. -/
structure HighScoreManager where
  max_entries_ : Nat
  scores_ : List ScoreEntry := []
  file : Option (List Char) := none
  deriving DecidableEq

/-- The contract of `std::sort` with the comparator `a > b` of `SortScores`, a
library function taken as the parameter `std_sort`: the result is a permutation
of the input in which no entry is followed by one with a larger score.  The
order of entries with equal scores is not specified. -/
def SortsDescending (std_sort : List ScoreEntry → List ScoreEntry) : Prop :=
  ∀ l, (std_sort l).Perm l ∧ (std_sort l).Pairwise (fun a b => b.score ≤ a.score)

/-- `HighScoreManager::SortScores`. -/
def HighScoreManager.SortScores (std_sort : List ScoreEntry → List ScoreEntry)
    (m : HighScoreManager) : HighScoreManager :=
  { m with scores_ := std_sort m.scores_ }

/-- The decimal digits of a natural number, most significant first, put in
front of `acc`; the fuel bounds the number of digits. -/
def putDigits : Nat → Nat → List Char → List Char
  | 0, _, acc => acc
  | fuel + 1, n, acc =>
    if n < 10 then Char.ofNat (48 + n) :: acc
    else putDigits fuel (n / 10) (Char.ofNat (48 + n % 10) :: acc)

/-- `file << entry.score`: an `int` in decimal, with a minus sign when negative. -/
def putInt (v : Int) : List Char :=
  if v < 0 then Char.ofNat 45 :: putDigits (v.natAbs + 1) v.natAbs []
  else putDigits (v.natAbs + 1) v.natAbs []

/-- The text that the loop of `SaveScores` writes: one line `score name` per
entry. -/
def saveText (scores : List ScoreEntry) : List Char :=
  scores.foldr (fun entry rest => putInt entry.score ++ Char.ofNat 32 :: entry.name ++
    Char.ofNat 10 :: rest) []

/-- `HighScoreManager::SaveScores` (the file can be opened for writing). -/
def HighScoreManager.SaveScores (m : HighScoreManager) : HighScoreManager :=
  { m with file := some (saveText m.scores_) }

/-- `std::isspace` in the "C" locale: space, tab, newline, vertical tab, form
feed, carriage return. -/
def isspace (c : Char) : Bool :=
  c.toNat == 32 || (9 ≤ c.toNat && c.toNat ≤ 13)

/-- The value of a decimal digit character. -/
def digitValue (c : Char) : Option Nat :=
  if 48 ≤ c.toNat ∧ c.toNat ≤ 57 then some (c.toNat - 48) else none

/-- The longest prefix of digits, accumulated onto `acc`, and what follows it. -/
def getDigits : List Char → Nat → Nat × List Char
  | [], acc => (acc, [])
  | c :: rest, acc =>
    match digitValue c with
    | some d => getDigits rest (10 * acc + d)
    | none => (acc, c :: rest)

/-- `iss >> entry.score` on the characters of a line: leading whitespace is
skipped, then an optional sign and at least one digit are read; the extraction
fails when there is no digit or the value does not fit an `int`.  The result is
the value and the unread rest of the line. -/
def getInt (line : List Char) : Option (Int × List Char) :=
  let l := line.dropWhile isspace
  let (neg, l1) :=
    match l with
    | c :: rest => if c.toNat = 45 then (true, rest) else if c.toNat = 43 then (false, rest)
      else (false, l)
    | [] => (false, l)
  match l1 with
  | [] => none
  | c :: _ =>
    if (digitValue c).isNone then none
    else
      let (n, rest) := getDigits l1 0
      let v : Int := if neg then -(n : Int) else n
      if -2147483648 ≤ v ∧ v ≤ 2147483647 then some (v, rest) else none

/-- The body of the `while` loop of `LoadScores` for one line: the entry that is
pushed, or `none` when the line is skipped.  The name is the rest of the line
after the whitespace that follows the score (`iss >> std::ws`). -/
def loadLine (line : List Char) : Option ScoreEntry :=
  match getInt line with
  | none => none
  | some (score, rest) =>
    let name := rest.dropWhile isspace
    if name.isEmpty then none else some { name := name, score := score }

/-- The lines that `std::getline(file, line)` yields: the text cut at the
newline characters.  (A last piece without characters is no line for
`getline`; here it is an empty line, which `loadLine` skips.) -/
def getLines : List Char → List (List Char)
  | [] => [[]]
  | c :: rest =>
    if c.toNat = 10 then [] :: getLines rest
    else
      match getLines rest with
      | [] => [[c]]
      | l :: ls => (c :: l) :: ls

/-- The entries that the loop of `LoadScores` pushes, in file order. -/
def loadEntries (text : List Char) : List ScoreEntry :=
  (getLines text).filterMap loadLine

/-- `HighScoreManager::LoadScores`. -/
def HighScoreManager.LoadScores (std_sort : List ScoreEntry → List ScoreEntry)
    (m : HighScoreManager) : HighScoreManager :=
  match m.file with
  | none => { m with scores_ := [] }
  | some text => HighScoreManager.SortScores std_sort { m with scores_ := loadEntries text }

/-- `HighScoreManager::AddScore`. -/
def HighScoreManager.AddScore (std_sort : List ScoreEntry → List ScoreEntry)
    (m : HighScoreManager) (name : List Char) (score : Int) : HighScoreManager :=
  let m1 := HighScoreManager.SortScores std_sort
    { m with scores_ := m.scores_ ++ [{ name := name, score := score }] }
  let m2 := if m1.scores_.length > m1.max_entries_ then
      { m1 with scores_ := m1.scores_.take m1.max_entries_ }
    else m1
  m2.SaveScores

/-- `HighScoreManager::GetScores`. -/
def HighScoreManager.GetScores (m : HighScoreManager) : List ScoreEntry := m.scores_

/-- `HighScoreManager::IsHighScore`; `none` where the source calls `back()` on an
empty vector, which is undefined (it happens only for `max_entries_ = 0`). -/
def HighScoreManager.IsHighScore (m : HighScoreManager) (score : Int) : Option Bool :=
  if m.scores_.length < m.max_entries_ then some true
  else
    match m.scores_.getLast? with
    | none => none
    | some back => some (decide (score > back.score))

/-- `HighScoreManager::GetPlayerName` on the line read from the console: an
empty line becomes `Player`, a long line is cut to 20 characters; nothing is
trimmed. -/
def GetPlayerName (line : List Char) : List Char :=
  let name := if line.isEmpty then ['P', 'l', 'a', 'y', 'e', 'r'] else line
  if name.length > 20 then name.take 20 else name

/-! ## The agent from its constructor on -/

/-- The enum `MovingObstacle::Pattern`. -/
inductive Pattern where
  | Horizontal
  | Vertical
  | Circular
  deriving DecidableEq

/-- The members of `MovingObstacle` (with those of `Obstacle`) that the linear
patterns use; the defaults are the values the constructor sets. -/
structure MovingObstacle where
  position_ : SDL_Point
  grid_width_ : Int
  grid_height_ : Int
  pattern_ : Pattern
  direction_ : Int := 1
  steps_moved_ : Int := 0
  max_steps_ : Int := 5
  deriving DecidableEq

/-- `MovingObstacle::UpdateHorizontal`. -/
def MovingObstacle.UpdateHorizontal (o : MovingObstacle) : MovingObstacle :=
  let steps_moved := o.steps_moved_ + 1
  let reverse := decide (steps_moved ≥ o.max_steps_)
  let direction := if reverse then o.direction_ * -1 else o.direction_
  let steps_moved := if reverse then 0 else steps_moved
  let x := o.position_.x + direction
  let x := if x < 0 then o.grid_width_ - 1 else x
  let x := if x ≥ o.grid_width_ then 0 else x
  { o with direction_ := direction, steps_moved_ := steps_moved,
           position_ := ⟨x, o.position_.y⟩ }

/-- `MovingObstacle::UpdateVertical`. -/
def MovingObstacle.UpdateVertical (o : MovingObstacle) : MovingObstacle :=
  let steps_moved := o.steps_moved_ + 1
  let reverse := decide (steps_moved ≥ o.max_steps_)
  let direction := if reverse then o.direction_ * -1 else o.direction_
  let steps_moved := if reverse then 0 else steps_moved
  let y := o.position_.y + direction
  let y := if y < 0 then o.grid_height_ - 1 else y
  let y := if y ≥ o.grid_height_ then 0 else y
  { o with direction_ := direction, steps_moved_ := steps_moved,
           position_ := ⟨o.position_.x, y⟩ }

/-- `MovingObstacle::Update`.  `UpdateCircular` computes with floats and is a
parameter. -/
def MovingObstacle.Update (UpdateCircular : MovingObstacle → MovingObstacle)
    (o : MovingObstacle) : MovingObstacle :=
  match o.pattern_ with
  | .Horizontal => o.UpdateHorizontal
  | .Vertical => o.UpdateVertical
  | .Circular => UpdateCircular o

/-! ## Placing food (`game.cpp`) -/

/-- The members of `Game` that `PlaceFood` reads.  The two snakes are given by
their `SnakeCell` predicates (the body of `Snake::SnakeCell` is not among the
sources) and the obstacle manager by the cells its obstacles occupy. -/
structure Game where
  snake_ : Int → Int → Bool
  ai_snake_ : Int → Int → Bool
  obstacles_ : List SDL_Point
  foods_ : List Food

/-- The constant `Game::kMaxFoodItems`. -/
def kMaxFoodItems : Nat := 5

/-- The local constant `max_attempts` of `PlaceFood`. -/
def max_attempts : Nat := 100

/-- `Food::IsAt`. -/
def Food.IsAt (f : Food) (x y : Int) : Bool :=
  f.position_.x == x && f.position_.y == y

/-- `Game::IsValidFoodPosition`. -/
def Game.IsValidFoodPosition (g : Game) (x y : Int) : Bool :=
  if g.snake_ x y then false
  else if g.ai_snake_ x y then false
  else if occupies g.obstacles_ x y then false
  else if g.foods_.any (fun food => food.IsAt x y) then false
  else true

/-- The `do ... while` loop of `PlaceFood`, entered with `attempts` attempts
made; `created n` is the food that the `n`-th call of `CreateRandomFood` in
this loop returns.  The result is `new_food` and `attempts` at the exit. -/
def placeFoodLoop (g : Game) (created : Nat → Food) : Nat → Nat → Option (Food × Nat)
  | 0, _ => none
  | fuel + 1, attempts =>
    let new_food := created attempts
    let x := new_food.GetX
    let y := new_food.GetY
    let attempts1 := attempts + 1
    if !g.IsValidFoodPosition x y && decide (attempts1 < max_attempts) then
      placeFoodLoop g created fuel attempts1
    else some (new_food, attempts1)

/-- `Game::PlaceFood`; `none` when the loop does not end within `max_attempts`
rounds (it always does). -/
def Game.PlaceFood (created : Nat → Food) (g : Game) : Option Game :=
  if g.foods_.length ≥ kMaxFoodItems then some g
  else
    match placeFoodLoop g created max_attempts 0 with
    | none => none
    | some (new_food, attempts) =>
      if attempts < max_attempts then some { g with foods_ := g.foods_ ++ [new_food] }
      else some g

/-! ## Predicates used in the statements and the invariants of the search -/

/-- The cell lies on the grid. -/
def InGrid (s : AISnake) (p : SDL_Point) : Prop :=
  0 ≤ p.x ∧ p.x < s.grid_width_ ∧ 0 ≤ p.y ∧ p.y < s.grid_height_

/-- A grid with at least one cell and a start cell on it. -/
def GridOK (s : AISnake) (start : SDL_Point) : Prop :=
  0 < s.grid_width_ ∧ 0 < s.grid_height_ ∧ InGrid s start

/-- One move of the agent: from `a` onto a 4-neighbour `b` (toroidal) that is not
blocked. -/
def Step (s : AISnake) (a b : SDL_Point) : Prop :=
  b ∈ s.GetNeighbors a.x a.y ∧ s.IsWalkable b.x b.y = true

instance (s : AISnake) (a b : SDL_Point) : Decidable (Step s a b) :=
  inferInstanceAs (Decidable (_ ∧ _))

instance (s : AISnake) (p : SDL_Point) : Decidable (InGrid s p) :=
  inferInstanceAs (Decidable (_ ∧ _ ∧ _ ∧ _))

/-- A walk of the agent: starting on `a`, it moves through the cells of the list
in order, each move a legal `Step`. -/
def IsWalk (s : AISnake) : SDL_Point → List SDL_Point → Prop
  | _, [] => True
  | a, b :: rest => Step s a b ∧ IsWalk s b rest

/-- Walks can be checked by running through the list. -/
def IsWalk.decide (s : AISnake) : (a : SDL_Point) → (p : List SDL_Point) →
    Decidable (IsWalk s a p)
  | _, [] => isTrue trivial
  | a, b :: rest =>
    match (inferInstance : Decidable (Step s a b)), IsWalk.decide s b rest with
    | isTrue h1, isTrue h2 => isTrue ⟨h1, h2⟩
    | isFalse h1, _ => isFalse (fun h => h1 h.1)
    | _, isFalse h2 => isFalse (fun h => h2 h.2)

instance (s : AISnake) (a : SDL_Point) (p : List SDL_Point) : Decidable (IsWalk s a p) :=
  IsWalk.decide s a p

/-- The facts about `node_map`, the queue and the closed set that hold at every
point of the search: the parent pointers form a tree rooted at the start node. -/
structure TreeInv (s : AISnake) (start : SDL_Point) (st : SearchState) : Prop where
  keys_nodup : (st.node_map.map Prod.fst).Nodup
  key_hash : ∀ k n, nodeAt st.node_map k = some n → k = n.y * s.grid_width_ + n.x
  start_node : ∃ n, nodeAt st.node_map (s.hash start) = some n ∧ n.x = start.x ∧
    n.y = start.y ∧ n.g_cost = 0 ∧ n.parent = none
  root_only : ∀ k n, nodeAt st.node_map k = some n → n.parent = none → k = s.hash start
  parent_ok : ∀ k n pk, nodeAt st.node_map k = some n → n.parent = some pk →
    ∃ p, nodeAt st.node_map pk = some p ∧ pk ∈ st.closed_set ∧ n.g_cost = p.g_cost + 1 ∧
      s.IsWalkable n.x n.y = true ∧
      (GridOK s start → (⟨n.x, n.y⟩ : SDL_Point) ∈ s.GetNeighbors p.x p.y)
  g_bound : ∀ k n, nodeAt st.node_map k = some n →
    0 ≤ n.g_cost ∧ n.g_cost < st.node_map.length
  open_nodes : ∀ k ∈ st.open_set, (nodeAt st.node_map k).isSome
  closed_nodup : st.closed_set.Nodup
  closed_nodes : ∀ k ∈ st.closed_set, (nodeAt st.node_map k).isSome
  open_all : ∀ k, (nodeAt st.node_map k).isSome → k ∉ st.closed_set → k ∈ st.open_set
  in_grid : GridOK s start → ∀ k n, nodeAt st.node_map k = some n → InGrid s ⟨n.x, n.y⟩

/-- No closed node is the goal, and every closed node other than `skip` has been
expanded: each walkable neighbour of it has a node. -/
structure ExpInv (s : AISnake) (goal : SDL_Point) (skip : Option Int) (st : SearchState) :
    Prop where
  not_goal : ∀ k ∈ st.closed_set, ∀ n, nodeAt st.node_map k = some n →
    ¬ (n.x = goal.x ∧ n.y = goal.y)
  expanded : ∀ k ∈ st.closed_set, some k ≠ skip → ∀ n, nodeAt st.node_map k = some n →
    ∀ nb ∈ s.GetNeighbors n.x n.y, s.IsWalkable nb.x nb.y = true →
      (nodeAt st.node_map (s.hash nb)).isSome

/-- The invariant at the head of the `while` loop. -/
structure LoopInv (s : AISnake) (start goal : SDL_Point) (st : SearchState) : Prop where
  tree : TreeInv s start st
  exp : ExpInv s goal none st
  started : s.hash start ∈ st.closed_set ∨ (st.closed_set = [] ∧ st.open_set = [s.hash start])

/-- The invariant inside the `for` loop over the neighbours of `current`. -/
structure RelaxInv (s : AISnake) (start goal : SDL_Point) (cur : Int) (current : PathNode)
    (st : SearchState) : Prop where
  tree : TreeInv s start st
  exp : ExpInv s goal (some cur) st
  start_closed : s.hash start ∈ st.closed_set
  cur_closed : cur ∈ st.closed_set
  cur_node : nodeAt st.node_map cur = some current

/-- The number that goes down with every pass through the `while` loop: the
pointers in the queue plus four for every cell of the grid not yet closed. -/
def searchMeasure (s : AISnake) (st : SearchState) : Nat :=
  st.open_set.length + 4 * ((s.grid_width_ * s.grid_height_).toNat - st.closed_set.length)

/-- What `loopBody` guarantees from a state that satisfies the loop invariant. -/
def BodyPost (s : AISnake) (start goal : SDL_Point) (st : SearchState) : LoopStep → Prop
  | .ret route st1 =>
    (route = [] ∧ st1 = st ∧ st.open_set = []) ∨
    (∃ cur current, TreeInv s start st1 ∧ nodeAt st1.node_map cur = some current ∧
      current.x = goal.x ∧ current.y = goal.y ∧ route = ReconstructPath st1.node_map cur)
  | .cont st1 => LoopInv s start goal st1 ∧
      (GridOK s start → searchMeasure s st1 < searchMeasure s st)
  | .stuck => False

/-- What the `while` loop guarantees about the route it returns and the state it
leaves. -/
def LoopPost (s : AISnake) (start goal : SDL_Point) (route : List SDL_Point)
    (st1 : SearchState) : Prop :=
  (route = [] ∧ LoopInv s start goal st1 ∧ st1.open_set = []) ∨
  (∃ cur current, TreeInv s start st1 ∧ nodeAt st1.node_map cur = some current ∧
    current.x = goal.x ∧ current.y = goal.y ∧ route = ReconstructPath st1.node_map cur)

/-- The state of the search once the start cell has been expanded next to the
goal: the goal node hangs off the start node and its pointer is on top of the
queue. -/
structure GoalFirst (s : AISnake) (start goal : SDL_Point) (st : SearchState) : Prop where
  closed : st.closed_set = [s.hash start]
  start_node : nodeAt st.node_map (s.hash start) = some (startNode s start goal)
  goal_node : ∃ n, nodeAt st.node_map (s.hash goal) = some n ∧ n.x = goal.x ∧ n.y = goal.y ∧
    n.parent = some (s.hash start) ∧ n.f_cost = 1
  top : st.open_set.head? = some (s.hash goal)
  g_le : ∀ k n, nodeAt st.node_map k = some n → n.g_cost ≤ 1

/-- The state of the search while the start cell is being expanded and the goal,
one of its neighbours, has not been reached yet: every pointer in the queue
has f-cost at least 2. -/
structure PreGoal (s : AISnake) (start goal : SDL_Point) (st : SearchState) : Prop where
  closed : st.closed_set = [s.hash start]
  start_node : nodeAt st.node_map (s.hash start) = some (startNode s start goal)
  no_goal : nodeAt st.node_map (s.hash goal) = none
  queue : ∀ k ∈ st.open_set, ∃ n, nodeAt st.node_map k = some n ∧ 2 ≤ n.f_cost
  g_le : ∀ k n, nodeAt st.node_map k = some n → n.g_cost ≤ 1

/-- The start cell is closed, or it is the cell of the node on top of the queue
(as before the first pass). -/
def StartClosed (s : AISnake) (start : SDL_Point) (st : SearchState) : Prop :=
  s.hash start ∈ st.closed_set ∨
    ∀ cur current, st.open_set.head? = some cur → nodeAt st.node_map cur = some current →
      current.y * s.grid_width_ + current.x = s.hash start

/-- The list `p` is a sequence of 4-neighbour toroidal steps from `a`, whether
the cells are blocked or not. -/
def IsStepSeq (s : AISnake) : SDL_Point → List SDL_Point → Prop
  | _, [] => True
  | a, b :: rest => b ∈ s.GetNeighbors a.x a.y ∧ IsStepSeq s b rest

/-! ## The queue is a bag: push adds one pointer, pop removes the top -/

theorem cons_set_perm (v x : Int) : ∀ (t : List Int) (i : Nat), i < t.length →
    (v :: t.set i x).Perm (x :: t.set i v)
  | [], i, h => by simp at h
  | y :: t, 0, _ => by
    simp only [List.set_cons_zero]
    exact List.Perm.swap x v t
  | y :: t, i + 1, h => by
    simp only [List.set_cons_succ]
    have ih := cons_set_perm v x t i (by simpa using h)
    exact (List.Perm.swap y v _).trans (((List.Perm.cons y ih)).trans (List.Perm.swap x y _))

theorem set_getD_self : ∀ (t : List Int) (j : Nat), t.set j (t.getD j 0) = t
  | [], _ => by simp
  | _ :: _, 0 => by simp
  | x :: t, j + 1 => by
    simp only [List.getD_cons_succ, List.set_cons_succ, set_getD_self t j]

/-- Moving the hole from `i` to `j`: the vector with the value in the new hole
is a rearrangement of the vector with the value in the old hole. -/
theorem hole_move_perm (v : Int) : ∀ (a : List Int) (i j : Nat), i < a.length → j < a.length →
    i ≠ j → ((a.set i (a.getD j 0)).set j v).Perm (a.set i v)
  | [], i, _, h, _, _ => by simp at h
  | x :: t, 0, 0, _, _, hij => absurd rfl hij
  | x :: t, 0, j + 1, _, hj, _ => by
    have hj' : j < t.length := by simpa using hj
    simp only [List.getD_cons_succ, List.set_cons_zero, List.set_cons_succ]
    have h1 := cons_set_perm v (t.getD j 0) t j hj'
    rw [set_getD_self] at h1
    exact h1.symm
  | x :: t, i + 1, 0, hi, _, _ => by
    have hi' : i < t.length := by simpa using hi
    simp only [List.getD_cons_zero, List.set_cons_zero, List.set_cons_succ]
    exact cons_set_perm v x t i hi'
  | x :: t, i + 1, j + 1, hi, hj, hij => by
    simp only [List.getD_cons_succ, List.set_cons_succ]
    exact List.Perm.cons x (hole_move_perm v t i j (by simpa using hi) (by simpa using hj)
      (fun h => hij (by rw [h])))

theorem pushHeapLoop_perm (m : NodeMap) (v : Int) : ∀ (fuel : Nat) (a : List Int) (hole : Nat),
    hole < a.length → (pushHeapLoop m v fuel a hole).Perm (a.set hole v)
  | 0, a, hole, _ => by simp [pushHeapLoop]
  | fuel + 1, a, hole, h => by
    unfold pushHeapLoop
    split
    · rename_i hc
      have hp : (hole - 1) / 2 < hole := by omega
      have ih := pushHeapLoop_perm m v fuel (a.set hole (a.getD ((hole - 1) / 2) 0))
        ((hole - 1) / 2) (by rw [List.length_set]; omega)
      exact ih.trans (hole_move_perm v a hole _ h (by omega) (by omega))
    · exact List.Perm.refl _

theorem pqPush_perm (m : NodeMap) (a : List Int) (p : Int) : (pqPush m a p).Perm (p :: a) := by
  unfold pqPush
  have h := pushHeapLoop_perm m p a.length (a ++ [p]) a.length (by simp)
  have h2 : (a ++ [p]).set a.length p = a ++ [p] := by
    simp
  rw [h2] at h
  exact h.trans (List.perm_append_singleton p a)

theorem adjustHeapLoop_perm (m : NodeMap) (len : Nat) (v : Int) :
    ∀ (fuel : Nat) (a : List Int) (hole : Nat), hole < a.length → len ≤ a.length →
      (adjustHeapLoop m len fuel a hole).2 < a.length ∧
      (adjustHeapLoop m len fuel a hole).1.length = a.length ∧
      ((adjustHeapLoop m len fuel a hole).1.set (adjustHeapLoop m len fuel a hole).2 v).Perm
        (a.set hole v)
  | 0, a, hole, h, _ => by simp [adjustHeapLoop, h]
  | fuel + 1, a, hole, h, hl => by
    unfold adjustHeapLoop
    split
    · rename_i hc
      simp only
      split
      · have hch : 2 * (hole + 1) - 1 < a.length := by omega
        have ih := adjustHeapLoop_perm m len v fuel
          (a.set hole (a.getD (2 * (hole + 1) - 1) 0)) (2 * (hole + 1) - 1)
          (by rw [List.length_set]; exact hch) (by rw [List.length_set]; exact hl)
        rw [List.length_set] at ih
        exact ⟨ih.1, ih.2.1, ih.2.2.trans (hole_move_perm v a hole _ h hch (by omega))⟩
      · have hch : 2 * (hole + 1) < a.length := by omega
        have ih := adjustHeapLoop_perm m len v fuel
          (a.set hole (a.getD (2 * (hole + 1)) 0)) (2 * (hole + 1))
          (by rw [List.length_set]; exact hch) (by rw [List.length_set]; exact hl)
        rw [List.length_set] at ih
        exact ⟨ih.1, ih.2.1, ih.2.2.trans (hole_move_perm v a hole _ h hch (by omega))⟩
    · exact ⟨h, rfl, List.Perm.refl _⟩

theorem adjustHeap_perm (m : NodeMap) (a : List Int) (v : Int) (h : 0 < a.length) :
    (adjustHeap m a v).Perm (a.set 0 v) := by
  unfold adjustHeap
  obtain ⟨h1, h2, h3⟩ := adjustHeapLoop_perm m a.length v a.length a 0 h (le_refl _)
  simp only
  split
  · rename_i hc
    have hne : (adjustHeapLoop m a.length a.length a 0).2 ≠
        2 * ((adjustHeapLoop m a.length a.length a 0).2 + 1) - 1 := by omega
    have hlt : 2 * ((adjustHeapLoop m a.length a.length a 0).2 + 1) - 1 <
        (adjustHeapLoop m a.length a.length a 0).1.length := by omega
    have hp := pushHeapLoop_perm m v a.length
      ((adjustHeapLoop m a.length a.length a 0).1.set (adjustHeapLoop m a.length a.length a 0).2
        ((adjustHeapLoop m a.length a.length a 0).1.getD
          (2 * ((adjustHeapLoop m a.length a.length a 0).2 + 1) - 1) 0))
      (2 * ((adjustHeapLoop m a.length a.length a 0).2 + 1) - 1)
      (by rw [List.length_set]; exact hlt)
    exact hp.trans ((hole_move_perm v _ _ _ (by omega) hlt hne).trans h3)
  · exact (pushHeapLoop_perm m v a.length _ _ (by omega)).trans h3

/-- Popping removes exactly the top pointer: what stays is a rearrangement of the
rest of the vector. -/
theorem pqPop_perm (m : NodeMap) (c : Int) (t : List Int) : (pqPop m (c :: t)).Perm t := by
  unfold pqPop
  split
  · rename_i h
    have hne : t ≠ [] := by
      intro h0; simp [h0] at h
    have hd : (c :: t).dropLast = c :: t.dropLast := by
      cases t with
      | nil => exact absurd rfl hne
      | cons y t => rfl
    have hl : (c :: t).getD ((c :: t).length - 1) 0 = t.getLast hne := by
      cases t with
      | nil => exact absurd rfl hne
      | cons y t =>
        simp only [List.length_cons, Nat.add_sub_cancel, List.getD_cons_succ]
        rw [List.getLast_eq_getElem, List.getD_eq_getElem _ _ (by simp)]
        simp
    rw [hd, hl]
    have hp := adjustHeap_perm m (c :: t.dropLast) (t.getLast hne) (by simp)
    simp only [List.set_cons_zero] at hp
    refine hp.trans ?_
    have := List.perm_append_singleton (t.getLast hne) t.dropLast
    rw [List.dropLast_append_getLast hne] at this
    exact this.symm
  · rename_i h
    have : t = [] := by
      cases t with
      | nil => rfl
      | cons y t => simp at h
    subst this
    simp

/-! ## Reading and writing `node_map` -/

theorem nodeAt_isSome_iff (m : NodeMap) (k : Int) :
    (nodeAt m k).isSome ↔ k ∈ m.map Prod.fst := by
  induction m with
  | nil => simp [nodeAt]
  | cons e m ih =>
    obtain ⟨k', n⟩ := e
    unfold nodeAt
    by_cases h : k' = k
    · simp [h]
    · simp only [h, if_false, List.map_cons, List.mem_cons]
      rw [ih]
      constructor
      · intro h1; exact Or.inr h1
      · rintro (h1 | h1)
        · exact absurd h1.symm h
        · exact h1

theorem nodeAt_eq_none_iff (m : NodeMap) (k : Int) :
    nodeAt m k = none ↔ k ∉ m.map Prod.fst := by
  rw [← nodeAt_isSome_iff]
  cases nodeAt m k <;> simp

theorem nodeAt_append (m : NodeMap) (k k' : Int) (n : PathNode) :
    nodeAt (m ++ [(k, n)]) k' =
      match nodeAt m k' with
      | some x => some x
      | none => if k = k' then some n else none := by
  induction m with
  | nil => simp [nodeAt]
  | cons e m ih =>
    obtain ⟨k0, n0⟩ := e
    simp only [List.cons_append, nodeAt]
    by_cases h : k0 = k'
    · simp [h]
    · simp only [h, if_false]
      exact ih

theorem nodeAt_append_of_ne (m : NodeMap) (k k' : Int) (n : PathNode) (h : k' ≠ k) :
    nodeAt (m ++ [(k, n)]) k' = nodeAt m k' := by
  rw [nodeAt_append]
  cases nodeAt m k' with
  | some x => rfl
  | none => simp [Ne.symm h]

theorem nodeAt_append_new (m : NodeMap) (k : Int) (n : PathNode) (h : nodeAt m k = none) :
    nodeAt (m ++ [(k, n)]) k = some n := by
  rw [nodeAt_append, h]; simp

theorem nodeAt_nodeSet_of_ne (m : NodeMap) (k k' : Int) (n : PathNode) (h : k' ≠ k) :
    nodeAt (nodeSet m k n) k' = nodeAt m k' := by
  induction m with
  | nil => simp [nodeSet]
  | cons e m ih =>
    obtain ⟨k0, n0⟩ := e
    unfold nodeSet
    by_cases h0 : k0 = k
    · simp only [h0, if_true]
      unfold nodeAt
      simp [Ne.symm h]
    · simp only [h0, if_false]
      unfold nodeAt
      by_cases h1 : k0 = k'
      · simp [h1]
      · simp only [h1, if_false]
        exact ih

theorem nodeAt_nodeSet_self (m : NodeMap) (k : Int) (n n0 : PathNode)
    (h : nodeAt m k = some n0) : nodeAt (nodeSet m k n) k = some n := by
  induction m with
  | nil => simp [nodeAt] at h
  | cons e m ih =>
    obtain ⟨k0, n1⟩ := e
    unfold nodeSet
    by_cases h0 : k0 = k
    · simp only [h0, if_true]
      simp [nodeAt]
    · simp only [h0, if_false]
      unfold nodeAt at h ⊢
      simp only [h0, if_false] at h ⊢
      exact ih h

theorem nodeSet_keys (m : NodeMap) (k : Int) (n : PathNode) :
    (nodeSet m k n).map Prod.fst = m.map Prod.fst := by
  induction m with
  | nil => simp [nodeSet]
  | cons e m ih =>
    obtain ⟨k0, n0⟩ := e
    unfold nodeSet
    by_cases h0 : k0 = k
    · simp [h0]
    · simp [h0, ih]

theorem nodeSet_length (m : NodeMap) (k : Int) (n : PathNode) :
    (nodeSet m k n).length = m.length := by
  have := congrArg List.length (nodeSet_keys m k n)
  simpa using this

/-! ## Cells and keys on the grid -/

theorem tmod_inGrid (a w : Int) (ha : 0 ≤ a) (hw : 0 < w) : 0 ≤ a.tmod w ∧ a.tmod w < w := by
  rw [Int.tmod_eq_emod ha (le_of_lt hw)]
  exact ⟨Int.emod_nonneg _ (ne_of_gt hw), Int.emod_lt_of_pos _ hw⟩

theorem neighbors_inGrid (s : AISnake) (hw : 0 < s.grid_width_) (hh : 0 < s.grid_height_)
    (p : SDL_Point) (hp : InGrid s p) :
    ∀ nb ∈ s.GetNeighbors p.x p.y, InGrid s nb := by
  obtain ⟨h1, h2, h3, h4⟩ := hp
  intro nb hnb
  simp only [AISnake.GetNeighbors, List.mem_cons, List.mem_singleton, List.not_mem_nil,
    or_false] at hnb
  rcases hnb with rfl | rfl | rfl | rfl
  · exact ⟨(tmod_inGrid _ _ (by omega) hw).1, (tmod_inGrid _ _ (by omega) hw).2, h3, h4⟩
  · exact ⟨(tmod_inGrid _ _ (by omega) hw).1, (tmod_inGrid _ _ (by omega) hw).2, h3, h4⟩
  · exact ⟨h1, h2, (tmod_inGrid _ _ (by omega) hh).1, (tmod_inGrid _ _ (by omega) hh).2⟩
  · exact ⟨h1, h2, (tmod_inGrid _ _ (by omega) hh).1, (tmod_inGrid _ _ (by omega) hh).2⟩

theorem hash_inj (s : AISnake) (p q : SDL_Point) (hp : InGrid s p) (hq : InGrid s q)
    (h : p.y * s.grid_width_ + p.x = q.y * s.grid_width_ + q.x) : p = q := by
  obtain ⟨p1, p2, p3, p4⟩ := hp
  obtain ⟨q1, q2, q3, q4⟩ := hq
  have hy : p.y = q.y := by
    by_contra hne
    rcases lt_or_gt_of_ne hne with hlt | hgt
    · have : (p.y + 1) * s.grid_width_ ≤ q.y * s.grid_width_ :=
        mul_le_mul_of_nonneg_right (by omega) (by omega)
      have e : (p.y + 1) * s.grid_width_ = p.y * s.grid_width_ + s.grid_width_ := by ring
      omega
    · have : (q.y + 1) * s.grid_width_ ≤ p.y * s.grid_width_ :=
        mul_le_mul_of_nonneg_right (by omega) (by omega)
      have e : (q.y + 1) * s.grid_width_ = q.y * s.grid_width_ + s.grid_width_ := by ring
      omega
  have hx : p.x = q.x := by
    rw [hy] at h; omega
  cases p; cases q; simp_all

theorem hash_range (s : AISnake) (p : SDL_Point) (hp : InGrid s p) :
    0 ≤ p.y * s.grid_width_ + p.x ∧
      p.y * s.grid_width_ + p.x < s.grid_width_ * s.grid_height_ := by
  obtain ⟨p1, p2, p3, p4⟩ := hp
  have h1 : 0 ≤ p.y * s.grid_width_ := mul_nonneg p3 (by omega)
  have h2 : (p.y + 1) * s.grid_width_ ≤ s.grid_height_ * s.grid_width_ :=
    mul_le_mul_of_nonneg_right (by omega) (by omega)
  have e : (p.y + 1) * s.grid_width_ = p.y * s.grid_width_ + s.grid_width_ := by ring
  have e2 : s.grid_height_ * s.grid_width_ = s.grid_width_ * s.grid_height_ := by ring
  omega

/-! ## One relaxation keeps the invariant -/

theorem relaxInv_write (s : AISnake) (start goal : SDL_Point) (cur : Int) (current : PathNode)
    (st : SearchState) (hI : RelaxInv s start goal cur current st)
    (nh : Int) (node' : PathNode) (m' : NodeMap) (open' : List Int)
    (hnc : nh ∉ st.closed_set)
    (hother : ∀ k, k ≠ nh → nodeAt m' k = nodeAt st.node_map k)
    (hself : nodeAt m' nh = some node')
    (hkeys : (m'.map Prod.fst).Nodup)
    (hlen : st.node_map.length ≤ m'.length)
    (hkey : nh = node'.y * s.grid_width_ + node'.x)
    (hpar : node'.parent = some cur)
    (hg : node'.g_cost = current.g_cost + 1)
    (hgb : node'.g_cost < m'.length)
    (hwalk : s.IsWalkable node'.x node'.y = true)
    (hadj : GridOK s start → (⟨node'.x, node'.y⟩ : SDL_Point) ∈ s.GetNeighbors current.x current.y)
    (hin : GridOK s start → InGrid s ⟨node'.x, node'.y⟩)
    (hopen : open'.Perm (nh :: st.open_set)) :
    RelaxInv s start goal cur current ⟨m', open', st.closed_set⟩ ∧
      ∀ k, (nodeAt st.node_map k).isSome → (nodeAt m' k).isSome := by
  have hT := hI.tree
  have hcl : ∀ k ∈ st.closed_set, nodeAt m' k = nodeAt st.node_map k := fun k hk =>
    hother k (fun h => hnc (h ▸ hk))
  have hmono : ∀ k, (nodeAt st.node_map k).isSome → (nodeAt m' k).isSome := by
    intro k hk
    by_cases h : k = nh
    · rw [h, hself]; rfl
    · rw [hother k h]; exact hk
  have hcur : nodeAt m' cur = some current := by
    rw [hcl cur hI.cur_closed]; exact hI.cur_node
  refine ⟨⟨⟨hkeys, ?_, ?_, ?_, ?_, ?_, ?_, hT.closed_nodup, ?_, ?_, ?_⟩, ⟨?_, ?_⟩,
    hI.start_closed, hI.cur_closed, hcur⟩, hmono⟩
  · -- key_hash
    intro k n hn
    by_cases h : k = nh
    · subst h; rw [hself] at hn; cases hn; exact hkey
    · rw [hother k h] at hn; exact hT.key_hash k n hn
  · -- start_node
    obtain ⟨n, hn, h⟩ := hT.start_node
    exact ⟨n, by rw [hcl _ hI.start_closed]; exact hn, h⟩
  · -- root_only
    intro k n hn hp
    by_cases h : k = nh
    · subst h; rw [hself] at hn; cases hn; rw [hpar] at hp; cases hp
    · rw [hother k h] at hn; exact hT.root_only k n hn hp
  · -- parent_ok
    intro k n pk hn hp
    by_cases h : k = nh
    · subst h; rw [hself] at hn; cases hn
      rw [hpar] at hp; cases hp
      exact ⟨current, hcur, hI.cur_closed, hg, hwalk, hadj⟩
    · rw [hother k h] at hn
      obtain ⟨p, h1, h2, h3⟩ := hT.parent_ok k n pk hn hp
      exact ⟨p, by rw [hcl pk h2]; exact h1, h2, h3⟩
  · -- g_bound
    intro k n hn
    by_cases h : k = nh
    · subst h; rw [hself] at hn; cases hn
      have := (hT.g_bound cur current hI.cur_node).1
      exact ⟨by omega, hgb⟩
    · rw [hother k h] at hn
      have := hT.g_bound k n hn
      refine ⟨this.1, ?_⟩
      show n.g_cost < (m'.length : Int)
      omega
  · -- open_nodes
    intro k hk
    rcases List.mem_cons.1 (hopen.mem_iff.1 hk) with h | h
    · rw [h, hself]; rfl
    · exact hmono k (hT.open_nodes k h)
  · -- closed_nodes
    intro k hk
    exact hmono k (hT.closed_nodes k hk)
  · -- open_all
    intro k hk hkc
    refine hopen.mem_iff.2 (List.mem_cons.2 ?_)
    by_cases h : k = nh
    · exact Or.inl h
    · rw [hother k h] at hk
      exact Or.inr (hT.open_all k hk hkc)
  · -- in_grid
    intro hG k n hn
    by_cases h : k = nh
    · subst h; rw [hself] at hn; cases hn; exact hin hG
    · rw [hother k h] at hn; exact hT.in_grid hG k n hn
  · -- not_goal
    intro k hk n hn
    rw [hcl k hk] at hn
    exact hI.exp.not_goal k hk n hn
  · -- expanded
    intro k hk hsk n hn nb hnb hw
    rw [hcl k hk] at hn
    exact hmono _ (hI.exp.expanded k hk hsk n hn nb hnb hw)

theorem relax_spec (s : AISnake) (start goal : SDL_Point) (cur : Int) (current : PathNode)
    (st : SearchState) (nb : SDL_Point) (hI : RelaxInv s start goal cur current st)
    (hnb : nb ∈ s.GetNeighbors current.x current.y) :
    RelaxInv s start goal cur current (relax s goal cur current st nb) ∧
    (relax s goal cur current st nb).closed_set = st.closed_set ∧
    (relax s goal cur current st nb).open_set.length ≤ st.open_set.length + 1 ∧
    (∀ k, (nodeAt st.node_map k).isSome →
      (nodeAt (relax s goal cur current st nb).node_map k).isSome) ∧
    (s.IsWalkable nb.x nb.y = true →
      (nodeAt (relax s goal cur current st nb).node_map (s.hash nb)).isSome) := by
  have hT := hI.tree
  unfold relax
  simp only []
  split
  · rename_i hc
    exact ⟨hI, rfl, by omega, fun k hk => hk, fun _ => hT.closed_nodes _ hc⟩
  · rename_i hc
    split
    · rename_i hw
      exact ⟨hI, rfl, by omega, fun k hk => hk, fun h => by rw [hw] at h; cases h⟩
    · rename_i hw
      have hwalk : s.IsWalkable nb.x nb.y = true := by
        cases h : s.IsWalkable nb.x nb.y
        · exact absurd h hw
        · rfl
      have hcurin : GridOK s start → InGrid s ⟨current.x, current.y⟩ := fun hG =>
        hT.in_grid hG cur current hI.cur_node
      have hnbin : GridOK s start → InGrid s nb := fun hG =>
        neighbors_inGrid s hG.1 hG.2.1 ⟨current.x, current.y⟩ (hcurin hG) nb hnb
      split
      · rename_i node hnode
        split
        · exact ⟨hI, rfl, by omega, fun k hk => hk, fun _ => by rw [hnode]; rfl⟩
        · rename_i hlt
          have hlt' : current.g_cost + 1 < node.g_cost := by omega
          have hkh := hT.key_hash _ node hnode
          -- the node is not the start node, so it has a parent and is walkable
          have hpar : ∃ pk, node.parent = some pk := by
            cases hp : node.parent with
            | none =>
              have := hT.root_only _ node hnode hp
              exact absurd (this ▸ hI.start_closed) hc
            | some pk => exact ⟨pk, rfl⟩
          obtain ⟨pk, hpk⟩ := hpar
          obtain ⟨p, _, _, _, hnw, _⟩ := hT.parent_ok _ node pk hnode hpk
          have hsame : GridOK s start → (⟨node.x, node.y⟩ : SDL_Point) = nb := fun hG =>
            hash_inj s _ _ (hT.in_grid hG _ node hnode) (hnbin hG) hkh.symm
          have hW := relaxInv_write s start goal cur current st hI (s.hash nb)
            { node with g_cost := current.g_cost + 1,
                        h_cost := s.Heuristic nb.x nb.y goal.x goal.y, parent := some cur }
            (nodeSet st.node_map (s.hash nb)
              { node with g_cost := current.g_cost + 1,
                          h_cost := s.Heuristic nb.x nb.y goal.x goal.y, parent := some cur })
            (pqPush (nodeSet st.node_map (s.hash nb)
              { node with g_cost := current.g_cost + 1,
                          h_cost := s.Heuristic nb.x nb.y goal.x goal.y, parent := some cur })
              st.open_set (s.hash nb))
            hc (fun k hk => nodeAt_nodeSet_of_ne _ _ _ _ hk)
            (nodeAt_nodeSet_self _ _ _ _ hnode)
            (by rw [nodeSet_keys]; exact hT.keys_nodup)
            (by rw [nodeSet_length])
            hkh rfl rfl
            (by rw [nodeSet_length]; have := (hT.g_bound _ node hnode).2; simp only; omega)
            hnw
            (fun hG => by rw [hsame hG]; exact hnb)
            (fun hG => hT.in_grid hG _ node hnode)
            (pqPush_perm _ _ _)
          refine ⟨hW.1, rfl, ?_, hW.2, fun _ => ?_⟩
          · simp only [(pqPush_perm _ _ _).length_eq, List.length_cons]; omega
          · simp only [nodeAt_nodeSet_self _ _ _ _ hnode]; rfl
      · rename_i hnone
        have hW := relaxInv_write s start goal cur current st hI (s.hash nb)
          { x := nb.x, y := nb.y, g_cost := current.g_cost + 1,
            h_cost := s.Heuristic nb.x nb.y goal.x goal.y, parent := some cur }
          (st.node_map ++ [(s.hash nb,
            { x := nb.x, y := nb.y, g_cost := current.g_cost + 1,
              h_cost := s.Heuristic nb.x nb.y goal.x goal.y, parent := some cur })])
          (pqPush (st.node_map ++ [(s.hash nb,
            { x := nb.x, y := nb.y, g_cost := current.g_cost + 1,
              h_cost := s.Heuristic nb.x nb.y goal.x goal.y, parent := some cur })])
            st.open_set (s.hash nb))
          hc (fun k hk => nodeAt_append_of_ne _ _ _ _ hk)
          (nodeAt_append_new _ _ _ hnone)
          (by
            rw [List.map_append, List.map_cons, List.map_nil]
            refine List.Nodup.append hT.keys_nodup (List.nodup_singleton _) ?_
            rw [List.disjoint_singleton]  
            exact (nodeAt_eq_none_iff _ _).1 hnone)
          (by simp)
          rfl rfl rfl
          (by
            have := (hT.g_bound cur current hI.cur_node).2
            simp only [List.length_append, List.length_singleton]
            push_cast; omega)
          hwalk
          (fun _ => hnb)
          (fun hG => hnbin hG)
          (pqPush_perm _ _ _)
        refine ⟨hW.1, rfl, ?_, hW.2, fun _ => ?_⟩
        · simp only [(pqPush_perm _ _ _).length_eq, List.length_cons]; omega
        · simp only [nodeAt_append_new _ _ _ hnone]; rfl

/-! ## The loop over the neighbours and one pass through the `while` loop -/

theorem foldl_relax_spec (s : AISnake) (start goal : SDL_Point) (cur : Int)
    (current : PathNode) : ∀ (l : List SDL_Point) (st : SearchState),
    (∀ nb ∈ l, nb ∈ s.GetNeighbors current.x current.y) →
    RelaxInv s start goal cur current st →
    RelaxInv s start goal cur current (l.foldl (relax s goal cur current) st) ∧
    (l.foldl (relax s goal cur current) st).closed_set = st.closed_set ∧
    (l.foldl (relax s goal cur current) st).open_set.length ≤ st.open_set.length + l.length ∧
    (∀ k, (nodeAt st.node_map k).isSome →
      (nodeAt (l.foldl (relax s goal cur current) st).node_map k).isSome) ∧
    (∀ nb ∈ l, s.IsWalkable nb.x nb.y = true →
      (nodeAt (l.foldl (relax s goal cur current) st).node_map (s.hash nb)).isSome)
  | [], st, _, hI => ⟨hI, rfl, by simp, fun _ h => h, fun _ h => by simp at h⟩
  | nb :: l, st, hl, hI => by
    obtain ⟨h1, h2, h3, h4, h5⟩ :=
      relax_spec s start goal cur current st nb hI (hl nb (List.mem_cons_self _ _))
    obtain ⟨i1, i2, i3, i4, i5⟩ := foldl_relax_spec s start goal cur current l
      (relax s goal cur current st nb) (fun x hx => hl x (List.mem_cons_of_mem _ hx)) h1
    simp only [List.foldl_cons]
    refine ⟨i1, i2.trans h2, ?_, fun k hk => i4 k (h4 k hk), ?_⟩
    · simp only [List.length_cons]; omega
    · intro x hx hw
      rcases List.mem_cons.1 hx with rfl | hx
      · exact i4 _ (h5 hw)
      · exact i5 x hx hw

theorem nodup_range_length (N : Int) : ∀ (l : List Int), l.Nodup →
    (∀ k ∈ l, 0 ≤ k ∧ k < N) → l.length ≤ N.toNat := by
  intro l hnd hr
  have h1 : (l.map Int.toNat).Nodup := by
    refine List.Nodup.map_on ?_ hnd
    intro a ha b hb hab
    have := hr a ha
    have := hr b hb
    omega
  have h2 : l.map Int.toNat ⊆ List.range N.toNat := by
    intro x hx
    obtain ⟨k, hk, rfl⟩ := List.mem_map.1 hx
    have := hr k hk
    rw [List.mem_range]
    omega
  have h3 := (List.subperm_of_subset h1 h2).length_le
  simpa using h3

theorem closed_length_le (s : AISnake) (start : SDL_Point) (st : SearchState)
    (hT : TreeInv s start st) (hG : GridOK s start) :
    st.closed_set.length ≤ (s.grid_width_ * s.grid_height_).toNat := by
  refine nodup_range_length _ _ hT.closed_nodup ?_
  intro k hk
  have h1 := hT.closed_nodes k hk
  obtain ⟨n, hn⟩ := Option.isSome_iff_exists.1 h1
  have h2 := hT.key_hash k n hn
  have h3 := hash_range s ⟨n.x, n.y⟩ (hT.in_grid hG k n hn)
  rw [h2]; exact h3

theorem keys_mem_of_nodeAt (m : NodeMap) (k : Int) (h : k ∈ m.map Prod.fst) :
    ∃ n, nodeAt m k = some n :=
  Option.isSome_iff_exists.1 ((nodeAt_isSome_iff m k).2 h)

theorem node_map_length_le (s : AISnake) (start : SDL_Point) (st : SearchState)
    (hT : TreeInv s start st) (hG : GridOK s start) :
    st.node_map.length ≤ (s.grid_width_ * s.grid_height_).toNat := by
  have h := nodup_range_length (s.grid_width_ * s.grid_height_) _ hT.keys_nodup (by
    intro k hk
    obtain ⟨n, hn⟩ := keys_mem_of_nodeAt _ k hk
    have h2 := hT.key_hash k n hn
    have h3 := hash_range s ⟨n.x, n.y⟩ (hT.in_grid hG k n hn)
    rw [h2]; exact h3)
  simpa using h

theorem loopBody_spec (s : AISnake) (start goal : SDL_Point) (st : SearchState)
    (hI : LoopInv s start goal st) : BodyPost s start goal st (loopBody s goal st) := by
  have hT := hI.tree
  unfold loopBody
  split
  · rename_i ho
    exact Or.inl ⟨rfl, rfl, ho⟩
  · rename_i cur rest ho
    have hcur_mem : cur ∈ st.open_set := by rw [ho]; exact List.mem_cons_self _ _
    split
    · rename_i hnone
      have := hT.open_nodes cur hcur_mem
      rw [hnone] at this; cases this
    · rename_i current hcur
      have hkey : current.y * s.grid_width_ + current.x = cur := (hT.key_hash cur current hcur).symm
      have hpop : (pqPop st.node_map st.open_set).Perm rest := by
        rw [ho]; exact pqPop_perm _ _ _
      simp only [hkey]
      split
      · -- a stale pointer: the cell is closed already
        rename_i hclosed
        refine ⟨⟨⟨hT.keys_nodup, hT.key_hash, hT.start_node, hT.root_only, hT.parent_ok,
          hT.g_bound, ?_, hT.closed_nodup, hT.closed_nodes, ?_, hT.in_grid⟩,
          ⟨hI.exp.not_goal, hI.exp.expanded⟩, ?_⟩, ?_⟩
        · intro k hk
          exact hT.open_nodes k (by rw [ho]; exact List.mem_cons_of_mem _ (hpop.mem_iff.1 hk))
        · intro k hk hkc
          have := hT.open_all k hk hkc
          rw [ho] at this
          rcases List.mem_cons.1 this with h | h
          · exact absurd (h ▸ hclosed) hkc
          · exact hpop.mem_iff.2 h
        · rcases hI.started with h | ⟨h, _⟩
          · exact Or.inl h
          · rw [h] at hclosed; cases hclosed
        · intro _
          have hl1 := hpop.length_eq
          have hl2 := (pqPop_perm st.node_map cur rest).length_eq
          have hl3 : st.open_set.length = rest.length + 1 := by rw [ho]; rfl
          simp only [searchMeasure]
          omega
      · rename_i hclosed
        -- the state after closing `cur`
        have hstart : s.hash start ∈ cur :: st.closed_set := by
          rcases hI.started with h | ⟨_, h⟩
          · exact List.mem_cons_of_mem _ h
          · rw [h] at ho; cases ho; exact List.mem_cons_self _ _
        have hT1 : TreeInv s start
            { st with open_set := pqPop st.node_map st.open_set,
                      closed_set := cur :: st.closed_set } := by
          refine ⟨hT.keys_nodup, hT.key_hash, hT.start_node, hT.root_only, ?_,
            hT.g_bound, ?_, ?_, ?_, ?_, hT.in_grid⟩
          · intro k n pk hn hp
            obtain ⟨p, h1, h2, h3⟩ := hT.parent_ok k n pk hn hp
            exact ⟨p, h1, List.mem_cons_of_mem _ h2, h3⟩
          · intro k hk
            exact hT.open_nodes k (by rw [ho]; exact List.mem_cons_of_mem _ (hpop.mem_iff.1 hk))
          · exact List.nodup_cons.2 ⟨hclosed, hT.closed_nodup⟩
          · intro k hk
            rcases List.mem_cons.1 hk with h | h
            · rw [h, hcur]; rfl
            · exact hT.closed_nodes k h
          · intro k hk hkc
            have hkc' : k ∉ st.closed_set := fun h => hkc (List.mem_cons_of_mem _ h)
            have := hT.open_all k hk hkc'
            rw [ho] at this
            rcases List.mem_cons.1 this with h | h
            · exact absurd (h ▸ List.mem_cons_self _ _) hkc
            · exact hpop.mem_iff.2 h
        split
        · rename_i hgoal
          exact Or.inr ⟨cur, current, hT1, hcur, hgoal.1, hgoal.2, rfl⟩
        · rename_i hgoal
          have hR : RelaxInv s start goal cur current
              { st with open_set := pqPop st.node_map st.open_set,
                        closed_set := cur :: st.closed_set } := by
            refine ⟨hT1, ⟨?_, ?_⟩, hstart, List.mem_cons_self _ _, hcur⟩
            · intro k hk n hn
              rcases List.mem_cons.1 hk with h | h
              · subst h
                have hn' : nodeAt st.node_map k = some n := hn
                rw [hcur] at hn'; cases hn'; exact hgoal
              · exact hI.exp.not_goal k h n hn
            · intro k hk hsk n hn nb hnb hw
              rcases List.mem_cons.1 hk with h | h
              · exact absurd (by rw [h]) hsk
              · exact hI.exp.expanded k h (by simp) n hn nb hnb hw
          obtain ⟨f1, f2, f3, f4, f5⟩ := foldl_relax_spec s start goal cur current
            (s.GetNeighbors current.x current.y) _ (fun _ h => h) hR
          refine ⟨⟨f1.tree, ⟨f1.exp.not_goal, ?_⟩, Or.inl f1.start_closed⟩, ?_⟩
          · intro k hk _ n hn nb hnb hw
            by_cases h : k = cur
            · subst h
              rw [f1.cur_node] at hn; cases hn
              exact f5 nb hnb hw
            · exact f1.exp.expanded k hk (by simpa using h) n hn nb hnb hw
          · intro hG
            have hc := closed_length_le s start _ f1.tree hG
            rw [f2] at hc
            unfold searchMeasure
            rw [f2]
            have hl : (s.GetNeighbors current.x current.y).length = 4 := rfl
            rw [hl] at f3
            have hl1 := hpop.length_eq
            have hl2 := (pqPop_perm st.node_map cur rest).length_eq
            have hl3 : st.open_set.length = rest.length + 1 := by rw [ho]; rfl
            simp only [List.length_cons] at f3 hc ⊢
            omega

/-! ## The initial state and the loop as a whole -/

theorem initState_open (s : AISnake) (start goal : SDL_Point) :
    (initState s start goal).open_set = [s.hash start] := by
  simp [initState, pqPush, pushHeapLoop]

theorem nodeAt_singleton (k k' : Int) (n n' : PathNode)
    (h : nodeAt [(k, n)] k' = some n') : k' = k ∧ n' = n := by
  unfold nodeAt at h
  by_cases hk : k = k'
  · simp only [hk, if_true] at h
    cases h
    exact ⟨hk.symm, rfl⟩
  · simp only [hk, if_false] at h
    simp [nodeAt] at h

theorem initState_inv (s : AISnake) (start goal : SDL_Point) :
    LoopInv s start goal (initState s start goal) := by
  have hself : nodeAt (initState s start goal).node_map (s.hash start) =
      some (startNode s start goal) := by
    simp [initState, nodeAt]
  have hone : ∀ k n, nodeAt (initState s start goal).node_map k = some n →
      k = s.hash start ∧ n = startNode s start goal :=
    fun k n h => nodeAt_singleton _ _ _ _ h
  refine ⟨⟨?_, ?_, ?_, ?_, ?_, ?_, ?_, ?_, ?_, ?_, ?_⟩, ⟨?_, ?_⟩, Or.inr ⟨rfl, initState_open s start goal⟩⟩
  · simp [initState]
  · intro k n h
    obtain ⟨h1, h2⟩ := hone k n h
    rw [h1, h2]; rfl
  · exact ⟨_, hself, rfl, rfl, rfl, rfl⟩
  · intro k n h _
    exact (hone k n h).1
  · intro k n pk h hp
    rw [(hone k n h).2] at hp; cases hp
  · intro k n h
    rw [(hone k n h).2]
    simp [initState, startNode]
  · intro k hk
    rw [initState_open] at hk
    rw [List.mem_singleton.1 hk, hself]; rfl
  · simp [initState]
  · intro k hk; simp [initState] at hk
  · intro k hk _
    obtain ⟨n, hn⟩ := Option.isSome_iff_exists.1 hk
    rw [initState_open, (hone k n hn).1]; exact List.mem_singleton_self _
  · intro hG k n h
    rw [(hone k n h).2]
    obtain ⟨_, _, h3⟩ := hG
    exact h3
  · intro k hk; simp [initState] at hk
  · intro k hk; simp [initState] at hk

theorem searchLoop_post (s : AISnake) (start goal : SDL_Point) :
    ∀ (fuel : Nat) (st : SearchState) (route : List SDL_Point) (st1 : SearchState),
      LoopInv s start goal st → searchLoop s goal fuel st = some (route, st1) →
      LoopPost s start goal route st1
  | 0, _, _, _, _, h => by simp [searchLoop] at h
  | fuel + 1, st, route, st1, hI, h => by
    have hb := loopBody_spec s start goal st hI
    unfold searchLoop at h
    cases hlb : loopBody s goal st with
    | ret r st' =>
      rw [hlb] at h hb
      simp only [Option.some.injEq, Prod.mk.injEq] at h
      obtain ⟨rfl, rfl⟩ := h
      rcases hb with ⟨h1, h2, h3⟩ | hb
      · subst h2
        exact Or.inl ⟨h1, hI, h3⟩
      · exact Or.inr hb
    | cont st' =>
      rw [hlb] at h hb
      exact searchLoop_post s start goal fuel st' route st1 hb.1 h
    | stuck =>
      rw [hlb] at h
      cases h

theorem searchLoop_terminates (s : AISnake) (start goal : SDL_Point) (hG : GridOK s start) :
    ∀ (fuel : Nat) (st : SearchState), LoopInv s start goal st →
      searchMeasure s st < fuel → ∃ res, searchLoop s goal fuel st = some res
  | 0, _, _, h => by omega
  | fuel + 1, st, hI, h => by
    have hb := loopBody_spec s start goal st hI
    unfold searchLoop
    cases hlb : loopBody s goal st with
    | ret r st' => exact ⟨_, rfl⟩
    | cont st' =>
      rw [hlb] at hb
      exact searchLoop_terminates s start goal hG fuel st' hb.1 (by have := hb.2 hG; omega)
    | stuck =>
      rw [hlb] at hb
      exact absurd hb id

theorem searchLoop_mono (s : AISnake) (goal : SDL_Point) :
    ∀ (fuel : Nat) (st : SearchState) (res : List SDL_Point × SearchState),
      searchLoop s goal fuel st = some res → ∀ fuel', fuel ≤ fuel' →
      searchLoop s goal fuel' st = some res
  | 0, _, _, h, _, _ => by simp [searchLoop] at h
  | fuel + 1, st, res, h, fuel', hle => by
    obtain ⟨f, rfl⟩ : ∃ f, fuel' = f + 1 := ⟨fuel' - 1, by omega⟩
    unfold searchLoop at h ⊢
    cases hlb : loopBody s goal st with
    | ret r st' => rw [hlb] at h; exact h
    | cont st' =>
      rw [hlb] at h
      exact searchLoop_mono s goal fuel st' res h f (by omega)
    | stuck => rw [hlb] at h; cases h

theorem initState_measure (s : AISnake) (start goal : SDL_Point) :
    searchMeasure s (initState s start goal) < searchFuel s := by
  unfold searchMeasure searchFuel
  rw [initState_open]
  simp only [initState, List.length_singleton, List.length_nil]
  omega

/-! ## The route read off the parent pointers -/

theorem parentChain_none (m : NodeMap) : ∀ fuel, parentChain m fuel none = []
  | 0 => rfl
  | _ + 1 => rfl

theorem chain_snoc {α : Type} (R : α → α → Prop) : ∀ (l : List α) (a c : α),
    List.Chain R a l → (∀ b, (a :: l).getLast? = some b → R b c) → List.Chain R a (l ++ [c])
  | [], a, c, _, h => by
    simp only [List.nil_append, List.chain_cons, List.Chain.nil, and_true]
    exact h a rfl
  | x :: l, a, c, hc, h => by
    rw [List.chain_cons] at hc
    simp only [List.cons_append, List.chain_cons]
    refine ⟨hc.1, chain_snoc R l x c hc.2 ?_⟩
    intro b hb
    exact h b (by rw [List.getLast?_cons_cons]; exact hb)

/-- The cells on the parent chain of a node, from the start: what
`ReconstructPath` reverses and cuts the head off. -/
theorem parentChain_spec (s : AISnake) (start : SDL_Point) (st : SearchState)
    (hT : TreeInv s start st) : ∀ (g : Nat) (k : Int) (n : PathNode),
      nodeAt st.node_map k = some n → n.g_cost = g → ∀ fuel, g < fuel →
      ∃ route, (parentChain st.node_map fuel (some k)).reverse = start :: route ∧
        route.length = g ∧ (start :: route).getLast? = some ⟨n.x, n.y⟩ ∧
        (∀ c ∈ route, s.IsWalkable c.x c.y = true) ∧ start ∉ route ∧
        (GridOK s start → List.Chain (fun a b => b ∈ s.GetNeighbors a.x a.y) start route) := by
  obtain ⟨n0, hn0, hx0, hy0, hg0, hp0⟩ := hT.start_node
  intro g
  induction g with
  | zero =>
    intro k n hn hg fuel hf
    obtain ⟨f, rfl⟩ : ∃ f, fuel = f + 1 := ⟨fuel - 1, by omega⟩
    have hpar : n.parent = none := by
      cases hp : n.parent with
      | none => rfl
      | some pk =>
        obtain ⟨p, hp1, _, hp3, _⟩ := hT.parent_ok k n pk hn hp
        have := (hT.g_bound pk p hp1).1
        simp at hg
        omega
    have hk := hT.root_only k n hn hpar
    rw [hk, hn0] at hn; cases hn
    refine ⟨[], ?_, rfl, ?_, by simp, by simp, fun _ => List.Chain.nil⟩
    · simp only [parentChain, hk, hn0, hpar, parentChain_none, List.reverse_cons,
        List.reverse_nil, List.nil_append]
      rw [hx0, hy0]
    · simp only [List.getLast?_singleton]
      rw [hx0, hy0]
  | succ g ih =>
    intro k n hn hg fuel hf
    obtain ⟨f, rfl⟩ : ∃ f, fuel = f + 1 := ⟨fuel - 1, by omega⟩
    have hpar : ∃ pk, n.parent = some pk := by
      cases hp : n.parent with
      | some pk => exact ⟨pk, rfl⟩
      | none =>
        have hk := hT.root_only k n hn hp
        rw [hk, hn0] at hn; cases hn
        rw [hg0] at hg
        simp at hg
        omega
    obtain ⟨pk, hpk⟩ := hpar
    obtain ⟨p, hp1, _, hp3, hwalk, hadj⟩ := hT.parent_ok k n pk hn hpk
    obtain ⟨route, r1, r2, r3, r4, r5, r6⟩ := ih pk p hp1 (by push_cast at hg; omega) f (by omega)
    refine ⟨route ++ [⟨n.x, n.y⟩], ?_, by simp [r2], ?_, ?_, ?_, ?_⟩
    · simp only [parentChain, hn, hpk, List.reverse_cons, r1, List.cons_append]
    · rw [← List.cons_append, List.getLast?_concat]
    · intro c hc
      rcases List.mem_append.1 hc with h | h
      · exact r4 c h
      · rw [List.mem_singleton.1 h]; exact hwalk
    · intro hmem
      rcases List.mem_append.1 hmem with h | h
      · exact r5 h
      · have hs : start = ⟨n.x, n.y⟩ := List.mem_singleton.1 h
        have hk : k = s.hash start := by
          rw [hT.key_hash k n hn, hs]; rfl
        rw [hk, hn0] at hn; cases hn
        rw [hg0] at hg
        simp at hg
        omega
    · intro hG
      refine chain_snoc _ route start _ (r6 hG) ?_
      intro b hb
      rw [r3] at hb; cases hb
      exact hadj hG

theorem reconstructPath_spec (s : AISnake) (start : SDL_Point) (st : SearchState)
    (hT : TreeInv s start st) (k : Int) (n : PathNode) (hn : nodeAt st.node_map k = some n) :
    (ReconstructPath st.node_map k).length = n.g_cost.toNat ∧
    (start :: ReconstructPath st.node_map k).getLast? = some ⟨n.x, n.y⟩ ∧
    (∀ c ∈ ReconstructPath st.node_map k, s.IsWalkable c.x c.y = true) ∧
    start ∉ ReconstructPath st.node_map k ∧
    (GridOK s start →
      List.Chain (fun a b => b ∈ s.GetNeighbors a.x a.y) start (ReconstructPath st.node_map k)) := by
  have hb := hT.g_bound k n hn
  obtain ⟨route, r1, r2, r3, r4, r5, r6⟩ := parentChain_spec s start st hT n.g_cost.toNat k n hn
    (by omega) (st.node_map.length + 1) (by omega)
  have : ReconstructPath st.node_map k = route := by
    unfold ReconstructPath
    rw [r1]; rfl
  rw [this]
  exact ⟨r2, r3, r4, r5, r6⟩

/-! ## What `CalculatePath` returns -/

theorem calculatePath_post (s : AISnake) (start goal : SDL_Point) (r : List SDL_Point)
    (h : CalculatePath s start goal = some r) :
    ∃ st1, searchLoop s goal (searchFuel s) (initState s start goal) = some (r, st1) ∧
      LoopPost s start goal r st1 := by
  unfold CalculatePath at h
  cases hl : searchLoop s goal (searchFuel s) (initState s start goal) with
  | none => rw [hl] at h; cases h
  | some res =>
    obtain ⟨r', st1⟩ := res
    rw [hl] at h
    simp only [Option.map_some', Option.some.injEq] at h
    subst h
    exact ⟨st1, rfl, searchLoop_post s start goal _ _ _ _ (initState_inv s start goal) hl⟩

theorem calculatePath_some (s : AISnake) (start goal : SDL_Point) (hG : GridOK s start) :
    ∃ r, CalculatePath s start goal = some r := by
  obtain ⟨res, hres⟩ := searchLoop_terminates s start goal hG (searchFuel s) _
    (initState_inv s start goal) (initState_measure s start goal)
  exact ⟨res.1, by unfold CalculatePath; rw [hres]; rfl⟩

theorem occupies_iff (l : List SDL_Point) (x y : Int) :
    occupies l x y = true ↔ (⟨x, y⟩ : SDL_Point) ∈ l := by
  unfold occupies
  rw [List.any_eq_true]
  constructor
  · rintro ⟨p, hp, h⟩
    simp only [Bool.and_eq_true, beq_iff_eq] at h
    obtain ⟨px, py⟩ := p
    simp only at h
    rw [← h.1, ← h.2]; exact hp
  · intro h
    exact ⟨_, h, by simp⟩

theorem isWalkable_iff (s : AISnake) (x y : Int) :
    s.IsWalkable x y = true ↔
      (⟨x, y⟩ : SDL_Point) ∉ s.body ∧ (⟨x, y⟩ : SDL_Point) ∉ s.obstacles_ ∧
      (⟨x, y⟩ : SDL_Point) ∉ s.player_snake_body_ ∧ (⟨x, y⟩ : SDL_Point) ≠ s.player_head_ := by
  unfold AISnake.IsWalkable
  rw [← occupies_iff, ← occupies_iff, ← occupies_iff]
  have hh : ((s.player_head_.x == x && s.player_head_.y == y) = true) ↔
      (⟨x, y⟩ : SDL_Point) = s.player_head_ := by
    obtain ⟨hx, hy⟩ := s.player_head_
    simp only [Bool.and_eq_true, beq_iff_eq, SDL_Point.mk.injEq]
    constructor
    · rintro ⟨h1, h2⟩; exact ⟨h1.symm, h2.symm⟩
    · rintro ⟨h1, h2⟩; exact ⟨h1.symm, h2.symm⟩
  rw [Ne, ← hh]
  cases occupies s.body x y <;> cases occupies s.obstacles_ x y <;>
    cases occupies s.player_snake_body_ x y <;>
    cases (s.player_head_.x == x && s.player_head_.y == y) <;> simp

theorem chain_and {α : Type} (R : α → α → Prop) (P : α → Prop) : ∀ (l : List α) (a : α),
    List.Chain R a l → (∀ c ∈ l, P c) → List.Chain (fun a b => R a b ∧ P b) a l
  | [], _, _, _ => List.Chain.nil
  | x :: l, a, hc, hp => by
    rw [List.chain_cons] at hc ⊢
    exact ⟨⟨hc.1, hp x (List.mem_cons_self _ _)⟩,
      chain_and R P l x hc.2 (fun c h => hp c (List.mem_cons_of_mem _ h))⟩

/-- A returned non-empty route is a walk of legal moves from the start to the goal. -/
theorem route_is_walk (s : AISnake) (start goal : SDL_Point) (r : List SDL_Point)
    (hG : GridOK s start) (h : CalculatePath s start goal = some r) (hr : r ≠ []) :
    List.Chain (Step s) start r ∧ r.getLast? = some goal ∧ start ∉ r := by
  obtain ⟨st1, _, hpost⟩ := calculatePath_post s start goal r h
  rcases hpost with ⟨h0, _⟩ | ⟨cur, current, hT, hn, hx, hy, hroute⟩
  · exact absurd h0 hr
  · obtain ⟨_, r3, r4, r5, r6⟩ := reconstructPath_spec s start st1 hT cur current hn
    rw [← hroute] at r3 r4 r5 r6
    refine ⟨chain_and _ _ r start (r6 hG) r4, ?_, r5⟩
    cases r with
    | nil => exact absurd rfl hr
    | cons c t =>
      rw [List.getLast?_cons_cons] at r3
      rw [r3, hx, hy]

/-- Every cell reached by legal moves from the start has a node once the queue
has run empty. -/
theorem node_of_walk (s : AISnake) (start goal : SDL_Point) (st : SearchState)
    (hI : LoopInv s start goal st) (ho : st.open_set = []) (hG : GridOK s start) :
    ∀ (p : List SDL_Point) (a : SDL_Point), InGrid s a →
      (∃ n, nodeAt st.node_map (s.hash a) = some n ∧ n.x = a.x ∧ n.y = a.y) →
      List.Chain (Step s) a p → ∀ c ∈ p,
      InGrid s c ∧ ∃ n, nodeAt st.node_map (s.hash c) = some n ∧ n.x = c.x ∧ n.y = c.y
  | [], _, _, _, _ => by simp
  | b :: p, a, ha, ⟨na, hna, hax, hay⟩, hc => by
    rw [List.chain_cons] at hc
    obtain ⟨⟨hnb, hw⟩, hrest⟩ := hc
    have hT := hI.tree
    have hclosed : s.hash a ∈ st.closed_set := by
      by_contra hnc
      have := hT.open_all _ (by rw [hna]; rfl) hnc
      rw [ho] at this; cases this
    have hb := hI.exp.expanded _ hclosed (by simp) na hna b (by rw [hax, hay]; exact hnb) hw
    obtain ⟨n, hn⟩ := Option.isSome_iff_exists.1 hb
    have hbin : InGrid s b := neighbors_inGrid s hG.1 hG.2.1 a ha b hnb
    have hkey := hT.key_hash _ n hn
    have heq : (⟨n.x, n.y⟩ : SDL_Point) = b :=
      hash_inj s _ _ (hT.in_grid hG _ n hn) hbin hkey.symm
    have hnx : n.x = b.x := congrArg SDL_Point.x heq
    have hny : n.y = b.y := congrArg SDL_Point.y heq
    intro c hcm
    rcases List.mem_cons.1 hcm with rfl | hcm
    · exact ⟨hbin, n, hn, hnx, hny⟩
    · exact node_of_walk s start goal st hI ho hG p b hbin ⟨n, hn, hnx, hny⟩ hrest c hcm

/-- If legal moves lead from the start to the goal, the queue never runs empty
before the goal is closed, and the returned route is not empty. -/
theorem route_of_walk (s : AISnake) (start goal : SDL_Point) (hG : GridOK s start)
    (hne : start ≠ goal) (p : List SDL_Point) (hp : List.Chain (Step s) start p)
    (hl : p.getLast? = some goal) :
    ∃ r, CalculatePath s start goal = some r ∧ r ≠ [] := by
  obtain ⟨r, hr⟩ := calculatePath_some s start goal hG
  refine ⟨r, hr, ?_⟩
  obtain ⟨st1, _, hpost⟩ := calculatePath_post s start goal r hr
  rcases hpost with ⟨_, hI, ho⟩ | ⟨cur, current, hT, hn, hx, hy, hroute⟩
  · exfalso
    have hT := hI.tree
    obtain ⟨n0, hn0, hx0, hy0, _, _⟩ := hT.start_node
    have hgm : goal ∈ p := List.mem_of_getLast?_eq_some hl
    obtain ⟨_, n, hn, hnx, hny⟩ := node_of_walk s start goal st1 hI ho hG p start hG.2.2
      ⟨n0, hn0, hx0, hy0⟩ hp goal hgm
    have hclosed : s.hash goal ∈ st1.closed_set := by
      by_contra hnc
      have := hT.open_all _ (by rw [hn]; rfl) hnc
      rw [ho] at this; cases this
    exact hI.exp.not_goal _ hclosed n hn ⟨hnx, hny⟩
  · obtain ⟨r1, _⟩ := reconstructPath_spec s start st1 hT cur current hn
    rw [← hroute] at r1
    intro hnil
    rw [hnil] at r1
    have hg0 : current.g_cost = 0 := by
      have := (hT.g_bound cur current hn).1
      simp at r1
      omega
    cases hp' : current.parent with
    | none =>
      have hk := hT.root_only cur current hn hp'
      obtain ⟨n0, hn0, hx0, hy0, _, _⟩ := hT.start_node
      rw [hk, hn0] at hn; cases hn
      apply hne
      cases start; cases goal
      simp only [SDL_Point.mk.injEq]
      simp only at hx0 hy0 hx hy
      exact ⟨by rw [← hx0, hx], by rw [← hy0, hy]⟩
    | some pk =>
      obtain ⟨pn, hp1, _, hp3, _⟩ := hT.parent_ok cur current pk hn hp'
      have := (hT.g_bound pk pn hp1).1
      omega

/-! ## The wrap-around step: the goal next to the start is popped first -/

theorem heuristic_nonneg (s : AISnake) (a b : SDL_Point) (ha : InGrid s a) (hb : InGrid s b) :
    0 ≤ s.Heuristic a.x a.y b.x b.y := by
  obtain ⟨a1, a2, a3, a4⟩ := ha
  obtain ⟨b1, b2, b3, b4⟩ := hb
  unfold AISnake.Heuristic c_abs c_min
  simp only
  split_ifs <;> omega

theorem pushHeapLoop_head (m : NodeMap) (v c : Int) (hc : ¬ fOf m v < fOf m c) :
    ∀ (fuel : Nat) (t : List Int) (hole : Nat), 0 < hole →
      (pushHeapLoop m v fuel (c :: t) hole).head? = some c
  | 0, t, hole, h => by
    obtain ⟨j, rfl⟩ : ∃ j, hole = j + 1 := ⟨hole - 1, by omega⟩
    simp [pushHeapLoop]
  | fuel + 1, t, hole, h => by
    obtain ⟨j, rfl⟩ : ∃ j, hole = j + 1 := ⟨hole - 1, by omega⟩
    unfold pushHeapLoop
    split
    · rename_i hcond
      have hp : 0 < (j + 1 - 1) / 2 := by
        by_contra h0
        have h0' : (j + 1 - 1) / 2 = 0 := by omega
        rw [h0'] at hcond
        simp only [List.getD_cons_zero] at hcond
        exact hc hcond.2
      simp only [List.set_cons_succ]
      exact pushHeapLoop_head m v c hc fuel _ _ hp
    · simp

theorem pqPush_head (m : NodeMap) (v c : Int) (t : List Int) (hc : ¬ fOf m v < fOf m c) :
    (pqPush m (c :: t) v).head? = some c := by
  unfold pqPush
  simp only [List.cons_append, List.length_cons]
  exact pushHeapLoop_head m v c hc _ _ _ (by omega)

theorem relax_new (s : AISnake) (goal : SDL_Point) (cur : Int) (current : PathNode)
    (st : SearchState) (nb : SDL_Point) (h1 : s.hash nb ∉ st.closed_set)
    (h2 : s.IsWalkable nb.x nb.y = true) (h3 : nodeAt st.node_map (s.hash nb) = none) :
    relax s goal cur current st nb =
      { node_map := st.node_map ++ [(s.hash nb,
          { x := nb.x, y := nb.y, g_cost := current.g_cost + 1,
            h_cost := s.Heuristic nb.x nb.y goal.x goal.y, parent := some cur })],
        open_set := pqPush (st.node_map ++ [(s.hash nb,
          { x := nb.x, y := nb.y, g_cost := current.g_cost + 1,
            h_cost := s.Heuristic nb.x nb.y goal.x goal.y, parent := some cur })])
          st.open_set (s.hash nb),
        closed_set := st.closed_set } := by
  unfold relax
  simp [h1, h2, h3]

theorem relax_goalFirst (s : AISnake) (start goal : SDL_Point) (st : SearchState)
    (nb : SDL_Point) (hQ : GoalFirst s start goal st)
    (hh : 0 ≤ s.Heuristic nb.x nb.y goal.x goal.y) :
    GoalFirst s start goal (relax s goal (s.hash start) (startNode s start goal) st nb) := by
  unfold relax
  simp only []
  split
  · exact hQ
  · split
    · exact hQ
    · split
      · rename_i node hnode
        have := hQ.g_le _ node hnode
        have hg : (startNode s start goal).g_cost = 0 := rfl
        rw [if_pos (by rw [hg]; omega)]
        exact hQ
      · rename_i hnone
        obtain ⟨gn, hgn, hgx, hgy, hgp, hgf⟩ := hQ.goal_node
        have hne1 : s.hash start ≠ s.hash nb := by
          intro h; rw [← h, hQ.start_node] at hnone; cases hnone
        have hne2 : s.hash goal ≠ s.hash nb := by
          intro h; rw [← h, hgn] at hnone; cases hnone
        refine ⟨hQ.closed, ?_, ⟨gn, ?_, hgx, hgy, hgp, hgf⟩, ?_, ?_⟩
        · rw [nodeAt_append_of_ne _ _ _ _ hne1]; exact hQ.start_node
        · rw [nodeAt_append_of_ne _ _ _ _ hne2]; exact hgn
        · cases ho : st.open_set with
          | nil => have := hQ.top; rw [ho] at this; cases this
          | cons c t =>
            have htop := hQ.top
            rw [ho] at htop
            simp only [List.head?_cons, Option.some.injEq] at htop
            subst htop
            simp only []
            apply pqPush_head
            unfold fOf
            rw [nodeAt_append_new _ _ _ hnone, nodeAt_append_of_ne _ _ _ _ hne2, hgn]
            simp only [PathNode.f_cost] at hgf ⊢
            have hg : (startNode s start goal).g_cost = 0 := rfl
            rw [hg]
            omega
        · intro k n hn
          by_cases hk : k = s.hash nb
          · subst hk
            rw [nodeAt_append_new _ _ _ hnone] at hn
            cases hn
            show (startNode s start goal).g_cost + 1 ≤ 1
            have hg : (startNode s start goal).g_cost = 0 := rfl
            omega
          · rw [nodeAt_append_of_ne _ _ _ _ hk] at hn
            exact hQ.g_le k n hn

theorem foldl_goalFirst (s : AISnake) (start goal : SDL_Point) :
    ∀ (l : List SDL_Point) (st : SearchState), GoalFirst s start goal st →
      (∀ nb ∈ l, 0 ≤ s.Heuristic nb.x nb.y goal.x goal.y) →
      GoalFirst s start goal
        (l.foldl (relax s goal (s.hash start) (startNode s start goal)) st)
  | [], _, hQ, _ => hQ
  | nb :: l, st, hQ, hh => by
    simp only [List.foldl_cons]
    exact foldl_goalFirst s start goal l _
      (relax_goalFirst s start goal st nb hQ (hh nb (List.mem_cons_self _ _)))
      (fun x hx => hh x (List.mem_cons_of_mem _ hx))

/-- From a state with the goal on top of the queue the next pass returns the
one-cell route. -/
theorem loopBody_goalFirst (s : AISnake) (start goal : SDL_Point) (st : SearchState)
    (hQ : GoalFirst s start goal st) (hne : s.hash goal ≠ s.hash start) :
    ∃ st1, loopBody s goal st = .ret [goal] st1 := by
  obtain ⟨gn, hgn, hgx, hgy, hgp, hgf⟩ := hQ.goal_node
  cases ho : st.open_set with
  | nil => have := hQ.top; rw [ho] at this; cases this
  | cons c t =>
    have htop := hQ.top
    rw [ho] at htop
    simp only [List.head?_cons, Option.some.injEq] at htop
    subst htop
    have hkey : gn.y * s.grid_width_ + gn.x = s.hash goal := by
      rw [hgx, hgy]; rfl
    have hlen : ∃ l, st.node_map.length = l + 1 := by
      cases hm : st.node_map with
      | nil => rw [hm] at hgn; simp [nodeAt] at hgn
      | cons e m => exact ⟨m.length, rfl⟩
    obtain ⟨l, hl⟩ := hlen
    have hroute : ReconstructPath st.node_map (s.hash goal) = [goal] := by
      unfold ReconstructPath
      rw [hl]
      simp only [parentChain, hgn, hgp, hQ.start_node, startNode, parentChain_none]
      simp [hgx, hgy]
    refine ⟨{ st with open_set := pqPop st.node_map st.open_set,
                      closed_set := s.hash goal :: st.closed_set }, ?_⟩
    have hkey2 : goal.y * s.grid_width_ + goal.x = s.hash goal := rfl
    unfold loopBody
    simp only [ho, hgn, hkey, hkey2, hQ.closed, List.mem_singleton, hne, if_false, hgx, hgy,
      and_self, if_true, hroute]

theorem heuristic_self (s : AISnake) (x y : Int) (hw : 0 ≤ s.grid_width_)
    (hh : 0 ≤ s.grid_height_) : s.Heuristic x y x y = 0 := by
  unfold AISnake.Heuristic c_abs c_min
  simp only [sub_self]
  split_ifs <;> omega

theorem heuristic_pos (s : AISnake) (a b : SDL_Point) (ha : InGrid s a) (hb : InGrid s b)
    (hne : a ≠ b) : 1 ≤ s.Heuristic a.x a.y b.x b.y := by
  obtain ⟨a1, a2, a3, a4⟩ := ha
  obtain ⟨b1, b2, b3, b4⟩ := hb
  have hd : a.x ≠ b.x ∨ a.y ≠ b.y := by
    by_contra h
    push_neg at h
    apply hne
    cases a; cases b
    simp only [SDL_Point.mk.injEq]
    exact h
  unfold AISnake.Heuristic c_abs c_min
  simp only
  split_ifs <;> omega

theorem getD_set_ne (a : List Int) (i j : Nat) (x : Int) (h : i ≠ j) :
    (a.set i x).getD j 0 = a.getD j 0 := by
  simp only [List.getD_eq_getElem?_getD, List.getElem?_set_ne h]

theorem head?_set_zero (a : List Int) (v : Int) (h : 0 < a.length) :
    (a.set 0 v).head? = some v := by
  cases a with
  | nil => simp at h
  | cons x t => rfl

theorem pushHeapLoop_to_top (m : NodeMap) (v : Int) :
    ∀ (fuel : Nat) (a : List Int) (hole : Nat), hole ≤ fuel → hole < a.length →
      (∀ i, i < hole → fOf m v < fOf m (a.getD i 0)) →
      (pushHeapLoop m v fuel a hole).head? = some v
  | 0, a, hole, h1, h2, _ => by
    have : hole = 0 := by omega
    subst this
    exact head?_set_zero a v h2
  | fuel + 1, a, hole, h1, h2, h3 => by
    unfold pushHeapLoop
    by_cases h0 : 0 < hole
    · have hp : (hole - 1) / 2 < hole := by omega
      rw [if_pos ⟨h0, h3 _ hp⟩]
      refine pushHeapLoop_to_top m v fuel _ _ (by omega) (by rw [List.length_set]; omega) ?_
      intro i hi
      rw [getD_set_ne _ _ _ _ (by omega)]
      exact h3 i (by omega)
    · have : hole = 0 := by omega
      subst this
      simp only [lt_irrefl, false_and, if_false]
      exact head?_set_zero a v h2

theorem pqPush_to_top (m : NodeMap) (a : List Int) (v : Int)
    (h : ∀ k ∈ a, fOf m v < fOf m k) : (pqPush m a v).head? = some v := by
  unfold pqPush
  refine pushHeapLoop_to_top m v _ _ _ (le_refl _) (by simp) ?_
  intro i hi
  have : (a ++ [v]).getD i 0 = a.getD i 0 := by
    simp only [List.getD_eq_getElem?_getD, List.getElem?_append_left hi]
  rw [this, List.getD_eq_getElem _ _ hi]
  exact h _ (List.getElem_mem _)

theorem relax_preGoal (s : AISnake) (start goal : SDL_Point) (st : SearchState)
    (nb : SDL_Point) (hQ : PreGoal s start goal st) (hk : s.hash nb ≠ s.hash goal)
    (hh : 1 ≤ s.Heuristic nb.x nb.y goal.x goal.y) :
    PreGoal s start goal (relax s goal (s.hash start) (startNode s start goal) st nb) := by
  have hg : (startNode s start goal).g_cost = 0 := rfl
  unfold relax
  simp only []
  split
  · exact hQ
  · split
    · exact hQ
    · split
      · rename_i node hnode
        have := hQ.g_le _ node hnode
        rw [if_pos (by rw [hg]; omega)]
        exact hQ
      · rename_i hnone
        have hne1 : s.hash start ≠ s.hash nb := by
          intro h; rw [← h, hQ.start_node] at hnone; cases hnone
        refine ⟨hQ.closed, ?_, ?_, ?_, ?_⟩
        · rw [nodeAt_append_of_ne _ _ _ _ hne1]; exact hQ.start_node
        · rw [nodeAt_append_of_ne _ _ _ _ hk.symm]; exact hQ.no_goal
        · intro k hkm
          rcases List.mem_cons.1 ((pqPush_perm _ _ _).mem_iff.1 hkm) with h | h
          · subst h
            refine ⟨_, nodeAt_append_new _ _ _ hnone, ?_⟩
            simp only [PathNode.f_cost, hg]
            omega
          · obtain ⟨n, hn, hf⟩ := hQ.queue k h
            refine ⟨n, ?_, hf⟩
            show nodeAt (st.node_map ++ _) k = some n
            rw [nodeAt_append, hn]
        · intro k n hn
          by_cases hkk : k = s.hash nb
          · subst hkk
            rw [nodeAt_append_new _ _ _ hnone] at hn
            cases hn
            show (startNode s start goal).g_cost + 1 ≤ 1
            omega
          · rw [nodeAt_append_of_ne _ _ _ _ hkk] at hn
            exact hQ.g_le k n hn

theorem relax_goal (s : AISnake) (start goal : SDL_Point) (st : SearchState)
    (hQ : PreGoal s start goal st) (hw : 0 ≤ s.grid_width_) (hh : 0 ≤ s.grid_height_)
    (hne : s.hash goal ≠ s.hash start) (hwalk : s.IsWalkable goal.x goal.y = true) :
    GoalFirst s start goal (relax s goal (s.hash start) (startNode s start goal) st goal) := by
  have hg : (startNode s start goal).g_cost = 0 := rfl
  rw [relax_new s goal _ _ st goal (by rw [hQ.closed]; simpa using hne) hwalk hQ.no_goal]
  refine ⟨hQ.closed, ?_, ⟨_, nodeAt_append_new _ _ _ hQ.no_goal, rfl, rfl, rfl, ?_⟩, ?_, ?_⟩
  · show nodeAt (st.node_map ++ _) _ = _
    rw [nodeAt_append_of_ne _ _ _ _ hne.symm]; exact hQ.start_node
  · simp only [PathNode.f_cost, hg, heuristic_self s _ _ hw hh]
    rfl
  · apply pqPush_to_top
    intro k hk
    obtain ⟨n, hn, hf⟩ := hQ.queue k hk
    unfold fOf
    rw [nodeAt_append_new _ _ _ hQ.no_goal, nodeAt_append, hn]
    simp only [PathNode.f_cost, hg, heuristic_self s _ _ hw hh] at hf ⊢
    omega
  · intro k n hn
    by_cases hkk : k = s.hash goal
    · subst hkk
      rw [nodeAt_append_new _ _ _ hQ.no_goal] at hn
      cases hn
      show (startNode s start goal).g_cost + 1 ≤ 1
      omega
    · rw [nodeAt_append_of_ne _ _ _ _ hkk] at hn
      exact hQ.g_le k n hn

/-- Relaxing the neighbours of the start in any order that contains the goal
leaves the goal on top of the queue. -/
theorem foldl_reach_goal (s : AISnake) (start goal : SDL_Point) (hG : GridOK s start)
    (hgin : InGrid s goal) (hne : goal ≠ start) (hwalk : s.IsWalkable goal.x goal.y = true) :
    ∀ (l : List SDL_Point) (st : SearchState), PreGoal s start goal st →
      (∀ nb ∈ l, InGrid s nb) → goal ∈ l →
      GoalFirst s start goal
        (l.foldl (relax s goal (s.hash start) (startNode s start goal)) st)
  | [], _, _, _, h => by cases h
  | nb :: l, st, hQ, hin, hmem => by
    have hnbin := hin nb (List.mem_cons_self _ _)
    simp only [List.foldl_cons]
    by_cases hnb : nb = goal
    · subst hnb
      have hkne : s.hash nb ≠ s.hash start := by
        intro h
        exact hne (hash_inj s _ _ hgin hG.2.2 h)
      exact foldl_goalFirst s start nb l _
        (relax_goal s start nb st hQ (le_of_lt hG.1) (le_of_lt hG.2.1) hkne hwalk)
        (fun x hx => heuristic_nonneg s x nb (hin x (List.mem_cons_of_mem _ hx)) hgin)
    · have hkne : s.hash nb ≠ s.hash goal := by
        intro h
        exact hnb (hash_inj s _ _ hnbin hgin h)
      refine foldl_reach_goal s start goal hG hgin hne hwalk l _
        (relax_preGoal s start goal st nb hQ hkne (heuristic_pos s nb goal hnbin hgin hnb))
        (fun x hx => hin x (List.mem_cons_of_mem _ hx)) ?_
      rcases List.mem_cons.1 hmem with h | h
      · exact absurd h.symm hnb
      · exact h

/-- A goal that is a walkable neighbour of the start is reached in one step: the
route is the goal cell alone. -/
theorem neighbor_goal_route (s : AISnake) (start goal : SDL_Point) (hG : GridOK s start)
    (hnb : goal ∈ s.GetNeighbors start.x start.y) (hne : goal ≠ start)
    (hwalk : s.IsWalkable goal.x goal.y = true) :
    CalculatePath s start goal = some [goal] := by
  have hgin : InGrid s goal := neighbors_inGrid s hG.1 hG.2.1 start hG.2.2 goal hnb
  have hkne : s.hash goal ≠ s.hash start := fun h => hne (hash_inj s _ _ hgin hG.2.2 h)
  have hxy : ¬ (start.x = goal.x ∧ start.y = goal.y) := by
    rintro ⟨h1, h2⟩
    apply hne
    cases start; cases goal
    simp only [SDL_Point.mk.injEq]
    exact ⟨h1.symm, h2.symm⟩
  -- the first pass closes the start and relaxes its neighbours
  have hpre : PreGoal s start goal
      { node_map := [(s.hash start, startNode s start goal)], open_set := [],
        closed_set := [s.hash start] } := by
    refine ⟨rfl, by simp [nodeAt], ?_, by simp, ?_⟩
    · simp [nodeAt, hkne.symm]
    · intro k n hn
      obtain ⟨_, rfl⟩ := nodeAt_singleton _ _ _ _ hn
      simp [startNode]
  have hfirst : loopBody s goal (initState s start goal) =
      .cont ((s.GetNeighbors start.x start.y).foldl
        (relax s goal (s.hash start) (startNode s start goal))
        { node_map := [(s.hash start, startNode s start goal)], open_set := [],
          closed_set := [s.hash start] }) := by
    unfold loopBody
    rw [initState_open]
    have hkey : start.y * s.grid_width_ + start.x = s.hash start := rfl
    simp [initState, nodeAt, startNode, pqPop, hxy, hkey]
  have hQ := foldl_reach_goal s start goal hG hgin hne hwalk _ _ hpre
    (neighbors_inGrid s hG.1 hG.2.1 start hG.2.2) hnb
  obtain ⟨st1, hsecond⟩ := loopBody_goalFirst s start goal _ hQ hkne
  unfold CalculatePath
  have hf : searchFuel s = (4 * (s.grid_width_ * s.grid_height_).toNat) + 1 + 1 := rfl
  rw [hf]
  simp only [searchLoop, hfirst, hsecond, Option.map_some']

/-! ## Walks, and the remaining facts the claims need -/

theorem isWalk_iff_chain (s : AISnake) : ∀ (p : List SDL_Point) (a : SDL_Point),
    IsWalk s a p ↔ List.Chain (Step s) a p
  | [], _ => by simp [IsWalk]
  | b :: rest, a => by
    simp only [IsWalk, List.chain_cons]
    rw [isWalk_iff_chain s rest b]

theorem chain_getElem? {α : Type} (R : α → α → Prop) : ∀ (l : List α) (a : α),
    List.Chain R a l →
      (∀ c, l[0]? = some c → R a c) ∧
      (∀ i x y, l[i]? = some x → l[i + 1]? = some y → R x y)
  | [], _, _ => by simp
  | b :: t, a, h => by
    rw [List.chain_cons] at h
    obtain ⟨h1, h2⟩ := chain_getElem? R t b h.2
    refine ⟨?_, ?_⟩
    · intro c hc
      simp only [List.getElem?_cons_zero, Option.some.injEq] at hc
      rw [← hc]; exact h.1
    · intro i x y hx hy
      cases i with
      | zero =>
        simp only [List.getElem?_cons_zero, Option.some.injEq] at hx
        simp only [zero_add, List.getElem?_cons_succ] at hy
        rw [← hx]; exact h1 y hy
      | succ j =>
        simp only [List.getElem?_cons_succ] at hx hy
        exact h2 j x y hx hy

theorem route_cells_walkable (s : AISnake) (start goal : SDL_Point) (r : List SDL_Point)
    (h : CalculatePath s start goal = some r) : ∀ c ∈ r, s.IsWalkable c.x c.y = true := by
  obtain ⟨st1, _, hpost⟩ := calculatePath_post s start goal r h
  rcases hpost with ⟨h0, _⟩ | ⟨cur, current, hT, hn, _, _, hroute⟩
  · rw [h0]; simp
  · obtain ⟨_, _, r4, _⟩ := reconstructPath_spec s start st1 hT cur current hn
    rw [← hroute] at r4
    exact r4

theorem route_empty_of_no_walk (s : AISnake) (start goal : SDL_Point) (hG : GridOK s start)
    (h : ∀ r, r ≠ [] → List.Chain (Step s) start r → r.getLast? = some goal → False) :
    CalculatePath s start goal = some [] := by
  obtain ⟨r, hr⟩ := calculatePath_some s start goal hG
  by_cases hnil : r = []
  · rw [hr, hnil]
  · obtain ⟨h1, h2, _⟩ := route_is_walk s start goal r hG hr hnil
    exact absurd (h r hnil h1 h2) id

theorem searchLoop_final (s : AISnake) (start goal : SDL_Point) (route : List SDL_Point)
    (st1 : SearchState) (h : LoopPost s start goal route st1) : TreeInv s start st1 := by
  rcases h with ⟨_, hI, _⟩ | ⟨_, _, hT, _⟩
  · exact hI.tree
  · exact hT

theorem toInt32_wint_max : toInt32 4294967295 = -1 := by decide

theorem free_grid_route :
    CalculatePath { grid_width_ := 34, grid_height_ := 6, player_head_ := ⟨-1, -1⟩ }
        ⟨0, 0⟩ ⟨16, 2⟩ =
      some [⟨1, 0⟩, ⟨2, 0⟩, ⟨3, 0⟩, ⟨3, 1⟩, ⟨4, 1⟩, ⟨4, 2⟩, ⟨5, 2⟩, ⟨6, 2⟩, ⟨7, 2⟩, ⟨8, 2⟩,
        ⟨9, 2⟩, ⟨10, 2⟩, ⟨11, 2⟩, ⟨12, 2⟩, ⟨13, 2⟩, ⟨14, 2⟩, ⟨14, 3⟩, ⟨15, 3⟩, ⟨16, 3⟩,
        ⟨16, 2⟩] := by
  decide!

theorem c_abs_nonneg (a : Int) : 0 ≤ c_abs a := by
  unfold c_abs
  split_ifs <;> omega

theorem foldl_closestStep_neg (ai_x ai_y : Int) (acc : Closest) (h : acc.closest_dist ≤ 0) :
    ∀ foods : List Food, foods.foldl (closestStep ai_x ai_y) acc = acc
  | [] => rfl
  | f :: foods => by
    have h1 := c_abs_nonneg (f.GetX - ai_x)
    have h2 := c_abs_nonneg (f.GetY - ai_y)
    have hstep : closestStep ai_x ai_y acc f = acc := by
      unfold closestStep
      simp only
      rw [if_neg (by omega)]
    simp only [List.foldl_cons, hstep]
    exact foldl_closestStep_neg ai_x ai_y acc h foods

/-! ## The claims -/

/-- C1 (the returned route is a shortest path) fails on the code.  On the 11x3
grid with the obstacle cells (4,1), (4,2), (6,2), (8,2), (9,1), from the start
(5,2) to the goal (10,1), `CalculatePath` returns a route of 8 cells, while the
7 moves listed second are a walk (4-neighbour toroidal steps onto unblocked
cells) from the start to the goal.  The detour comes from `g_cost` being
overwritten on a node whose pointer is still in the priority queue, which
breaks the heap order. -/
theorem CalculatePath_detour_obstacles :
    CalculatePath
        { grid_width_ := 11, grid_height_ := 3,
          obstacles_ := [⟨4, 1⟩, ⟨4, 2⟩, ⟨6, 2⟩, ⟨8, 2⟩, ⟨9, 1⟩] }
        ⟨5, 2⟩ ⟨10, 1⟩ =
      some [⟨5, 1⟩, ⟨6, 1⟩, ⟨7, 1⟩, ⟨8, 1⟩, ⟨8, 0⟩, ⟨9, 0⟩, ⟨10, 0⟩, ⟨10, 1⟩] ∧
    IsWalk
      { grid_width_ := 11, grid_height_ := 3,
        obstacles_ := [⟨4, 1⟩, ⟨4, 2⟩, ⟨6, 2⟩, ⟨8, 2⟩, ⟨9, 1⟩] }
      ⟨5, 2⟩ [⟨5, 0⟩, ⟨6, 0⟩, ⟨7, 0⟩, ⟨8, 0⟩, ⟨9, 0⟩, ⟨10, 0⟩, ⟨10, 1⟩] := by
  decide!

/-- C2 (on a grid without blocked cells the route has length
`Heuristic(start, goal)`) fails on the code.  On the 34x6 grid with empty body
and obstacle lists and the player head off the grid, so that no cell of the
grid is blocked, from (0,0) to the goal (16,2), `CalculatePath` returns the
route of 20 cells below while the heuristic is 18. -/
theorem CalculatePath_detour_free_grid :
    CalculatePath { grid_width_ := 34, grid_height_ := 6, player_head_ := ⟨-1, -1⟩ }
        ⟨0, 0⟩ ⟨16, 2⟩ =
      some [⟨1, 0⟩, ⟨2, 0⟩, ⟨3, 0⟩, ⟨3, 1⟩, ⟨4, 1⟩, ⟨4, 2⟩, ⟨5, 2⟩, ⟨6, 2⟩, ⟨7, 2⟩, ⟨8, 2⟩,
        ⟨9, 2⟩, ⟨10, 2⟩, ⟨11, 2⟩, ⟨12, 2⟩, ⟨13, 2⟩, ⟨14, 2⟩, ⟨14, 3⟩, ⟨15, 3⟩, ⟨16, 3⟩,
        ⟨16, 2⟩] ∧
    (CalculatePath { grid_width_ := 34, grid_height_ := 6, player_head_ := ⟨-1, -1⟩ }
        ⟨0, 0⟩ ⟨16, 2⟩).map List.length = some 20 ∧
    AISnake.Heuristic { grid_width_ := 34, grid_height_ := 6, player_head_ := ⟨-1, -1⟩ }
        0 0 16 2 = 18 ∧
    ∀ x y : Nat,
      AISnake.IsWalkable { grid_width_ := 34, grid_height_ := 6, player_head_ := ⟨-1, -1⟩ }
        x y = true := by
  refine ⟨free_grid_route, by rw [free_grid_route]; rfl, by decide, ?_⟩
  intro x y
  have h1 : ((-1 : Int) == (x : Int)) = false := by
    rw [beq_eq_false_iff_ne]; omega
  simp [AISnake.IsWalkable, occupies, h1]

/-- C3: a non-empty route returned by `CalculatePath` (grid with W, H >= 1, start
on the grid) ends on the goal, begins on a neighbour of the start, moves from
each cell to one of its `GetNeighbors`, and does not contain the start cell. -/
theorem CalculatePath_route_shape (s : AISnake) (start goal : SDL_Point)
    (r : List SDL_Point) (hW : 0 < s.grid_width_) (hH : 0 < s.grid_height_)
    (hs : InGrid s start) (h : CalculatePath s start goal = some r) (hr : r ≠ []) :
    r.getLast? = some goal ∧
    (∀ c, r[0]? = some c → c ∈ s.GetNeighbors start.x start.y) ∧
    (∀ i a b, r[i]? = some a → r[i + 1]? = some b → b ∈ s.GetNeighbors a.x a.y) ∧
    start ∉ r := by
  obtain ⟨h1, h2, h3⟩ := route_is_walk s start goal r ⟨hW, hH, hs⟩ h hr
  obtain ⟨c1, c2⟩ := chain_getElem? _ r start h1
  exact ⟨h2, fun c hc => (c1 c hc).1, fun i a b ha hb => (c2 i a b ha hb).1, h3⟩

theorem CalculatePath_route_shape_witness :
    CalculatePath { grid_width_ := 4, grid_height_ := 4, obstacles_ := [⟨1, 0⟩, ⟨0, 1⟩] }
        ⟨0, 0⟩ ⟨1, 1⟩ = some [⟨3, 0⟩, ⟨3, 1⟩, ⟨2, 1⟩, ⟨1, 1⟩] ∧
    ([⟨3, 0⟩, ⟨3, 1⟩, ⟨2, 1⟩, ⟨1, 1⟩] : List SDL_Point).getLast? = some ⟨1, 1⟩ ∧
    (∀ c, ([⟨3, 0⟩, ⟨3, 1⟩, ⟨2, 1⟩, ⟨1, 1⟩] : List SDL_Point)[0]? = some c →
      c ∈ AISnake.GetNeighbors
        { grid_width_ := 4, grid_height_ := 4, obstacles_ := [⟨1, 0⟩, ⟨0, 1⟩] } 0 0) ∧
    (∀ i a b, ([⟨3, 0⟩, ⟨3, 1⟩, ⟨2, 1⟩, ⟨1, 1⟩] : List SDL_Point)[i]? = some a →
      ([⟨3, 0⟩, ⟨3, 1⟩, ⟨2, 1⟩, ⟨1, 1⟩] : List SDL_Point)[i + 1]? = some b →
      b ∈ AISnake.GetNeighbors
        { grid_width_ := 4, grid_height_ := 4, obstacles_ := [⟨1, 0⟩, ⟨0, 1⟩] } a.x a.y) ∧
    (⟨0, 0⟩ : SDL_Point) ∉ ([⟨3, 0⟩, ⟨3, 1⟩, ⟨2, 1⟩, ⟨1, 1⟩] : List SDL_Point) :=
  ⟨by decide,
    CalculatePath_route_shape
      { grid_width_ := 4, grid_height_ := 4, obstacles_ := [⟨1, 0⟩, ⟨0, 1⟩] } ⟨0, 0⟩ ⟨1, 1⟩
      [⟨3, 0⟩, ⟨3, 1⟩, ⟨2, 1⟩, ⟨1, 1⟩] (by decide) (by decide) (by decide) (by decide)
      (by decide)⟩

/-- C4: every cell of every route returned by `CalculatePath` is walkable: it is
no own-body segment, no obstacle cell, no player-body segment and not the
player head of the occupancy the search ran on. -/
theorem CalculatePath_route_walkable (s : AISnake) (start goal : SDL_Point)
    (r : List SDL_Point) (h : CalculatePath s start goal = some r) :
    ∀ c ∈ r, s.IsWalkable c.x c.y = true ∧ c ∉ s.body ∧ c ∉ s.obstacles_ ∧
      c ∉ s.player_snake_body_ ∧ c ≠ s.player_head_ := by
  intro c hc
  have hw := route_cells_walkable s start goal r h c hc
  exact ⟨hw, (isWalkable_iff s c.x c.y).1 hw⟩

theorem CalculatePath_route_walkable_witness :
    CalculatePath
        { grid_width_ := 32, grid_height_ := 32, body := [⟨24, 25⟩], obstacles_ := [⟨23, 24⟩],
          player_snake_body_ := [⟨16, 17⟩], player_head_ := ⟨16, 16⟩ }
        ⟨24, 24⟩ ⟨22, 24⟩ = some [⟨24, 23⟩, ⟨23, 23⟩, ⟨22, 23⟩, ⟨22, 24⟩] ∧
    ∀ c ∈ ([⟨24, 23⟩, ⟨23, 23⟩, ⟨22, 23⟩, ⟨22, 24⟩] : List SDL_Point),
      AISnake.IsWalkable
        { grid_width_ := 32, grid_height_ := 32, body := [⟨24, 25⟩], obstacles_ := [⟨23, 24⟩],
          player_snake_body_ := [⟨16, 17⟩], player_head_ := ⟨16, 16⟩ } c.x c.y = true ∧
      c ∉ ([⟨24, 25⟩] : List SDL_Point) ∧ c ∉ ([⟨23, 24⟩] : List SDL_Point) ∧
      c ∉ ([⟨16, 17⟩] : List SDL_Point) ∧ c ≠ ⟨16, 16⟩ :=
  ⟨by decide,
    CalculatePath_route_walkable
      { grid_width_ := 32, grid_height_ := 32, body := [⟨24, 25⟩], obstacles_ := [⟨23, 24⟩],
        player_snake_body_ := [⟨16, 17⟩], player_head_ := ⟨16, 16⟩ }
      ⟨24, 24⟩ ⟨22, 24⟩ [⟨24, 23⟩, ⟨23, 23⟩, ⟨22, 23⟩, ⟨22, 24⟩] (by decide)⟩

/-- C5 as stated fails: on a 4x4 grid with the goal (1,0) in the obstacle list,
the goal is a neighbour of the start (0,0), so it would be reached in one step
were it traversable, yet `CalculatePath` returns the empty route. -/
theorem blocked_goal_counterexample :
    AISnake.IsWalkable { grid_width_ := 4, grid_height_ := 4, obstacles_ := [⟨1, 0⟩] } 1 0 =
      false ∧
    (⟨1, 0⟩ : SDL_Point) ∈
      AISnake.GetNeighbors { grid_width_ := 4, grid_height_ := 4, obstacles_ := [⟨1, 0⟩] } 0 0 ∧
    (⟨0, 0⟩ : SDL_Point) ≠ ⟨1, 0⟩ ∧
    CalculatePath { grid_width_ := 4, grid_height_ := 4, obstacles_ := [⟨1, 0⟩] }
      ⟨0, 0⟩ ⟨1, 0⟩ = some [] := by
  decide

/-- C5 amended: when the goal cell itself is blocked, `CalculatePath` returns
the empty route (grid with W, H >= 1, start on the grid): the occupancy check
blocks arrival at the goal as it blocks every other cell. -/
theorem CalculatePath_blocked_goal_empty (s : AISnake) (start goal : SDL_Point)
    (hW : 0 < s.grid_width_) (hH : 0 < s.grid_height_) (hs : InGrid s start)
    (hb : s.IsWalkable goal.x goal.y = false) : CalculatePath s start goal = some [] := by
  obtain ⟨r, hr⟩ := calculatePath_some s start goal ⟨hW, hH, hs⟩
  by_cases hnil : r = []
  · rw [hr, hnil]
  · obtain ⟨_, h2, _⟩ := route_is_walk s start goal r ⟨hW, hH, hs⟩ hr hnil
    have := route_cells_walkable s start goal r hr goal (List.mem_of_getLast?_eq_some h2)
    rw [hb] at this
    cases this

theorem CalculatePath_blocked_goal_empty_witness :
    AISnake.IsWalkable { grid_width_ := 4, grid_height_ := 4, obstacles_ := [⟨2, 2⟩] } 2 2 =
      false ∧
    CalculatePath { grid_width_ := 4, grid_height_ := 4, obstacles_ := [⟨2, 2⟩] }
      ⟨0, 0⟩ ⟨2, 2⟩ = some [] :=
  ⟨by decide,
    CalculatePath_blocked_goal_empty
      { grid_width_ := 4, grid_height_ := 4, obstacles_ := [⟨2, 2⟩] } ⟨0, 0⟩ ⟨2, 2⟩
      (by decide) (by decide) (by decide) (by decide)⟩

/-- C6 (completeness): on a grid with W, H >= 1 and the start on it, if some walk
of legal moves (4-neighbour toroidal steps onto unblocked cells) leads from the
start to a goal different from the start, then `CalculatePath` returns a
non-empty route, and that route ends on the goal. -/
theorem CalculatePath_complete (s : AISnake) (start goal : SDL_Point)
    (hW : 0 < s.grid_width_) (hH : 0 < s.grid_height_) (hs : InGrid s start)
    (hne : start ≠ goal) (p : List SDL_Point) (hp : IsWalk s start p)
    (hl : p.getLast? = some goal) :
    ∃ r, CalculatePath s start goal = some r ∧ r ≠ [] ∧ r.getLast? = some goal := by
  obtain ⟨r, hr, hnil⟩ := route_of_walk s start goal ⟨hW, hH, hs⟩ hne p
    ((isWalk_iff_chain s p start).1 hp) hl
  exact ⟨r, hr, hnil, (route_is_walk s start goal r ⟨hW, hH, hs⟩ hr hnil).2.1⟩

theorem CalculatePath_complete_witness :
    IsWalk { grid_width_ := 4, grid_height_ := 4, obstacles_ := [⟨1, 0⟩, ⟨0, 1⟩] } ⟨0, 0⟩
      [⟨0, 3⟩, ⟨1, 3⟩, ⟨1, 2⟩, ⟨1, 1⟩] ∧
    ∃ r, CalculatePath { grid_width_ := 4, grid_height_ := 4, obstacles_ := [⟨1, 0⟩, ⟨0, 1⟩] }
      ⟨0, 0⟩ ⟨1, 1⟩ = some r ∧ r ≠ [] ∧ r.getLast? = some ⟨1, 1⟩ :=
  ⟨by decide,
    CalculatePath_complete
      { grid_width_ := 4, grid_height_ := 4, obstacles_ := [⟨1, 0⟩, ⟨0, 1⟩] } ⟨0, 0⟩ ⟨1, 1⟩
      (by decide) (by decide) (by decide) (by decide) [⟨0, 3⟩, ⟨1, 3⟩, ⟨1, 2⟩, ⟨1, 1⟩]
      (by decide) (by decide)⟩

/-- C7 (unreachability): on a grid with W, H >= 1 and the start on it, if no walk
of legal moves leads from the start to the goal, in particular if all four
neighbours of the start are blocked, `CalculatePath` returns the empty route. -/
theorem CalculatePath_unreachable_empty (s : AISnake) (start goal : SDL_Point)
    (hW : 0 < s.grid_width_) (hH : 0 < s.grid_height_) (hs : InGrid s start)
    (h : (¬ ∃ p, IsWalk s start p ∧ p.getLast? = some goal) ∨
      (∀ nb ∈ s.GetNeighbors start.x start.y, s.IsWalkable nb.x nb.y = false)) :
    CalculatePath s start goal = some [] := by
  apply route_empty_of_no_walk s start goal ⟨hW, hH, hs⟩
  intro r hnil hchain hlast
  rcases h with h | h
  · exact h ⟨r, (isWalk_iff_chain s r start).2 hchain, hlast⟩
  · cases r with
    | nil => exact hnil rfl
    | cons c t =>
      rw [List.chain_cons] at hchain
      have := h c hchain.1.1
      rw [hchain.1.2] at this
      cases this

theorem CalculatePath_unreachable_empty_witness :
    (∀ nb ∈ AISnake.GetNeighbors
        { grid_width_ := 4, grid_height_ := 4,
          obstacles_ := [⟨1, 0⟩, ⟨3, 0⟩, ⟨0, 1⟩, ⟨0, 3⟩] } 0 0,
      AISnake.IsWalkable
        { grid_width_ := 4, grid_height_ := 4,
          obstacles_ := [⟨1, 0⟩, ⟨3, 0⟩, ⟨0, 1⟩, ⟨0, 3⟩] } nb.x nb.y = false) ∧
    CalculatePath
      { grid_width_ := 4, grid_height_ := 4, obstacles_ := [⟨1, 0⟩, ⟨3, 0⟩, ⟨0, 1⟩, ⟨0, 3⟩] }
      ⟨0, 0⟩ ⟨2, 2⟩ = some [] :=
  ⟨by decide,
    CalculatePath_unreachable_empty
      { grid_width_ := 4, grid_height_ := 4, obstacles_ := [⟨1, 0⟩, ⟨3, 0⟩, ⟨0, 1⟩, ⟨0, 3⟩] }
      ⟨0, 0⟩ ⟨2, 2⟩ (by decide) (by decide) (by decide) (Or.inr (by decide))⟩

/-- C8 (termination): on a grid with W, H >= 1 and the start on it, the main loop
of `CalculatePath` returns with the fuel `searchFuel` and with every larger
fuel, whatever the goal and the occupancy; in the final state no cell was
inserted into the closed set twice, the nodes have distinct keys, and there are
at most W * H of them. -/
theorem CalculatePath_terminates (s : AISnake) (start goal : SDL_Point)
    (hW : 0 < s.grid_width_) (hH : 0 < s.grid_height_) (hs : InGrid s start)
    (fuel : Nat) (hf : searchFuel s ≤ fuel) :
    ∃ r st1, searchLoop s goal fuel (initState s start goal) = some (r, st1) ∧
      CalculatePath s start goal = some r ∧ st1.closed_set.Nodup ∧
      (st1.node_map.map Prod.fst).Nodup ∧
      (st1.node_map.length : Int) ≤ s.grid_width_ * s.grid_height_ := by
  have hG : GridOK s start := ⟨hW, hH, hs⟩
  obtain ⟨res, hres⟩ := searchLoop_terminates s start goal hG (searchFuel s) _
    (initState_inv s start goal) (initState_measure s start goal)
  obtain ⟨r, st1⟩ := res
  have hT := searchLoop_final s start goal r st1
    (searchLoop_post s start goal _ _ _ _ (initState_inv s start goal) hres)
  refine ⟨r, st1, searchLoop_mono s goal _ _ _ hres fuel hf, ?_, hT.closed_nodup,
    hT.keys_nodup, ?_⟩
  · unfold CalculatePath; rw [hres]; rfl
  · have := node_map_length_le s start st1 hT hG
    have hpos : 0 ≤ s.grid_width_ * s.grid_height_ := le_of_lt (mul_pos hW hH)
    omega

theorem CalculatePath_terminates_witness :
    searchFuel { grid_width_ := 4, grid_height_ := 4, obstacles_ := [⟨1, 0⟩] } ≤ 100 ∧
    ∃ r st1, searchLoop { grid_width_ := 4, grid_height_ := 4, obstacles_ := [⟨1, 0⟩] } ⟨1, 0⟩
        100 (initState { grid_width_ := 4, grid_height_ := 4, obstacles_ := [⟨1, 0⟩] }
          ⟨0, 0⟩ ⟨1, 0⟩) = some (r, st1) ∧
      CalculatePath { grid_width_ := 4, grid_height_ := 4, obstacles_ := [⟨1, 0⟩] }
        ⟨0, 0⟩ ⟨1, 0⟩ = some r ∧ st1.closed_set.Nodup ∧
      (st1.node_map.map Prod.fst).Nodup ∧ (st1.node_map.length : Int) ≤ 4 * 4 :=
  ⟨by decide,
    CalculatePath_terminates { grid_width_ := 4, grid_height_ := 4, obstacles_ := [⟨1, 0⟩] }
      ⟨0, 0⟩ ⟨1, 0⟩ (by decide) (by decide) (by decide) 100 (by decide)⟩

/-- C9 (wrap correctness): for width W >= 3, height H >= 1 and a row 0 <= y < H,
if the goal cell (W-1, y) is not blocked (in particular when no cell is), the
route from (0, y) to (W-1, y) is exactly the goal cell, the wrap-around step,
and not a step to (1, y). -/
theorem CalculatePath_wrap_step (s : AISnake) (y : Int) (hW : 3 ≤ s.grid_width_)
    (hH : 1 ≤ s.grid_height_) (hy0 : 0 ≤ y) (hy1 : y < s.grid_height_)
    (hfree : s.IsWalkable (s.grid_width_ - 1) y = true) :
    CalculatePath s ⟨0, y⟩ ⟨s.grid_width_ - 1, y⟩ = some [⟨s.grid_width_ - 1, y⟩] ∧
    (⟨s.grid_width_ - 1, y⟩ : SDL_Point) ≠ ⟨1, y⟩ := by
  have hx1 : (0 : Int) < s.grid_width_ := by omega
  have hG : GridOK s ⟨0, y⟩ := ⟨hx1, by omega, le_refl _, hx1, hy0, hy1⟩
  refine ⟨neighbor_goal_route s ⟨0, y⟩ ⟨s.grid_width_ - 1, y⟩ hG ?_ ?_ hfree, ?_⟩
  · have h1 : (0 - 1 + s.grid_width_).tmod s.grid_width_ = s.grid_width_ - 1 := by
      have h0 : (0 : Int) ≤ 0 - 1 + s.grid_width_ := by omega
      have h2 : 0 - 1 + s.grid_width_ < s.grid_width_ := by omega
      rw [Int.tmod_eq_emod h0 (le_of_lt hx1), Int.emod_eq_of_lt h0 h2]
      omega
    simp only [AISnake.GetNeighbors, h1, List.mem_cons, SDL_Point.mk.injEq, true_or, or_true,
      and_self]
  · intro h
    simp only [SDL_Point.mk.injEq] at h
    omega
  · intro h
    simp only [SDL_Point.mk.injEq] at h
    omega

theorem CalculatePath_wrap_step_witness :
    AISnake.IsWalkable { grid_width_ := 32, grid_height_ := 32, player_head_ := ⟨16, 16⟩ }
      (32 - 1) 5 = true ∧
    CalculatePath { grid_width_ := 32, grid_height_ := 32, player_head_ := ⟨16, 16⟩ }
      ⟨0, 5⟩ ⟨32 - 1, 5⟩ = some [⟨32 - 1, 5⟩] ∧
    (⟨32 - 1, 5⟩ : SDL_Point) ≠ ⟨1, 5⟩ :=
  ⟨by decide,
    CalculatePath_wrap_step { grid_width_ := 32, grid_height_ := 32, player_head_ := ⟨16, 16⟩ }
      5 (by decide) (by decide) (by decide) (by decide) (by decide)⟩

/-- C10 (the nearest food is passed to `SetFoodTarget`) fails on the code when
`WINT_MAX` is the glibc value 4294967295 (`wint_t` is `unsigned int`): the
conversion to `int` gives -1, no distance is below it, and for every non-empty
food list the target passed on is (0, 0), wherever the foods are. -/
theorem UpdateAIFoodTarget_glibc (foods : List Food) (ai_x ai_y : Int) (h : foods ≠ []) :
    UpdateAIFoodTarget 4294967295 foods ai_x ai_y = some ⟨0, 0⟩ := by
  unfold UpdateAIFoodTarget
  have hne : foods.isEmpty = false := by
    cases foods with
    | nil => exact absurd rfl h
    | cons f t => rfl
  simp only [hne, Bool.false_eq_true, if_false, toInt32_wint_max]
  rw [foldl_closestStep_neg ai_x ai_y _ (by decide) foods]

theorem UpdateAIFoodTarget_glibc_witness :
    ([⟨⟨23, 24⟩, FoodType.Normal⟩, ⟨⟨20, 20⟩, FoodType.Bonus⟩] : List Food) ≠ [] ∧
    UpdateAIFoodTarget 4294967295 [⟨⟨23, 24⟩, FoodType.Normal⟩, ⟨⟨20, 20⟩, FoodType.Bonus⟩]
      24 24 = some ⟨0, 0⟩ :=
  ⟨by decide,
    UpdateAIFoodTarget_glibc [⟨⟨23, 24⟩, FoodType.Normal⟩, ⟨⟨20, 20⟩, FoodType.Bonus⟩] 24 24
      (by decide)⟩

/-! ## The start cell is closed before any neighbour is tested -/

theorem relax_closed_set (s : AISnake) (goal : SDL_Point) (cur : Int) (current : PathNode)
    (st : SearchState) (nb : SDL_Point) :
    (relax s goal cur current st nb).closed_set = st.closed_set := by
  unfold relax
  simp only
  split_ifs
  · rfl
  · rfl
  · split
    · split_ifs <;> rfl
    · rfl

theorem foldl_relax_closed_set (s : AISnake) (goal : SDL_Point) (cur : Int)
    (current : PathNode) : ∀ (l : List SDL_Point) (st : SearchState),
    (l.foldl (relax s goal cur current) st).closed_set = st.closed_set
  | [], _ => rfl
  | nb :: l, st => by
    rw [List.foldl_cons, foldl_relax_closed_set s goal cur current l, relax_closed_set]

/-- Two agents on the same grid whose occupancy differs at most on the cell
`start` relax a neighbour alike once `start` is closed. -/
theorem relax_congr (s s' : AISnake) (start goal : SDL_Point)
    (hw : s'.grid_width_ = s.grid_width_) (hh : s'.grid_height_ = s.grid_height_)
    (hocc : ∀ x y, ¬(x = start.x ∧ y = start.y) → s'.IsWalkable x y = s.IsWalkable x y)
    (cur : Int) (current : PathNode) (st : SearchState) (nb : SDL_Point)
    (hc : s.hash start ∈ st.closed_set) :
    relax s' goal cur current st nb = relax s goal cur current st nb := by
  have hhash : s'.hash nb = s.hash nb := by unfold AISnake.hash; rw [hw]
  have hheur : s'.Heuristic nb.x nb.y goal.x goal.y = s.Heuristic nb.x nb.y goal.x goal.y := by
    unfold AISnake.Heuristic; rw [hw, hh]
  unfold relax
  simp only [hhash, hheur]
  by_cases hnb : nb.x = start.x ∧ nb.y = start.y
  · have e : nb = start := by
      obtain ⟨x, y⟩ := nb
      obtain ⟨x0, y0⟩ := start
      simp only at hnb
      rw [hnb.1, hnb.2]
    rw [e, if_pos hc, if_pos hc]
  · rw [hocc _ _ hnb]

theorem foldl_relax_congr (s s' : AISnake) (start goal : SDL_Point)
    (hw : s'.grid_width_ = s.grid_width_) (hh : s'.grid_height_ = s.grid_height_)
    (hocc : ∀ x y, ¬(x = start.x ∧ y = start.y) → s'.IsWalkable x y = s.IsWalkable x y)
    (cur : Int) (current : PathNode) : ∀ (l : List SDL_Point) (st : SearchState),
    s.hash start ∈ st.closed_set →
    l.foldl (relax s' goal cur current) st = l.foldl (relax s goal cur current) st
  | [], _, _ => rfl
  | nb :: l, st, hc => by
    rw [List.foldl_cons, List.foldl_cons, relax_congr s s' start goal hw hh hocc cur current st nb hc]
    exact foldl_relax_congr s s' start goal hw hh hocc cur current l _
      (by rw [relax_closed_set]; exact hc)

theorem loopBody_congr (s s' : AISnake) (start goal : SDL_Point)
    (hw : s'.grid_width_ = s.grid_width_) (hh : s'.grid_height_ = s.grid_height_)
    (hocc : ∀ x y, ¬(x = start.x ∧ y = start.y) → s'.IsWalkable x y = s.IsWalkable x y)
    (st : SearchState) (hst : StartClosed s start st) :
    loopBody s' goal st = loopBody s goal st ∧
      ∀ st1, loopBody s goal st = .cont st1 → s.hash start ∈ st1.closed_set := by
  have hnb : ∀ x y, s'.GetNeighbors x y = s.GetNeighbors x y := by
    intro x y; unfold AISnake.GetNeighbors; rw [hw, hh]
  unfold loopBody
  cases ho : st.open_set with
  | nil => exact ⟨rfl, fun st1 h => by cases h⟩
  | cons cur rest =>
    simp only
    cases hn : nodeAt st.node_map cur with
    | none => exact ⟨rfl, fun st1 h => by cases h⟩
    | some current =>
      simp only [hw, hnb]
      have hcur : current.y * s.grid_width_ + current.x ∈ st.closed_set ∨
          current.y * s.grid_width_ + current.x = s.hash start ∨
          s.hash start ∈ st.closed_set := by
        rcases hst with h | h
        · exact Or.inr (Or.inr h)
        · exact Or.inr (Or.inl (h cur current (by rw [ho]; rfl) hn))
      by_cases hcl : current.y * s.grid_width_ + current.x ∈ st.closed_set
      · rw [if_pos hcl, if_pos hcl]
        refine ⟨rfl, fun st1 h => ?_⟩
        cases h
        rcases hcur with h | h | h
        · rcases hst with h2 | h2
          · exact h2
          · rw [← h2 cur current (by rw [ho]; rfl) hn]; exact hcl
        · rw [← h]; exact hcl
        · exact h
      · rw [if_neg hcl, if_neg hcl]
        have hin : s.hash start ∈ (current.y * s.grid_width_ + current.x) :: st.closed_set := by
          rcases hcur with h | h | h
          · exact absurd h hcl
          · rw [h]; exact List.mem_cons_self _ _
          · exact List.mem_cons_of_mem _ h
        by_cases hg : current.x = goal.x ∧ current.y = goal.y
        · rw [if_pos hg, if_pos hg]
          exact ⟨rfl, fun st1 h => by cases h⟩
        · rw [if_neg hg, if_neg hg]
          rw [foldl_relax_congr s s' start goal hw hh hocc cur current _ _ hin]
          refine ⟨rfl, fun st1 h => ?_⟩
          cases h
          rw [foldl_relax_closed_set]
          exact hin

theorem searchLoop_congr (s s' : AISnake) (start goal : SDL_Point)
    (hw : s'.grid_width_ = s.grid_width_) (hh : s'.grid_height_ = s.grid_height_)
    (hocc : ∀ x y, ¬(x = start.x ∧ y = start.y) → s'.IsWalkable x y = s.IsWalkable x y) :
    ∀ (fuel : Nat) (st : SearchState), StartClosed s start st →
      searchLoop s' goal fuel st = searchLoop s goal fuel st
  | 0, _, _ => rfl
  | fuel + 1, st, hst => by
    obtain ⟨e, hnext⟩ := loopBody_congr s s' start goal hw hh hocc st hst
    unfold searchLoop
    rw [e]
    cases hb : loopBody s goal st with
    | ret route st1 => rfl
    | stuck => rfl
    | cont st1 =>
      exact searchLoop_congr s s' start goal hw hh hocc fuel st1 (Or.inl (hnext st1 hb))

/-- The route does not depend on whether the occupancy check blocks the start
cell: two agents on the same grid whose `IsWalkable` differs at most on `start`
return the same route from `start`. -/
theorem calculatePath_congr (s s' : AISnake) (start goal : SDL_Point)
    (hw : s'.grid_width_ = s.grid_width_) (hh : s'.grid_height_ = s.grid_height_)
    (hocc : ∀ x y, ¬(x = start.x ∧ y = start.y) → s'.IsWalkable x y = s.IsWalkable x y) :
    CalculatePath s' start goal = CalculatePath s start goal := by
  have hinit : initState s' start goal = initState s start goal := by
    unfold initState startNode AISnake.hash AISnake.Heuristic
    rw [hw, hh]
  have hfuel : searchFuel s' = searchFuel s := by unfold searchFuel; rw [hw, hh]
  unfold CalculatePath
  rw [hinit, hfuel, searchLoop_congr s s' start goal hw hh hocc]
  right
  intro cur current h1 h2
  rw [initState_open] at h1
  cases h1
  obtain ⟨-, e⟩ := nodeAt_singleton (s.hash start) (s.hash start) (startNode s start goal)
    current h2
  rw [e]
  rfl

theorem occupies_cons_of_ne (start : SDL_Point) (l : List SDL_Point) (x y : Int)
    (h : ¬(x = start.x ∧ y = start.y)) : occupies (start :: l) x y = occupies l x y := by
  unfold occupies
  rw [List.any_cons]
  have : (start.x == x && start.y == y) = false := by
    rw [Bool.eq_false_iff]
    intro hc
    simp only [Bool.and_eq_true, beq_iff_eq] at hc
    exact h ⟨hc.1.symm, hc.2.symm⟩
  rw [this, Bool.false_or]

/-- C11. The start cell is never blocked by the occupancy check: whatever the
grid, the occupancy, the start and the goal, `CalculatePath(start, goal)`
returns the same route when the start cell is added to the blocked cells, be it
as an obstacle, as a segment of the own body or as a segment of the player
body. -/
theorem CalculatePath_start_never_blocked (s : AISnake) (start goal : SDL_Point) :
    CalculatePath { s with obstacles_ := start :: s.obstacles_ } start goal =
        CalculatePath s start goal ∧
      CalculatePath { s with body := start :: s.body } start goal =
        CalculatePath s start goal ∧
      CalculatePath { s with player_snake_body_ := start :: s.player_snake_body_ } start goal =
        CalculatePath s start goal := by
  refine ⟨?_, ?_, ?_⟩
  · refine calculatePath_congr s _ start goal rfl rfl (fun x y h => ?_)
    unfold AISnake.IsWalkable
    simp only [occupies_cons_of_ne start _ x y h]
  · refine calculatePath_congr s _ start goal rfl rfl (fun x y h => ?_)
    unfold AISnake.IsWalkable
    simp only [occupies_cons_of_ne start _ x y h]
  · refine calculatePath_congr s _ start goal rfl rfl (fun x y h => ?_)
    unfold AISnake.IsWalkable
    simp only [occupies_cons_of_ne start _ x y h]

/-! ## Following the route -/

theorem hasValidPath_iff (s : AISnake) :
    s.HasValidPath = true ↔ s.path_index_ < s.current_path_.length := by
  unfold AISnake.HasValidPath
  cases h : s.current_path_ with
  | nil => simp
  | cons a t => simp

theorem updateAI_of_valid (s : AISnake) (halive : s.alive = true) (next : SDL_Point)
    (hnext : s.current_path_[s.path_index_]? = some next) :
    s.UpdateAI =
      if s.head_x = next.x ∧ s.head_y = next.y then
        { s with
          direction := setDirection (wrapDelta (next.x - s.head_x) s.grid_width_)
            (wrapDelta (next.y - s.head_y) s.grid_height_) s.direction,
          path_index_ := s.path_index_ + 1 }
      else
        { s with
          direction := setDirection (wrapDelta (next.x - s.head_x) s.grid_width_)
            (wrapDelta (next.y - s.head_y) s.grid_height_) s.direction } := by
  have hlt : s.path_index_ < s.current_path_.length := by
    by_contra hc
    rw [List.getElem?_eq_none (by omega)] at hnext
    cases hnext
  have hne : s.current_path_.isEmpty = false := by
    cases h : s.current_path_ with
    | nil => rw [h] at hlt; simp at hlt
    | cons a t => rfl
  have hget : s.current_path_.getD s.path_index_ ⟨0, 0⟩ = next := by
    rw [List.getD_eq_getElem?_getD, hnext]; rfl
  unfold AISnake.UpdateAI
  simp only [halive, hne, hget, Bool.false_or, decide_eq_true_eq, ge_iff_le, Nat.not_le.mpr hlt,
    if_false, Bool.true_eq_false]

theorem wrapDelta_zero (dim : Int) (h : 0 ≤ dim) : wrapDelta 0 dim = 0 := by
  unfold wrapDelta
  have h1 : dim.tdiv 2 = dim / 2 := Int.tdiv_eq_ediv h (by decide)
  have h2 : (-dim).tdiv 2 = -(dim / 2) := by rw [Int.neg_tdiv, h1]
  simp only [h1, h2]
  split_ifs <;> omega

theorem wrapDelta_spec (d dim : Int) (hdim : 0 < dim) (h1 : -dim < d) (h2 : d < dim) :
    Int.ModEq dim (wrapDelta d dim) d ∧
      c_abs (wrapDelta d dim) = c_min (c_abs d) (dim - c_abs d) := by
  unfold wrapDelta c_abs c_min
  have e1 : dim.tdiv 2 = dim / 2 := Int.tdiv_eq_ediv (by omega) (by decide)
  have e2 : (-dim).tdiv 2 = -(dim / 2) := by rw [Int.neg_tdiv, e1]
  simp only [e1, e2, Int.ModEq]
  have m1 : (d - dim) % dim = d % dim := by simp
  have m2 : (d + dim) % dim = d % dim := by simp
  split_ifs <;> (constructor <;> first | rfl | assumption | omega)

/-- C12. Direction choice in `UpdateAI` for a live snake whose cursor points at
the waypoint `next`, with `dx`, `dy` the wrap-corrected deltas: when
`|dx| > |dy|` the direction becomes `kRight` for `dx > 0` and `kLeft` for
`dx < 0`; otherwise it becomes `kDown` for `dy > 0`, `kUp` for `dy < 0` and
stays as it was for `dy = 0`.  On the 32x32 grid, head (5,5) with waypoint
(6,6) gives `kDown` and head (5,5) with waypoint (7,5) gives `kRight`, whatever
the direction was before. -/
theorem UpdateAI_direction_choice (s : AISnake) (next : SDL_Point)
    (halive : s.alive = true) (hnext : s.current_path_[s.path_index_]? = some next) :
    (c_abs (wrapDelta (next.x - s.head_x) s.grid_width_) >
          c_abs (wrapDelta (next.y - s.head_y) s.grid_height_) →
        (wrapDelta (next.x - s.head_x) s.grid_width_ > 0 →
          s.UpdateAI.direction = Direction.kRight) ∧
        (wrapDelta (next.x - s.head_x) s.grid_width_ < 0 →
          s.UpdateAI.direction = Direction.kLeft)) ∧
    (c_abs (wrapDelta (next.x - s.head_x) s.grid_width_) ≤
          c_abs (wrapDelta (next.y - s.head_y) s.grid_height_) →
        (wrapDelta (next.y - s.head_y) s.grid_height_ > 0 →
          s.UpdateAI.direction = Direction.kDown) ∧
        (wrapDelta (next.y - s.head_y) s.grid_height_ < 0 →
          s.UpdateAI.direction = Direction.kUp) ∧
        (wrapDelta (next.y - s.head_y) s.grid_height_ = 0 →
          s.UpdateAI.direction = s.direction)) ∧
    (∀ d : Direction,
      ({ grid_width_ := 32, grid_height_ := 32, head_x := 5, head_y := 5, direction := d,
         current_path_ := [⟨6, 6⟩] } : AISnake).UpdateAI.direction = Direction.kDown) ∧
    (∀ d : Direction,
      ({ grid_width_ := 32, grid_height_ := 32, head_x := 5, head_y := 5, direction := d,
         current_path_ := [⟨7, 5⟩] } : AISnake).UpdateAI.direction = Direction.kRight) := by
  have hdir : s.UpdateAI.direction =
      setDirection (wrapDelta (next.x - s.head_x) s.grid_width_)
        (wrapDelta (next.y - s.head_y) s.grid_height_) s.direction := by
    rw [updateAI_of_valid s halive next hnext]
    split_ifs <;> rfl
  rw [hdir]
  unfold setDirection
  refine ⟨fun h => ⟨fun h1 => ?_, fun h1 => ?_⟩, fun h => ⟨fun h1 => ?_, fun h1 => ?_, fun h1 => ?_⟩,
    fun d => ?_, fun d => ?_⟩
  · rw [if_pos h, if_pos h1]
  · rw [if_pos h, if_neg (by omega), if_pos h1]
  · rw [if_neg (by omega), if_pos h1]
  · rw [if_neg (by omega), if_neg (by omega), if_pos h1]
  · rw [if_neg (by omega), if_neg (by omega), if_neg (by omega)]
  · cases d <;> decide
  · cases d <;> decide

/-- The tie of C12 on the 32x32 grid: head (5,5), waypoint (6,6), both deltas 1. -/
theorem UpdateAI_direction_choice_witness :
    ({ grid_width_ := 32, grid_height_ := 32, head_x := 5, head_y := 5,
       current_path_ := [⟨6, 6⟩] } : AISnake).UpdateAI.direction = Direction.kDown :=
  ((UpdateAI_direction_choice
      { grid_width_ := 32, grid_height_ := 32, head_x := 5, head_y := 5,
        current_path_ := [⟨6, 6⟩] } ⟨6, 6⟩ (by decide) (by decide)).2.1 (by decide)).1 (by decide)

/-- C13. On a grid with `W, H ≥ 1`, for an in-grid head cell and waypoint, the
wrap-corrected deltas that `UpdateAI` computes from the raw deltas `dx`, `dy`
are congruent to them modulo `W` and `H`, and `|dx'| = min(|dx|, W - |dx|)`,
`|dy'| = min(|dy|, H - |dy|)`; their sizes add up to `Heuristic` of the two
cells. -/
theorem UpdateAI_wrap_shorter (s : AISnake) (next : SDL_Point)
    (hhead : InGrid s ⟨s.head_x, s.head_y⟩) (hnext : InGrid s next) :
    Int.ModEq s.grid_width_ (wrapDelta (next.x - s.head_x) s.grid_width_) (next.x - s.head_x) ∧
    Int.ModEq s.grid_height_ (wrapDelta (next.y - s.head_y) s.grid_height_)
      (next.y - s.head_y) ∧
    c_abs (wrapDelta (next.x - s.head_x) s.grid_width_) =
      c_min (c_abs (next.x - s.head_x)) (s.grid_width_ - c_abs (next.x - s.head_x)) ∧
    c_abs (wrapDelta (next.y - s.head_y) s.grid_height_) =
      c_min (c_abs (next.y - s.head_y)) (s.grid_height_ - c_abs (next.y - s.head_y)) ∧
    c_abs (wrapDelta (next.x - s.head_x) s.grid_width_) +
        c_abs (wrapDelta (next.y - s.head_y) s.grid_height_) =
      s.Heuristic s.head_x s.head_y next.x next.y := by
  obtain ⟨a1, a2, a3, a4⟩ := hhead
  obtain ⟨b1, b2, b3, b4⟩ := hnext
  simp only at a1 a2 a3 a4
  obtain ⟨mx, ax⟩ := wrapDelta_spec (next.x - s.head_x) s.grid_width_ (by omega) (by omega)
    (by omega)
  obtain ⟨my, ay⟩ := wrapDelta_spec (next.y - s.head_y) s.grid_height_ (by omega) (by omega)
    (by omega)
  refine ⟨mx, my, ax, ay, ?_⟩
  rw [ax, ay]
  rfl

/-- An instance of C13 on the 32x32 grid: head (1,30), waypoint (30,2). -/
theorem UpdateAI_wrap_shorter_witness :
    wrapDelta (30 - 1) 32 = -3 ∧ wrapDelta (2 - 30) 32 = 4 ∧
    c_abs (wrapDelta (30 - 1) 32) + c_abs (wrapDelta (2 - 30) 32) =
      ({ grid_width_ := 32, grid_height_ := 32, head_x := 1, head_y := 30 } :
        AISnake).Heuristic 1 30 30 2 :=
  ⟨by decide, by decide,
    (UpdateAI_wrap_shorter { grid_width_ := 32, grid_height_ := 32, head_x := 1, head_y := 30 }
      ⟨30, 2⟩ (by decide) (by decide)).2.2.2.2⟩

/-- C14. `UpdateAI` is a no-op when there is nothing to follow: if the snake is
not alive, or `current_path_` is empty, or `path_index_ ≥ current_path_.size()`,
or (the same thing) `HasValidPath()` is false, then the whole state, so also
`direction`, `path_index_` and `current_path_`, is unchanged. -/
theorem UpdateAI_noop (s : AISnake)
    (h : s.alive = false ∨ s.current_path_ = [] ∨ s.current_path_.length ≤ s.path_index_ ∨
      s.HasValidPath = false) :
    s.UpdateAI = s ∧ s.UpdateAI.direction = s.direction ∧
      s.UpdateAI.path_index_ = s.path_index_ ∧ s.UpdateAI.current_path_ = s.current_path_ := by
  have key : s.UpdateAI = s := by
    unfold AISnake.UpdateAI
    by_cases ha : s.alive = false
    · rw [if_pos ha]
    · rw [if_neg ha]
      have hlen : s.current_path_.length ≤ s.path_index_ := by
        rcases h with h | h | h | h
        · exact absurd h ha
        · rw [h]; exact Nat.zero_le _
        · exact h
        · by_contra hc
          have := (hasValidPath_iff s).mpr (by omega)
          rw [h] at this
          cases this
      rw [if_pos]
      simp [hlen]
  rw [key]
  exact ⟨rfl, rfl, rfl, rfl⟩

/-- An instance of C14: the cursor has passed the last waypoint. -/
theorem UpdateAI_noop_witness :
    ({ grid_width_ := 32, grid_height_ := 32, head_x := 5, head_y := 5,
       current_path_ := [⟨6, 6⟩], path_index_ := 1 } : AISnake).UpdateAI =
      { grid_width_ := 32, grid_height_ := 32, head_x := 5, head_y := 5,
        current_path_ := [⟨6, 6⟩], path_index_ := 1 } :=
  (UpdateAI_noop
    { grid_width_ := 32, grid_height_ := 32, head_x := 5, head_y := 5,
      current_path_ := [⟨6, 6⟩], path_index_ := 1 } (by decide)).1

/-- C15. Cursor advance in `UpdateAI` for a live snake whose cursor points at the
waypoint `next`: `path_index_` grows by exactly 1 when the head cell equals
`next` and is unchanged otherwise; when the head is on the waypoint the
direction is unchanged; `current_path_` is unchanged. -/
theorem UpdateAI_cursor (s : AISnake) (next : SDL_Point)
    (hw : 0 ≤ s.grid_width_) (hh : 0 ≤ s.grid_height_)
    (halive : s.alive = true) (hnext : s.current_path_[s.path_index_]? = some next) :
    s.UpdateAI.path_index_ =
        (if s.head_x = next.x ∧ s.head_y = next.y then s.path_index_ + 1 else s.path_index_) ∧
      (s.head_x = next.x ∧ s.head_y = next.y → s.UpdateAI.direction = s.direction) ∧
      s.UpdateAI.current_path_ = s.current_path_ := by
  rw [updateAI_of_valid s halive next hnext]
  refine ⟨?_, ?_, ?_⟩
  · split_ifs <;> rfl
  · intro h
    rw [if_pos h]
    obtain ⟨hx, hy⟩ := h
    show setDirection _ _ _ = _
    rw [hx, hy, sub_self, sub_self, wrapDelta_zero _ hw, wrapDelta_zero _ hh]
    rfl
  · split_ifs <;> rfl

/-- An instance of C15: the head stands on the waypoint, the cursor moves on and
the direction stays. -/
theorem UpdateAI_cursor_witness :
    ({ grid_width_ := 32, grid_height_ := 32, head_x := 6, head_y := 6,
       direction := Direction.kLeft, current_path_ := [⟨6, 6⟩, ⟨6, 7⟩] } :
        AISnake).UpdateAI.path_index_ = 1 :=
  (UpdateAI_cursor
    { grid_width_ := 32, grid_height_ := 32, head_x := 6, head_y := 6,
      direction := Direction.kLeft, current_path_ := [⟨6, 6⟩, ⟨6, 7⟩] } ⟨6, 6⟩
    (by decide) (by decide) (by decide) (by decide)).1

/-! ## The foreground interface and the worker -/

theorem foldl_setFoodTarget : ∀ (gs : List SDL_Point) (hne : gs ≠ []) (s : AISnake),
    gs.foldl (fun a p => a.SetFoodTarget p.x p.y) s =
      { s with food_target_ := gs.getLast hne, path_requested_ := true }
  | [], hne, _ => absurd rfl hne
  | [g], _, s => rfl
  | g :: g1 :: t, _, s => by
    rw [List.foldl_cons, foldl_setFoodTarget (g1 :: t) (List.cons_ne_nil _ _)]
    rfl

theorem workerStep_running (s s1 : AISnake) (h : workerStep s = some s1) :
    s1.running_ = s.running_ := by
  unfold workerStep at h
  split at h
  · cases h
  · cases h; rfl
  · split_ifs at h; cases h; rfl
  · cases h; rfl
  · cases h; rfl
  · split at h
    · cases h; rfl
    · cases h; rfl
    · cases h
  · cases h; rfl
  · cases h

theorem awaitMutex_running : ∀ (fuel : Nat) (s s1 : AISnake), awaitMutex fuel s = some s1 →
    s1.running_ = s.running_
  | 0, s, s1, h => by
    unfold awaitMutex at h
    split_ifs at h
    cases h; rfl
  | fuel + 1, s, s1, h => by
    unfold awaitMutex at h
    split_ifs at h
    · split at h
      · cases h
      · rename_i s2 hs2
        rw [awaitMutex_running fuel s2 s1 h, workerStep_running s s2 hs2]
    · cases h; rfl

theorem joinWorker_spec : ∀ (fuel : Nat) (s s1 : AISnake), joinWorker fuel s = some s1 →
    s1.running_ = s.running_ ∧ s1.pathfinding_thread_ = none
  | 0, s, s1, h => by
    unfold joinWorker at h
    split_ifs at h
    cases h; exact ⟨rfl, rfl⟩
  | fuel + 1, s, s1, h => by
    unfold joinWorker at h
    split_ifs at h
    · cases h; exact ⟨rfl, rfl⟩
    · split at h
      · cases h
      · rename_i s2 hs2
        obtain ⟨h1, h2⟩ := joinWorker_spec fuel s2 s1 h
        exact ⟨by rw [h1, workerStep_running s s2 hs2], h2⟩

/-- What `StopAI` leaves behind: the flag is down, and if it was up before, the
thread handle is not joinable any more. -/
theorem stopAI_spec (s s1 : AISnake) (h : s.StopAI = some s1) :
    (s.running_ = false → s1 = s) ∧ s1.running_ = false ∧
      (s.running_ = true → s1.pathfinding_thread_ = none) := by
  unfold AISnake.StopAI at h
  by_cases hr : s.running_ = true
  · rw [hr] at h
    simp only [Bool.not_true, Bool.false_eq_true, if_false] at h
    split at h
    · cases h
    · rename_i s2 hs2
      have hr2 : s2.running_ = false := awaitMutex_running 2 _ s2 hs2
      split at h
      · rename_i hnone
        cases h
        exact ⟨fun hc => (by rw [hr] at hc; cases hc), hr2, fun _ => hnone⟩
      · obtain ⟨h1, h2⟩ := joinWorker_spec _ _ s1 h
        exact ⟨fun hc => (by rw [hr] at hc; cases hc), (by rw [h1]; exact hr2), fun _ => h2⟩
  · have hf : s.running_ = false := by simpa using hr
    rw [hf] at h
    simp only [Bool.not_false, if_true] at h
    cases h
    exact ⟨fun _ => rfl, hf, fun hc => (by rw [hf] at hc; cases hc)⟩

/-- C16, counterexample. A running agent whose worker waits with no request
pending: after `SetObstacles` the stored list is the argument, but
`path_requested_` is still false and the worker still cannot leave its wait. -/
theorem SetObstacles_no_request :
    (AISnake.SetObstacles
        { grid_width_ := 32, grid_height_ := 32, running_ := true,
          pathfinding_thread_ := some .waiting } [⟨3, 3⟩]).obstacles_ = [⟨3, 3⟩] ∧
      (AISnake.SetObstacles
        { grid_width_ := 32, grid_height_ := 32, running_ := true,
          pathfinding_thread_ := some .waiting } [⟨3, 3⟩]).path_requested_ = false ∧
      workerStep (AISnake.SetObstacles
        { grid_width_ := 32, grid_height_ := 32, running_ := true,
          pathfinding_thread_ := some .waiting } [⟨3, 3⟩]) = none := by
  decide

/-- C16, amended. `SetObstacles(obstacles)` stores the list and changes nothing
else: `path_requested_` keeps its value, so a worker that waits with no request
pending stays in its wait; the new occupancy is searched only after a later
`SetFoodTarget`, whose request the worker takes in three steps. -/
theorem SetObstacles_stores_only (s : AISnake) (obstacles : List SDL_Point) (x y : Int)
    (hrun : s.running_ = true) (hreq : s.path_requested_ = false)
    (hpc : s.pathfinding_thread_ = some .waiting) :
    (s.SetObstacles obstacles).obstacles_ = obstacles ∧
      s.SetObstacles obstacles = { s with obstacles_ := obstacles } ∧
      (s.SetObstacles obstacles).path_requested_ = false ∧
      workerStep (s.SetObstacles obstacles) = none ∧
      workerSteps 3 ((s.SetObstacles obstacles).SetFoodTarget x y) =
        some { s with
          obstacles_ := obstacles, food_target_ := ⟨x, y⟩, path_requested_ := false,
          pathfinding_thread_ :=
            some (.computing ⟨x, y⟩ (initState s ⟨s.head_x, s.head_y⟩ ⟨x, y⟩)) } := by
  refine ⟨rfl, rfl, hreq, ?_, ?_⟩
  · unfold workerStep AISnake.SetObstacles
    simp only [hpc, hrun, hreq]
    rfl
  · unfold workerSteps workerSteps workerSteps workerSteps workerStep AISnake.SetObstacles
      AISnake.SetFoodTarget
    simp only [hpc, hrun]
    rfl

/-- An instance of C16 (amended) on the 32x32 grid. -/
theorem SetObstacles_stores_only_witness :
    workerStep (AISnake.SetObstacles
      { grid_width_ := 32, grid_height_ := 32, running_ := true,
        pathfinding_thread_ := some .waiting } [⟨3, 3⟩]) = none :=
  (SetObstacles_stores_only
    { grid_width_ := 32, grid_height_ := 32, running_ := true,
      pathfinding_thread_ := some .waiting } [⟨3, 3⟩] 7 7 rfl rfl rfl).2.2.2.1

/-- C18. Lifecycle idempotence: `StartAI` on a running agent changes nothing (the
thread handle included, so no second worker is created), `StopAI` on an agent
that is not running changes nothing; hence `StartAI; StartAI` is `StartAI` and,
whenever `StopAI` returns, a second `StopAI` returns the same state.  After
`StopAI` the flag is down and a worker that was running has been joined. -/
theorem StartAI_StopAI_idempotent (s : AISnake) :
    (s.running_ = true → s.StartAI = s) ∧
      (s.running_ = false → s.StopAI = some s) ∧
      s.StartAI.StartAI = s.StartAI ∧
      s.StopAI.bind AISnake.StopAI = s.StopAI ∧
      (∀ s1, s.StopAI = some s1 →
        s1.running_ = false ∧ (s.running_ = true → s1.pathfinding_thread_ = none)) := by
  have hstop : ∀ t : AISnake, t.running_ = false → t.StopAI = some t := by
    intro t ht
    unfold AISnake.StopAI
    rw [ht]
    rfl
  refine ⟨fun h => ?_, hstop s, ?_, ?_, fun s1 h => (stopAI_spec s s1 h).2⟩
  · unfold AISnake.StartAI
    rw [h]
    rfl
  · by_cases h : s.running_ = true
    · have e : s.StartAI = s := by unfold AISnake.StartAI; rw [h]; rfl
      rw [e, e]
    · have hf : s.running_ = false := by simpa using h
      unfold AISnake.StartAI
      simp only [hf, Bool.false_eq_true, if_false, if_true]
  · cases h : s.StopAI with
    | none => rfl
    | some s1 =>
      rw [Option.some_bind]
      exact hstop s1 (stopAI_spec s s1 h).2.1

/-- C19, counterexample. On a 4x3 grid the agent is started and a goal (2,0) is
set; the worker passes its wait and its test of `running_` (three steps).  Then
`StopAI` stores false to `running_`, and the next worker step still copies the
query and starts the search; `StopAI` as a whole returns with the route of that
search published. -/
theorem worker_search_after_stop :
    (workerSteps 3 ((({ grid_width_ := 4, grid_height_ := 3 } : AISnake).StartAI).SetFoodTarget
        2 0)).map (fun t => t.pathfinding_thread_) = some (some .taking) ∧
      ((workerSteps 3 ((({ grid_width_ := 4, grid_height_ := 3 } : AISnake).StartAI).SetFoodTarget
          2 0)).bind (fun t => workerStep { t with running_ := false })).map
        (fun t => (t.running_, t.pathfinding_thread_)) =
        some (false, some (.computing ⟨2, 0⟩
          (initState { grid_width_ := 4, grid_height_ := 3 } ⟨0, 0⟩ ⟨2, 0⟩))) ∧
      ((workerSteps 3 ((({ grid_width_ := 4, grid_height_ := 3 } : AISnake).StartAI).SetFoodTarget
          2 0)).bind AISnake.StopAI).map (fun t => t.current_path_) =
        some [⟨1, 0⟩, ⟨2, 0⟩] := by
  decide

/-- C19, amended. With `running_` false, a worker that tests the flag exits
without copying a query: from the loop head in one step, from its wait in two
steps (wake, test) whether or not a request is pending, from the test after
the wait in one step.  A step into a search is then possible only for a worker
that had passed the test before the store, or that is already searching.
`StartAI` followed at once by `StopAI` returns, also when the worker has
already reached its wait and no request was ever submitted. -/
theorem worker_stop_before_test (s : AISnake) (hstop : s.running_ = false) :
    workerStep { s with pathfinding_thread_ := some .loopHead } =
        some { s with pathfinding_thread_ := some .exited } ∧
      workerSteps 2 { s with pathfinding_thread_ := some .waiting } =
        some { s with pathfinding_thread_ := some .exited } ∧
      workerStep { s with pathfinding_thread_ := some .woken } =
        some { s with pathfinding_thread_ := some .exited } ∧
      (∀ s1 goal st, workerStep s = some s1 →
        s1.pathfinding_thread_ = some (.computing goal st) →
        s.pathfinding_thread_ = some .taking ∨
          ∃ st0, s.pathfinding_thread_ = some (.computing goal st0)) ∧
      s.StartAI.StopAI =
        some { s with running_ := false, path_requested_ := true, pathfinding_thread_ := none } ∧
      (workerSteps 1 s.StartAI).bind AISnake.StopAI =
        some { s with running_ := false, path_requested_ := true, pathfinding_thread_ := none } := by
  have h4 : ∀ s1 goal st, workerStep s = some s1 →
      s1.pathfinding_thread_ = some (.computing goal st) →
      s.pathfinding_thread_ = some .taking ∨
        ∃ st0, s.pathfinding_thread_ = some (.computing goal st0) := by
    intro s1 goal st h hc
    unfold workerStep at h
    split at h
    · cases h
    · cases h; rw [hstop] at hc; cases hc
    · split_ifs at h; cases h; cases hc
    · cases h; rw [hstop] at hc; cases hc
    · rename_i hpc; exact Or.inl hpc
    · rename_i g st0 hpc
      split at h
      · cases h; cases hc
      · cases h
        simp only [Option.some.injEq, WorkerPc.computing.injEq] at hc
        exact Or.inr ⟨st0, by rw [hpc, hc.1]⟩
      · cases h
    · cases h; cases hc
    · cases h
  refine ⟨?_, ?_, ?_, h4, ?_, ?_⟩
  all_goals
    obtain ⟨W, H, body, obs, pb, ph, alive, dir, hx, hy, ft, req, run, cp, idx, th⟩ := s
    simp only at hstop
    subst hstop
  · rfl
  · cases req <;> rfl
  · rfl
  · rfl
  · rfl

/-- An instance of C19 (amended): a stopped agent on the 4x3 grid with a request
pending; the waiting worker wakes, tests the flag and exits. -/
theorem worker_stop_before_test_witness :
    workerSteps 2
        { grid_width_ := 4, grid_height_ := 3, path_requested_ := true,
          pathfinding_thread_ := some .waiting } =
      some
        { grid_width_ := 4, grid_height_ := 3, path_requested_ := true,
          pathfinding_thread_ := some .exited } :=
  (worker_stop_before_test
    { grid_width_ := 4, grid_height_ := 3, path_requested_ := true,
      pathfinding_thread_ := some .waiting } rfl).2.1

/-- C20. The search reads the occupancy members as they are during the search,
not a copy made when the query was taken.  On a 4x3 grid with no obstacles the
worker takes the query from (0,0) to (2,0), for which `CalculatePath` on the
occupancy of that moment returns the route (1,0), (2,0), and runs one pass of
the search.  Then the foreground calls `SetObstacles` with the cell (2,0); the
remaining passes treat (2,0) as blocked and the worker publishes the empty
route. -/
theorem worker_search_reads_live_occupancy :
    CalculatePath
        { grid_width_ := 4, grid_height_ := 3, running_ := true, path_requested_ := true,
          food_target_ := ⟨2, 0⟩, pathfinding_thread_ := some .waiting }
        ⟨0, 0⟩ ⟨2, 0⟩ = some [⟨1, 0⟩, ⟨2, 0⟩] ∧
      (workerSteps 4
        { grid_width_ := 4, grid_height_ := 3, running_ := true, path_requested_ := true,
          food_target_ := ⟨2, 0⟩, pathfinding_thread_ := some .waiting }).map
        (fun t => t.obstacles_) = some [] ∧
      ((workerSteps 4
          { grid_width_ := 4, grid_height_ := 3, running_ := true, path_requested_ := true,
            food_target_ := ⟨2, 0⟩, pathfinding_thread_ := some .waiting }).bind
          (fun t => workerSteps 12 (t.SetObstacles [⟨2, 0⟩]))).map
        (fun t => (t.current_path_, t.pathfinding_thread_)) = some ([], some .loopHead) := by
  decide

/-! ## The heuristic and the neighbours -/

theorem getNeighbors_emod (s : AISnake) (x y : Int)
    (hx : 0 ≤ x ∧ x < s.grid_width_) (hy : 0 ≤ y ∧ y < s.grid_height_) :
    s.GetNeighbors x y =
      [⟨(x + 1) % s.grid_width_, y⟩, ⟨(x - 1) % s.grid_width_, y⟩,
       ⟨x, (y + 1) % s.grid_height_⟩, ⟨x, (y - 1) % s.grid_height_⟩] := by
  unfold AISnake.GetNeighbors
  rw [Int.tmod_eq_emod (by omega) (by omega), Int.tmod_eq_emod (by omega) (by omega),
    Int.tmod_eq_emod (by omega) (by omega), Int.tmod_eq_emod (by omega) (by omega),
    Int.add_emod_self, Int.add_emod_self]

/-- The wrapped successor and predecessor of an in-range coordinate. -/
theorem emod_succ_pred (x w : Int) (h0 : 0 ≤ x) (h1 : x < w) :
    ((x + 1) % w = x + 1 ∨ (x + 1 = w ∧ (x + 1) % w = 0)) ∧
      ((x - 1) % w = x - 1 ∨ (x = 0 ∧ (x - 1) % w = w - 1)) := by
  constructor
  · by_cases h : x + 1 < w
    · exact Or.inl (Int.emod_eq_of_lt (by omega) h)
    · have e : x + 1 = w := by omega
      exact Or.inr ⟨e, by rw [e]; exact Int.emod_self⟩
  · by_cases h : 0 < x
    · exact Or.inl (Int.emod_eq_of_lt (by omega) (by omega))
    · have e : x = 0 := by omega
      refine Or.inr ⟨e, ?_⟩
      rw [e]
      have : (0 - 1 : Int) % w = (0 - 1 + w) % w := by rw [Int.add_emod_self]
      have h3 : (0 - 1 + w) % w = 0 - 1 + w := Int.emod_eq_of_lt (by omega) (by omega)
      rw [this, h3]
      omega

/-- One axis of the heuristic changes by at most 1 under a wrapped step. -/
theorem axis_consistent (x n g w : Int) (hx : 0 ≤ x ∧ x < w) (hg : 0 ≤ g ∧ g < w)
    (hn : n = x ∨ n = (x + 1) % w ∨ n = (x - 1) % w) :
    c_min (c_abs (g - x)) (w - c_abs (g - x)) ≤
      1 + c_min (c_abs (g - n)) (w - c_abs (g - n)) := by
  obtain ⟨h1, h2⟩ := emod_succ_pred x w hx.1 hx.2
  unfold c_min c_abs
  rcases hn with rfl | rfl | rfl
  · split_ifs <;> omega
  · rcases h1 with e | ⟨e0, e⟩ <;> rw [e] <;> split_ifs <;> omega
  · rcases h2 with e | ⟨e0, e⟩ <;> rw [e] <;> split_ifs <;> omega

theorem heuristic_consistent (s : AISnake) (a g n : SDL_Point) (ha : InGrid s a)
    (hg : InGrid s g) (hn : n ∈ s.GetNeighbors a.x a.y) :
    s.Heuristic a.x a.y g.x g.y ≤ 1 + s.Heuristic n.x n.y g.x g.y := by
  obtain ⟨a1, a2, a3, a4⟩ := ha
  obtain ⟨g1, g2, g3, g4⟩ := hg
  rw [getNeighbors_emod s a.x a.y ⟨a1, a2⟩ ⟨a3, a4⟩] at hn
  simp only [List.mem_cons, List.mem_singleton, List.not_mem_nil, or_false] at hn
  have hx0 := axis_consistent a.x a.x g.x s.grid_width_ ⟨a1, a2⟩ ⟨g1, g2⟩ (Or.inl rfl)
  have hy0 := axis_consistent a.y a.y g.y s.grid_height_ ⟨a3, a4⟩ ⟨g3, g4⟩ (Or.inl rfl)
  have nnx : ∀ v, 0 ≤ v → v < s.grid_width_ →
      0 ≤ c_min (c_abs (g.x - v)) (s.grid_width_ - c_abs (g.x - v)) := by
    intro v v1 v2; unfold c_min c_abs; split_ifs <;> omega
  have nny : ∀ v, 0 ≤ v → v < s.grid_height_ →
      0 ≤ c_min (c_abs (g.y - v)) (s.grid_height_ - c_abs (g.y - v)) := by
    intro v v1 v2; unfold c_min c_abs; split_ifs <;> omega
  unfold AISnake.Heuristic
  simp only
  rcases hn with rfl | rfl | rfl | rfl
  · have := axis_consistent a.x ((a.x + 1) % s.grid_width_) g.x s.grid_width_ ⟨a1, a2⟩ ⟨g1, g2⟩
      (Or.inr (Or.inl rfl))
    simp only
    omega
  · have := axis_consistent a.x ((a.x - 1) % s.grid_width_) g.x s.grid_width_ ⟨a1, a2⟩ ⟨g1, g2⟩
      (Or.inr (Or.inr rfl))
    simp only
    omega
  · have := axis_consistent a.y ((a.y + 1) % s.grid_height_) g.y s.grid_height_ ⟨a3, a4⟩
      ⟨g3, g4⟩ (Or.inr (Or.inl rfl))
    simp only
    omega
  · have := axis_consistent a.y ((a.y - 1) % s.grid_height_) g.y s.grid_height_ ⟨a3, a4⟩
      ⟨g3, g4⟩ (Or.inr (Or.inr rfl))
    simp only
    omega

theorem heuristic_le_steps (s : AISnake) (g : SDL_Point) (hg : InGrid s g) :
    ∀ (p : List SDL_Point) (a : SDL_Point), InGrid s a → IsStepSeq s a p →
      (a :: p).getLast? = some g → s.Heuristic a.x a.y g.x g.y ≤ p.length
  | [], a, ha, _, hlast => by
    simp only [List.getLast?_singleton, Option.some.injEq] at hlast
    rw [hlast, heuristic_self s g.x g.y (by have := hg.1; have := hg.2.1; omega)
      (by have := hg.2.2.1; have := hg.2.2.2; omega)]
    rfl
  | b :: rest, a, ha, hseq, hlast => by
    obtain ⟨hab, hrest⟩ := hseq
    have hw : 0 < s.grid_width_ := by have := ha.1; have := ha.2.1; omega
    have hh : 0 < s.grid_height_ := by have := ha.2.2.1; have := ha.2.2.2; omega
    have hb : InGrid s b := neighbors_inGrid s hw hh a ha b hab
    have hl : (b :: rest).getLast? = some g := by
      rw [List.getLast?_cons_cons] at hlast; exact hlast
    have ih := heuristic_le_steps s g hg rest b hb hrest hl
    have hc := heuristic_consistent s a g b ha hg hab
    simp only [List.length_cons, Nat.cast_add, Nat.cast_one]
    omega

theorem wrapDelta_neighbor (x w : Int) (h0 : 0 ≤ x) (h1 : x < w) (hw : 3 ≤ w) :
    wrapDelta ((x + 1) % w - x) w = 1 ∧ wrapDelta ((x - 1) % w - x) w = -1 := by
  obtain ⟨s1, s2⟩ := emod_succ_pred x w h0 h1
  have e1 : w.tdiv 2 = w / 2 := Int.tdiv_eq_ediv (by omega) (by decide)
  have e2 : (-w).tdiv 2 = -(w / 2) := by rw [Int.neg_tdiv, e1]
  unfold wrapDelta
  simp only [e1, e2]
  constructor
  · rcases s1 with e | ⟨e0, e⟩ <;> rw [e] <;> split_ifs <;> omega
  · rcases s2 with e | ⟨e0, e⟩ <;> rw [e] <;> split_ifs <;> omega

/-- C22. The heuristic is admissible: on every grid, for in-grid cells `a` and
`b` and every sequence `p` of 4-neighbour toroidal steps that leads from `a` to
`b`, `Heuristic(a, b)` is at most the number of steps. -/
theorem Heuristic_admissible (s : AISnake) (a b : SDL_Point) (p : List SDL_Point)
    (ha : InGrid s a) (hb : InGrid s b) (hseq : IsStepSeq s a p)
    (hlast : (a :: p).getLast? = some b) :
    s.Heuristic a.x a.y b.x b.y ≤ p.length :=
  heuristic_le_steps s b hb p a ha hseq hlast

/-- An instance of C22 on the 32x32 grid: three steps from (31,0) across both
edges to (1,31), heuristic 3. -/
theorem Heuristic_admissible_witness :
    ({ grid_width_ := 32, grid_height_ := 32 } : AISnake).Heuristic 31 0 1 31 ≤
      ([⟨0, 0⟩, ⟨1, 0⟩, ⟨1, 31⟩] : List SDL_Point).length :=
  Heuristic_admissible { grid_width_ := 32, grid_height_ := 32 } ⟨31, 0⟩ ⟨1, 31⟩
    [⟨0, 0⟩, ⟨1, 0⟩, ⟨1, 31⟩] (by decide) (by decide)
    ⟨by decide, by decide, by decide, trivial⟩ (by decide)

/-- C23. The heuristic is consistent: on every grid, for an in-grid cell `a`, an
in-grid goal `g` and every `n` in `GetNeighbors(a)`,
`Heuristic(a, g) ≤ 1 + Heuristic(n, g)`, and `Heuristic(g, g) = 0`. -/
theorem Heuristic_consistent (s : AISnake) (a g n : SDL_Point) (ha : InGrid s a)
    (hg : InGrid s g) (hn : n ∈ s.GetNeighbors a.x a.y) :
    s.Heuristic a.x a.y g.x g.y ≤ 1 + s.Heuristic n.x n.y g.x g.y ∧
      s.Heuristic g.x g.y g.x g.y = 0 :=
  ⟨heuristic_consistent s a g n ha hg hn,
    heuristic_self s g.x g.y (by have := hg.1; have := hg.2.1; omega)
      (by have := hg.2.2.1; have := hg.2.2.2; omega)⟩

/-- An instance of C23 on the 32x32 grid: from (31,5) the neighbour (0,5) across
the edge, goal (16,5). -/
theorem Heuristic_consistent_witness :
    ({ grid_width_ := 32, grid_height_ := 32 } : AISnake).Heuristic 31 5 16 5 ≤
      1 + ({ grid_width_ := 32, grid_height_ := 32 } : AISnake).Heuristic 0 5 16 5 :=
  (Heuristic_consistent { grid_width_ := 32, grid_height_ := 32 } ⟨31, 5⟩ ⟨16, 5⟩ ⟨0, 5⟩
    (by decide) (by decide) (by decide)).1

/-- C24. On every grid, for an in-grid cell `(x, y)`, `GetNeighbors(x, y)` is the
list of the four cells `((x+1) mod W, y)`, `((x-1) mod W, y)`,
`(x, (y+1) mod H)`, `(x, (y-1) mod H)` in that order, each of them in-grid. -/
theorem GetNeighbors_four_wrapped (s : AISnake) (x y : Int) (h : InGrid s ⟨x, y⟩) :
    s.GetNeighbors x y =
        [⟨(x + 1) % s.grid_width_, y⟩, ⟨(x - 1) % s.grid_width_, y⟩,
         ⟨x, (y + 1) % s.grid_height_⟩, ⟨x, (y - 1) % s.grid_height_⟩] ∧
      ∀ p ∈ s.GetNeighbors x y, InGrid s p := by
  obtain ⟨h1, h2, h3, h4⟩ := h
  simp only at h1 h2 h3 h4
  exact ⟨getNeighbors_emod s x y ⟨h1, h2⟩ ⟨h3, h4⟩,
    neighbors_inGrid s (by omega) (by omega) ⟨x, y⟩ ⟨h1, h2, h3, h4⟩⟩

/-- An instance of C24: the corner cell (0,31) of the 32x32 grid. -/
theorem GetNeighbors_four_wrapped_witness :
    ({ grid_width_ := 32, grid_height_ := 32 } : AISnake).GetNeighbors 0 31 =
      [⟨1, 31⟩, ⟨31, 31⟩, ⟨0, 0⟩, ⟨0, 30⟩] :=
  (GetNeighbors_four_wrapped { grid_width_ := 32, grid_height_ := 32 } 0 31 (by decide)).1

/-- C27. Food scoring: for every snake state and every score, `ApplyEffect` adds
exactly `GetPoints()` to the score, which is 1 for normal food, 2 for speed
boost food, 1 for slowdown food and 5 for bonus food. -/
theorem ApplyEffect_adds_points {σ : Type} (GrowBody : σ → σ) (setSpeed : FoodType → σ → σ)
    (f : Food) (snake : σ) (score : Int) :
    (f.ApplyEffect GrowBody setSpeed snake score).2 = score + f.GetPoints ∧
      f.GetPoints =
        (match f.type_ with
          | .Normal => 1
          | .SpeedBoost => 2
          | .Slowdown => 1
          | .Bonus => 5) ∧
      (∀ p : SDL_Point,
        (Food.GetPoints ⟨p, .Normal⟩ = 1 ∧ Food.GetPoints ⟨p, .SpeedBoost⟩ = 2 ∧
          Food.GetPoints ⟨p, .Slowdown⟩ = 1 ∧ Food.GetPoints ⟨p, .Bonus⟩ = 5)) := by
  refine ⟨?_, rfl, fun p => ⟨rfl, rfl, rfl, rfl⟩⟩
  unfold Food.ApplyEffect
  cases f.type_ <;> rfl

/-- C28. Steering reaches the waypoint: on a grid with `W, H ≥ 3`, for a live
snake with in-grid head cell `(x, y)` whose cursor points at the waypoint
`next`, `UpdateAI` sets `kRight` when `next` is `((x+1) mod W, y)`, `kLeft` for
`((x-1) mod W, y)`, `kDown` for `(x, (y+1) mod H)` and `kUp` for
`(x, (y-1) mod H)`; these four cells are `GetNeighbors(x, y)`. -/
theorem UpdateAI_steers_to_neighbour (s : AISnake) (next : SDL_Point)
    (hw : 3 ≤ s.grid_width_) (hh : 3 ≤ s.grid_height_)
    (hhead : InGrid s ⟨s.head_x, s.head_y⟩)
    (halive : s.alive = true) (hnext : s.current_path_[s.path_index_]? = some next) :
    (next = ⟨(s.head_x + 1) % s.grid_width_, s.head_y⟩ →
        s.UpdateAI.direction = Direction.kRight) ∧
      (next = ⟨(s.head_x - 1) % s.grid_width_, s.head_y⟩ →
        s.UpdateAI.direction = Direction.kLeft) ∧
      (next = ⟨s.head_x, (s.head_y + 1) % s.grid_height_⟩ →
        s.UpdateAI.direction = Direction.kDown) ∧
      (next = ⟨s.head_x, (s.head_y - 1) % s.grid_height_⟩ →
        s.UpdateAI.direction = Direction.kUp) ∧
      s.GetNeighbors s.head_x s.head_y =
        [⟨(s.head_x + 1) % s.grid_width_, s.head_y⟩, ⟨(s.head_x - 1) % s.grid_width_, s.head_y⟩,
         ⟨s.head_x, (s.head_y + 1) % s.grid_height_⟩,
         ⟨s.head_x, (s.head_y - 1) % s.grid_height_⟩] := by
  obtain ⟨h1, h2, h3, h4⟩ := hhead
  simp only at h1 h2 h3 h4
  obtain ⟨x1, x2⟩ := wrapDelta_neighbor s.head_x s.grid_width_ h1 h2 hw
  obtain ⟨y1, y2⟩ := wrapDelta_neighbor s.head_y s.grid_height_ h3 h4 hh
  have z1 := wrapDelta_zero s.grid_width_ (by omega)
  have z2 := wrapDelta_zero s.grid_height_ (by omega)
  have hdir : s.UpdateAI.direction =
      setDirection (wrapDelta (next.x - s.head_x) s.grid_width_)
        (wrapDelta (next.y - s.head_y) s.grid_height_) s.direction := by
    rw [updateAI_of_valid s halive next hnext]
    split_ifs <;> rfl
  rw [hdir]
  refine ⟨fun e => ?_, fun e => ?_, fun e => ?_, fun e => ?_,
    getNeighbors_emod s _ _ ⟨h1, h2⟩ ⟨h3, h4⟩⟩
  · rw [e]; simp only [x1, sub_self, z2]; rfl
  · rw [e]; simp only [x2, sub_self, z2]; rfl
  · rw [e]; simp only [y1, sub_self, z1]; rfl
  · rw [e]; simp only [y2, sub_self, z1]; rfl

/-- An instance of C28 across the right edge of the 32x32 grid: head (31,7),
waypoint (0,7), direction `kRight`. -/
theorem UpdateAI_steers_to_neighbour_witness :
    (AISnake.UpdateAI
      { grid_width_ := 32, grid_height_ := 32, head_x := 31, head_y := 7,
        current_path_ := [⟨0, 7⟩] }).direction = Direction.kRight :=
  (UpdateAI_steers_to_neighbour
    { grid_width_ := 32, grid_height_ := 32, head_x := 31, head_y := 7,
      current_path_ := [⟨0, 7⟩] } ⟨0, 7⟩
    (by decide) (by decide) (by decide) (by decide) (by decide)).1 (by decide)

/-! ## The neighbour order -/

theorem loopBodyOrd_id (s : AISnake) (goal : SDL_Point) (st : SearchState) :
    loopBodyOrd [0, 1, 2, 3] s goal st = loopBody s goal st := rfl

theorem searchLoopOrd_id (s : AISnake) (goal : SDL_Point) :
    ∀ (fuel : Nat) (st : SearchState),
      searchLoopOrd [0, 1, 2, 3] s goal fuel st = searchLoop s goal fuel st
  | 0, _ => rfl
  | fuel + 1, st => by
    unfold searchLoopOrd searchLoop
    rw [loopBodyOrd_id]
    cases loopBody s goal st with
    | ret route st1 => rfl
    | stuck => rfl
    | cont st1 => exact searchLoopOrd_id s goal fuel st1

/-- The two searches of C21 on the 11x3 grid, evaluated. -/
theorem neighbour_order_routes :
    CalculatePath
          { grid_width_ := 11, grid_height_ := 3,
            obstacles_ := [⟨4, 1⟩, ⟨4, 2⟩, ⟨6, 2⟩, ⟨8, 2⟩, ⟨9, 1⟩] } ⟨5, 2⟩ ⟨10, 1⟩ =
        some [⟨5, 1⟩, ⟨6, 1⟩, ⟨7, 1⟩, ⟨8, 1⟩, ⟨8, 0⟩, ⟨9, 0⟩, ⟨10, 0⟩, ⟨10, 1⟩] ∧
      CalculatePathOrd [1, 0, 2, 3]
          { grid_width_ := 11, grid_height_ := 3,
            obstacles_ := [⟨4, 1⟩, ⟨4, 2⟩, ⟨6, 2⟩, ⟨8, 2⟩, ⟨9, 1⟩] } ⟨5, 2⟩ ⟨10, 1⟩ =
        some [⟨5, 0⟩, ⟨6, 0⟩, ⟨7, 0⟩, ⟨8, 0⟩, ⟨9, 0⟩, ⟨10, 0⟩, ⟨10, 1⟩] := by
  decide!

/-- C21. The route length depends on the neighbour order.  With the order
`[0, 1, 2, 3]` the reordered search is `CalculatePath` itself.  On the 11x3 grid
with obstacles at (4,1), (4,2), (6,2), (8,2), (9,1), from (5,2) to (10,1),
`CalculatePath` returns a route of 8 cells, and the search with the first two
neighbours swapped (-x, +x, +y, -y) returns a route of 7 cells. -/
theorem CalculatePath_neighbour_order :
    (∀ (s : AISnake) (start goal : SDL_Point),
      CalculatePathOrd [0, 1, 2, 3] s start goal = CalculatePath s start goal) ∧
      List.Perm [1, 0, 2, 3] [0, 1, 2, 3] ∧
      (CalculatePath
          { grid_width_ := 11, grid_height_ := 3,
            obstacles_ := [⟨4, 1⟩, ⟨4, 2⟩, ⟨6, 2⟩, ⟨8, 2⟩, ⟨9, 1⟩] } ⟨5, 2⟩ ⟨10, 1⟩).map
        List.length = some 8 ∧
      (CalculatePathOrd [1, 0, 2, 3]
          { grid_width_ := 11, grid_height_ := 3,
            obstacles_ := [⟨4, 1⟩, ⟨4, 2⟩, ⟨6, 2⟩, ⟨8, 2⟩, ⟨9, 1⟩] } ⟨5, 2⟩ ⟨10, 1⟩).map
        List.length = some 7 := by
  refine ⟨fun s start goal => ?_, List.Perm.swap 0 1 _, ?_, ?_⟩
  · unfold CalculatePathOrd CalculatePath
    rw [searchLoopOrd_id]
  · rw [neighbour_order_routes.1]; rfl
  · rw [neighbour_order_routes.2]; rfl

/-! ## Closed cells are final -/

theorem relax_nodeAt_closed (s : AISnake) (goal : SDL_Point) (cur : Int) (current : PathNode)
    (st : SearchState) (nb : SDL_Point) (k : Int) (hk : k ∈ st.closed_set) :
    nodeAt (relax s goal cur current st nb).node_map k = nodeAt st.node_map k := by
  unfold relax
  simp only
  by_cases hc : s.hash nb ∈ st.closed_set
  · rw [if_pos hc]
  · have hne : k ≠ s.hash nb := fun e => hc (e ▸ hk)
    rw [if_neg hc]
    split_ifs
    · rfl
    · split
      · split_ifs
        · rfl
        · exact nodeAt_nodeSet_of_ne _ _ _ _ hne
      · exact nodeAt_append_of_ne _ _ _ _ hne

theorem foldl_relax_nodeAt_closed (s : AISnake) (goal : SDL_Point) (cur : Int)
    (current : PathNode) (k : Int) : ∀ (l : List SDL_Point) (st : SearchState),
    k ∈ st.closed_set →
    nodeAt (l.foldl (relax s goal cur current) st).node_map k = nodeAt st.node_map k
  | [], _, _ => rfl
  | nb :: l, st, hk => by
    rw [List.foldl_cons, foldl_relax_nodeAt_closed s goal cur current k l _
      (by rw [relax_closed_set]; exact hk), relax_nodeAt_closed s goal cur current st nb k hk]

/-- One pass that does not return: the closed set stays free of duplicates and
grows at the front by at most one key, and no node under a closed key changes. -/
theorem loopBody_closed_final (s : AISnake) (goal : SDL_Point) (st st1 : SearchState)
    (h : loopBody s goal st = .cont st1) (hnd : st.closed_set.Nodup) :
    st1.closed_set.Nodup ∧ st.closed_set <:+ st1.closed_set ∧
      ∀ k ∈ st.closed_set, nodeAt st1.node_map k = nodeAt st.node_map k := by
  unfold loopBody at h
  cases ho : st.open_set with
  | nil => rw [ho] at h; cases h
  | cons cur rest =>
    rw [ho] at h
    simp only at h
    cases hn : nodeAt st.node_map cur with
    | none => rw [hn] at h; cases h
    | some current =>
      rw [hn] at h
      simp only at h
      split_ifs at h with hcl hg
      · cases h
        exact ⟨hnd, List.suffix_refl _, fun k _ => rfl⟩
      · cases h
        rw [foldl_relax_closed_set]
        refine ⟨List.nodup_cons.mpr ⟨hcl, hnd⟩, List.suffix_cons _ _, fun k hk => ?_⟩
        exact foldl_relax_nodeAt_closed s goal cur current k _ _ (List.mem_cons_of_mem _ hk)

theorem searchPasses_closed_final (s : AISnake) (goal : SDL_Point) :
    ∀ (m : Nat) (st st1 : SearchState), searchPasses s goal m st = some st1 →
      st.closed_set.Nodup →
      st1.closed_set.Nodup ∧ st.closed_set <:+ st1.closed_set ∧
        ∀ k ∈ st.closed_set, nodeAt st1.node_map k = nodeAt st.node_map k
  | 0, st, st1, h, hnd => by
    cases h
    exact ⟨hnd, List.suffix_refl _, fun k _ => rfl⟩
  | m + 1, st, st1, h, hnd => by
    unfold searchPasses at h
    split at h
    · rename_i st2 hb
      obtain ⟨a1, a2, a3⟩ := loopBody_closed_final s goal st st2 hb hnd
      obtain ⟨b1, b2, b3⟩ := searchPasses_closed_final s goal m st2 st1 h a1
      exact ⟨b1, a2.trans b2, fun k hk => by rw [b3 k (a2.subset hk), a3 k hk]⟩
    · cases h

/-- C29. Closed cells are final.  Let `st` be the state of the search after some
passes of the loop of `CalculatePath` and `st1` the state after some more.
Then the closed set of `st1` has no key twice and extends that of `st`, the
node (g-cost, h-cost, parent) under every key closed in `st` is the same in
`st1`, and a pass that pops a pointer to a closed node does nothing but the pop:
the neighbours are not expanded again. -/
theorem closed_cells_final (s : AISnake) (start goal : SDL_Point) (n m : Nat)
    (st st1 : SearchState)
    (h1 : searchPasses s goal n (initState s start goal) = some st)
    (h2 : searchPasses s goal m st = some st1) :
    st1.closed_set.Nodup ∧ st.closed_set <:+ st1.closed_set ∧
      (∀ k ∈ st.closed_set, nodeAt st1.node_map k = nodeAt st.node_map k) ∧
      (∀ cur current, st1.open_set.head? = some cur →
        nodeAt st1.node_map cur = some current →
        current.y * s.grid_width_ + current.x ∈ st1.closed_set →
        loopBody s goal st1 =
          .cont { st1 with open_set := pqPop st1.node_map st1.open_set }) := by
  have hnd : st.closed_set.Nodup :=
    (searchPasses_closed_final s goal n _ st h1 List.nodup_nil).1
  obtain ⟨a1, a2, a3⟩ := searchPasses_closed_final s goal m st st1 h2 hnd
  refine ⟨a1, a2, a3, fun cur current ho hn hcl => ?_⟩
  unfold loopBody
  cases hos : st1.open_set with
  | nil => rw [hos] at ho; cases ho
  | cons c rest =>
    rw [hos] at ho
    simp only [List.head?_cons, Option.some.injEq] at ho
    subst ho
    simp only [hn, hcl, if_true]

/-- An instance of C29 on the 4x3 grid, search from (0,0) to (2,2): the state
after one pass and the state after two more. -/
theorem closed_cells_final_witness :
    (Option.get
      (searchPasses { grid_width_ := 4, grid_height_ := 3 } ⟨2, 2⟩ 2
        (Option.get
          (searchPasses { grid_width_ := 4, grid_height_ := 3 } ⟨2, 2⟩ 1
            (initState { grid_width_ := 4, grid_height_ := 3 } ⟨0, 0⟩ ⟨2, 2⟩))
          (by decide)))
      (by decide)).closed_set.Nodup :=
  (closed_cells_final { grid_width_ := 4, grid_height_ := 3 } ⟨0, 0⟩ ⟨2, 2⟩ 1 2 _ _
    (Option.some_get _).symm (Option.some_get _).symm).1

/-! ## The high-score list -/

theorem take_if_longer (l : List ScoreEntry) (k : Nat) :
    (if l.length > k then l.take k else l) = l.take k := by
  split_ifs with h
  · rfl
  · exact (List.take_of_length_le (by omega)).symm

theorem addScore_scores (std_sort : List ScoreEntry → List ScoreEntry) (m : HighScoreManager)
    (name : List Char) (score : Int) :
    (m.AddScore std_sort name score).GetScores =
      (std_sort (m.scores_ ++ [{ name := name, score := score }])).take m.max_entries_ := by
  unfold HighScoreManager.AddScore HighScoreManager.GetScores HighScoreManager.SaveScores
    HighScoreManager.SortScores
  simp only
  split_ifs with h
  · rfl
  · exact (List.take_of_length_le (Nat.le_of_not_lt h)).symm

/-- C25. `AddScore` keeps a top-N list, whatever order `std::sort` gives to equal
scores: the scores of `GetScores()` after `AddScore(name, score)` are the first
`max_entries_` elements of the old scores plus the new score, sorted in
non-increasing order; the list is sorted descending and has at most
`max_entries_` entries. -/
theorem AddScore_top_entries (std_sort : List ScoreEntry → List ScoreEntry)
    (hsort : SortsDescending std_sort) (m : HighScoreManager) (name : List Char)
    (score : Int) :
    (m.AddScore std_sort name score).GetScores.map (fun e => e.score) =
        (List.insertionSort (fun a b : Int => a ≥ b)
          (m.scores_.map (fun e => e.score) ++ [score])).take m.max_entries_ ∧
      (m.AddScore std_sort name score).GetScores.Pairwise (fun a b => b.score ≤ a.score) ∧
      (m.AddScore std_sort name score).GetScores.length ≤ m.max_entries_ := by
  rw [addScore_scores]
  obtain ⟨hperm, hsorted⟩ := hsort (m.scores_ ++ [{ name := name, score := score }])
  refine ⟨?_, hsorted.sublist (List.take_sublist _ _), ?_⟩
  · rw [List.map_take]
    congr 1
    apply List.eq_of_perm_of_sorted (r := fun a b : Int => a ≥ b)
    · refine ((hperm.map _).trans ?_).trans (List.perm_insertionSort _ _).symm
      rw [List.map_append]
      rfl
    · exact List.pairwise_map.mpr hsorted
    · exact List.sorted_insertionSort _ _
  · rw [List.length_take]
    exact Nat.min_le_left _ _

/-- Insertion by descending score sorts as `std::sort` has to. -/
theorem insertionSort_sortsDescending :
    SortsDescending (List.insertionSort (fun a b : ScoreEntry => a.score ≥ b.score)) := by
  intro l
  refine ⟨List.perm_insertionSort _ _, ?_⟩
  have : IsTotal ScoreEntry (fun a b : ScoreEntry => a.score ≥ b.score) :=
    ⟨fun a b => le_total b.score a.score⟩
  have : IsTrans ScoreEntry (fun a b : ScoreEntry => a.score ≥ b.score) :=
    ⟨fun a b c h1 h2 => le_trans h2 h1⟩
  exact List.sorted_insertionSort (fun a b : ScoreEntry => a.score ≥ b.score) l

/-- An instance of C25: a full list of two entries, the new score 7 pushes out
the 3. -/
theorem AddScore_top_entries_witness :
    (HighScoreManager.AddScore (List.insertionSort (fun a b : ScoreEntry => a.score ≥ b.score))
        { max_entries_ := 2, scores_ := [⟨['a'], 9⟩, ⟨['b'], 3⟩] } ['c'] 7).GetScores.length
      ≤ 2 :=
  (AddScore_top_entries _ insertionSort_sortsDescending
    { max_entries_ := 2, scores_ := [⟨['a'], 9⟩, ⟨['b'], 3⟩] } ['c'] 7).2.2

/-- C26. `IsHighScore` predicts making the list: for a score list with at most
`max_entries_` entries (sorted or not), if `IsHighScore(score)` is true, which
needs `max_entries_ ≥ 1`, then after `AddScore(name, score)` the list contains
the entry `(name, score)`, whatever order `std::sort` gives to equal scores. -/
theorem IsHighScore_then_listed (std_sort : List ScoreEntry → List ScoreEntry)
    (hsort : SortsDescending std_sort) (m : HighScoreManager) (name : List Char)
    (score : Int) (hlen : m.scores_.length ≤ m.max_entries_)
    (hhigh : m.IsHighScore score = some true) :
    { name := name, score := score } ∈ (m.AddScore std_sort name score).GetScores := by
  rw [addScore_scores]
  obtain ⟨hperm, hsorted⟩ := hsort (m.scores_ ++ [{ name := name, score := score }])
  have hmem : ({ name := name, score := score } : ScoreEntry) ∈
      std_sort (m.scores_ ++ [{ name := name, score := score }]) :=
    hperm.mem_iff.mpr (by simp)
  have hlen2 : (std_sort (m.scores_ ++ [{ name := name, score := score }])).length =
      m.scores_.length + 1 := by rw [hperm.length_eq]; simp
  by_cases hlt : m.scores_.length < m.max_entries_
  · rw [List.take_of_length_le (by omega)]
    exact hmem
  · unfold HighScoreManager.IsHighScore at hhigh
    rw [if_neg hlt] at hhigh
    cases hb : m.scores_.getLast? with
    | none => rw [hb] at hhigh; cases hhigh
    | some back =>
      rw [hb] at hhigh
      simp only [Option.some.injEq, decide_eq_true_eq] at hhigh
      have hback : back ∈ std_sort (m.scores_ ++ [{ name := name, score := score }]) :=
        hperm.mem_iff.mpr (List.mem_append_left _ (List.mem_of_getLast?_eq_some hb))
      have hmem1 : ({ name := name, score := score } : ScoreEntry) ∈
          List.take m.max_entries_ (std_sort (m.scores_ ++ [{ name := name, score := score }])) ++
          List.drop m.max_entries_ (std_sort (m.scores_ ++ [{ name := name, score := score }])) :=
        by rw [List.take_append_drop]; exact hmem
      have hback1 : back ∈
          List.take m.max_entries_ (std_sort (m.scores_ ++ [{ name := name, score := score }])) ++
          List.drop m.max_entries_ (std_sort (m.scores_ ++ [{ name := name, score := score }])) :=
        by rw [List.take_append_drop]; exact hback
      have hsorted1 : List.Pairwise (fun a b : ScoreEntry => b.score ≤ a.score)
          (List.take m.max_entries_ (std_sort (m.scores_ ++ [{ name := name, score := score }])) ++
          List.drop m.max_entries_ (std_sort (m.scores_ ++ [{ name := name, score := score }]))) :=
        by rw [List.take_append_drop]; exact hsorted
      rw [List.pairwise_append] at hsorted1
      obtain ⟨-, -, hcross⟩ := hsorted1
      rcases List.mem_append.mp hmem1 with h | h
      · exact h
      · exfalso
        rcases List.mem_append.mp hback1 with hb1 | hb1
        · have := hcross back hb1 _ h
          simp only at this
          omega
        · have hd : (List.drop m.max_entries_
              (std_sort (m.scores_ ++ [{ name := name, score := score }]))).length = 1 := by
            rw [List.length_drop]; omega
          obtain ⟨z, hz⟩ := List.length_eq_one.mp hd
          rw [hz] at h hb1
          simp only [List.mem_singleton] at h hb1
          rw [hb1, ← h] at hhigh
          simp only at hhigh
          omega

/-- An instance of C26: a full list of two entries and the score 7. -/
theorem IsHighScore_then_listed_witness :
    (⟨['c'], 7⟩ : ScoreEntry) ∈
      (HighScoreManager.AddScore
        (List.insertionSort (fun a b : ScoreEntry => a.score ≥ b.score))
        { max_entries_ := 2, scores_ := [⟨['a'], 9⟩, ⟨['b'], 3⟩] } ['c'] 7).GetScores :=
  IsHighScore_then_listed _ insertionSort_sortsDescending
    { max_entries_ := 2, scores_ := [⟨['a'], 9⟩, ⟨['b'], 3⟩] } ['c'] 7 (by decide) (by decide)

/-- C30. A name with a leading blank does not survive the round trip.  The
player types ` Bob` (blank, B, o, b): `GetPlayerName` returns it unchanged; for
the entry with score 5 `SaveScores` writes the line `5  Bob`, and `LoadScores`
reads the name `Bob` back.  A name of two blanks with score 7 is written as a
line from which `LoadScores` reads no entry at all. -/
theorem SaveScores_LoadScores_leading_blank :
    GetPlayerName [Char.ofNat 32, 'B', 'o', 'b'] = [Char.ofNat 32, 'B', 'o', 'b'] ∧
      saveText [⟨[Char.ofNat 32, 'B', 'o', 'b'], 5⟩] =
        ['5', Char.ofNat 32, Char.ofNat 32, 'B', 'o', 'b', Char.ofNat 10] ∧
      loadEntries (saveText [⟨[Char.ofNat 32, 'B', 'o', 'b'], 5⟩]) = [⟨['B', 'o', 'b'], 5⟩] ∧
      (∀ std_sort, SortsDescending std_sort →
        (HighScoreManager.LoadScores std_sort
          (HighScoreManager.SaveScores
            { max_entries_ := 5, scores_ := [⟨[Char.ofNat 32, 'B', 'o', 'b'], 5⟩] })).scores_ =
          [⟨['B', 'o', 'b'], 5⟩]) ∧
      GetPlayerName [Char.ofNat 32, Char.ofNat 32] = [Char.ofNat 32, Char.ofNat 32] ∧
      loadEntries (saveText [⟨[Char.ofNat 32, Char.ofNat 32], 7⟩]) = [] := by
  refine ⟨by decide, by decide, by decide, fun std_sort hsort => ?_, by decide, by decide⟩
  have e : loadEntries (saveText [⟨[Char.ofNat 32, 'B', 'o', 'b'], 5⟩]) =
      [⟨['B', 'o', 'b'], 5⟩] := by decide
  show std_sort (loadEntries (saveText [⟨[Char.ofNat 32, 'B', 'o', 'b'], 5⟩])) = _
  rw [e]
  exact List.perm_singleton.mp (hsort _).1

/-! ## Start equal to goal, and the cursor under the single operations -/

theorem loopBody_start_is_goal (s : AISnake) (c : SDL_Point) :
    ∃ st, loopBody s c (initState s c c) = .ret [] st := by
  have ho : (initState s c c).open_set = [s.hash c] := initState_open s c c
  have hn : nodeAt (initState s c c).node_map (s.hash c) = some (startNode s c c) := by
    unfold initState nodeAt
    simp
  unfold loopBody
  rw [ho]
  simp only [hn]
  have hcl : ¬ ((startNode s c c).y * s.grid_width_ + (startNode s c c).x ∈
      (initState s c c).closed_set) := by
    unfold initState; simp
  rw [if_neg hcl]
  have hg : (startNode s c c).x = c.x ∧ (startNode s c c).y = c.y := ⟨rfl, rfl⟩
  rw [if_pos hg]
  have hr : ReconstructPath (initState s c c).node_map (s.hash c) = [] := by
    unfold ReconstructPath
    have hm : (initState s c c).node_map = [(s.hash c, startNode s c c)] := rfl
    rw [hm] at hn
    simp only [hm, List.length_singleton]
    unfold parentChain
    simp only [hn]
    have hp : (startNode s c c).parent = none := rfl
    rw [hp]
    unfold parentChain
    rfl
  simp only [hr]
  exact ⟨_, rfl⟩

theorem calculatePath_start_is_goal (s : AISnake) (c : SDL_Point) :
    CalculatePath s c c = some [] := by
  obtain ⟨st, h⟩ := loopBody_start_is_goal s c
  unfold CalculatePath searchFuel
  rw [show 4 * (s.grid_width_ * s.grid_height_).toNat + 2 =
    (4 * (s.grid_width_ * s.grid_height_).toNat + 1) + 1 from rfl]
  unfold searchLoop
  rw [h]
  rfl

/-- C32. For every cell `c` and every occupancy, `CalculatePath(c, c)` returns the
empty route, the value that also signals that no path was found; the worker
that takes a query whose goal is the head cell publishes it after one pass of
the search, and once it is published `HasValidPath()` is false. -/
theorem CalculatePath_start_is_goal (s : AISnake) (c : SDL_Point) :
    CalculatePath s c c = some [] ∧
      (∀ t t1 : AISnake, t.pathfinding_thread_ = some (.publishing []) →
        workerStep t = some t1 → t1.current_path_ = [] ∧ t1.HasValidPath = false) ∧
      (s.pathfinding_thread_ = some .taking → s.food_target_ = ⟨s.head_x, s.head_y⟩ →
        (workerSteps 3 s).map (fun t => (t.current_path_, t.HasValidPath)) =
          some ([], false)) := by
  refine ⟨calculatePath_start_is_goal s c, fun t t1 ht h => ?_, fun hpc hgoal => ?_⟩
  · unfold workerStep at h
    rw [ht] at h
    simp only [Option.some.injEq] at h
    subst h
    exact ⟨rfl, rfl⟩
  · obtain ⟨st, h⟩ := loopBody_start_is_goal s ⟨s.head_x, s.head_y⟩
    have h1 : workerStep s = some { s with
        path_requested_ := false,
        pathfinding_thread_ := some (.computing ⟨s.head_x, s.head_y⟩
          (initState s ⟨s.head_x, s.head_y⟩ ⟨s.head_x, s.head_y⟩)) } := by
      unfold workerStep
      rw [hpc]
      simp only [hgoal]
    have h2 : workerStep { s with
        path_requested_ := false,
        pathfinding_thread_ := some (.computing ⟨s.head_x, s.head_y⟩
          (initState s ⟨s.head_x, s.head_y⟩ ⟨s.head_x, s.head_y⟩)) } =
        some { s with path_requested_ := false,
                      pathfinding_thread_ := some (.publishing []) } := by
      unfold workerStep
      simp only
      have h' : loopBody { s with
          path_requested_ := false,
          pathfinding_thread_ := some (.computing ⟨s.head_x, s.head_y⟩
            (initState s ⟨s.head_x, s.head_y⟩ ⟨s.head_x, s.head_y⟩)) }
          ⟨s.head_x, s.head_y⟩ (initState s ⟨s.head_x, s.head_y⟩ ⟨s.head_x, s.head_y⟩) =
          .ret [] st := h
      rw [h']
    unfold workerSteps
    rw [h1]
    simp only
    unfold workerSteps
    rw [h2]
    simp only
    unfold workerSteps workerSteps workerStep
    rfl

theorem workerStep_cursor (s s1 : AISnake) (h : workerStep s = some s1)
    (hb : s.path_index_ ≤ s.current_path_.length) :
    s1.path_index_ ≤ s1.current_path_.length := by
  unfold workerStep at h
  split at h
  · cases h
  · cases h; exact hb
  · split_ifs at h; cases h; exact hb
  · cases h; exact hb
  · cases h; exact hb
  · split at h
    · cases h; exact hb
    · cases h; exact hb
    · cases h
  · cases h; exact Nat.zero_le _
  · cases h

theorem awaitMutex_cursor : ∀ (fuel : Nat) (s s1 : AISnake), awaitMutex fuel s = some s1 →
    s.path_index_ ≤ s.current_path_.length → s1.path_index_ ≤ s1.current_path_.length
  | 0, s, s1, h, hb => by
    unfold awaitMutex at h
    split_ifs at h
    cases h; exact hb
  | fuel + 1, s, s1, h, hb => by
    unfold awaitMutex at h
    split_ifs at h
    · split at h
      · cases h
      · rename_i s2 hs2
        exact awaitMutex_cursor fuel s2 s1 h (workerStep_cursor s s2 hs2 hb)
    · cases h; exact hb

theorem joinWorker_cursor : ∀ (fuel : Nat) (s s1 : AISnake), joinWorker fuel s = some s1 →
    s.path_index_ ≤ s.current_path_.length → s1.path_index_ ≤ s1.current_path_.length
  | 0, s, s1, h, hb => by
    unfold joinWorker at h
    split_ifs at h
    cases h; exact hb
  | fuel + 1, s, s1, h, hb => by
    unfold joinWorker at h
    split_ifs at h
    · cases h; exact hb
    · split at h
      · cases h
      · rename_i s2 hs2
        exact joinWorker_cursor fuel s2 s1 h (workerStep_cursor s s2 hs2 hb)

theorem stopAI_cursor (s s1 : AISnake) (h : s.StopAI = some s1)
    (hb : s.path_index_ ≤ s.current_path_.length) :
    s1.path_index_ ≤ s1.current_path_.length := by
  unfold AISnake.StopAI at h
  split_ifs at h
  · cases h; exact hb
  · simp only at h
    split at h
    · cases h
    · rename_i s2 hs2
      have hb2 : s2.path_index_ ≤ s2.current_path_.length := awaitMutex_cursor 2 _ s2 hs2 hb
      split at h
      · cases h; exact hb2
      · exact joinWorker_cursor _ _ s1 h hb2

/-- The two wrap statements after a step by `d`: the result is `(x + d) mod w`
and lies on the axis. -/
theorem wrap_spec (x w d : Int) (h0 : 0 ≤ x) (h1 : x < w) (hd : d = 1 ∨ d = -1) :
    (if (if x + d < 0 then w - 1 else x + d) ≥ w then 0
      else if x + d < 0 then w - 1 else x + d) = (x + d) % w ∧
    0 ≤ (if (if x + d < 0 then w - 1 else x + d) ≥ w then 0
      else if x + d < 0 then w - 1 else x + d) ∧
    (if (if x + d < 0 then w - 1 else x + d) ≥ w then 0
      else if x + d < 0 then w - 1 else x + d) < w := by
  obtain ⟨e1, e2⟩ := emod_succ_pred x w h0 h1
  have hb : 0 ≤ (x + 1) % w ∧ (x + 1) % w < w :=
    ⟨Int.emod_nonneg _ (by omega), Int.emod_lt_of_pos _ (by omega)⟩
  have hc : 0 ≤ (x - 1) % w ∧ (x - 1) % w < w :=
    ⟨Int.emod_nonneg _ (by omega), Int.emod_lt_of_pos _ (by omega)⟩
  rcases hd with rfl | rfl
  · refine ⟨?_, ?_, ?_⟩ <;> split_ifs <;> omega
  · rw [← Int.sub_eq_add_neg]
    refine ⟨?_, ?_, ?_⟩ <;> split_ifs <;> omega

theorem updateHorizontal_spec (o : MovingObstacle)
    (h0 : 0 ≤ o.position_.x) (h1 : o.position_.x < o.grid_width_)
    (hd : o.direction_ = 1 ∨ o.direction_ = -1) (hmax : o.max_steps_ = 5)
    (hs : 0 ≤ o.steps_moved_ ∧ o.steps_moved_ < 5) :
    (o.UpdateHorizontal.direction_ = 1 ∨ o.UpdateHorizontal.direction_ = -1) ∧
      o.UpdateHorizontal.position_.x =
        (o.position_.x + o.UpdateHorizontal.direction_) % o.grid_width_ ∧
      0 ≤ o.UpdateHorizontal.position_.x ∧ o.UpdateHorizontal.position_.x < o.grid_width_ ∧
      (0 ≤ o.UpdateHorizontal.steps_moved_ ∧ o.UpdateHorizontal.steps_moved_ < 5) ∧
      (o.steps_moved_ + 1 = 5 →
        o.UpdateHorizontal.direction_ = -o.direction_ ∧ o.UpdateHorizontal.steps_moved_ = 0) ∧
      (o.steps_moved_ + 1 ≠ 5 →
        o.UpdateHorizontal.direction_ = o.direction_ ∧
          o.UpdateHorizontal.steps_moved_ = o.steps_moved_ + 1) := by
  unfold MovingObstacle.UpdateHorizontal
  simp only [hmax, decide_eq_true_eq]
  by_cases hr : o.steps_moved_ + 1 ≥ 5
  · simp only [hr, if_true]
    have hd2 : o.direction_ * -1 = 1 ∨ o.direction_ * -1 = -1 := by omega
    obtain ⟨w1, w2, w3⟩ := wrap_spec o.position_.x o.grid_width_ (o.direction_ * -1) h0 h1 hd2
    exact ⟨hd2, w1, w2, w3, ⟨by omega, by omega⟩, fun _ => ⟨by omega, by first | rfl | trivial⟩,
      fun h => absurd (by omega) h⟩
  · simp only [hr, if_false]
    obtain ⟨w1, w2, w3⟩ := wrap_spec o.position_.x o.grid_width_ o.direction_ h0 h1 hd
    exact ⟨hd, w1, w2, w3, ⟨by omega, by omega⟩, fun h => absurd (by omega) hr,
      fun _ => ⟨by first | rfl | trivial, by first | rfl | trivial⟩⟩

theorem updateVertical_spec (o : MovingObstacle)
    (h0 : 0 ≤ o.position_.y) (h1 : o.position_.y < o.grid_height_)
    (hd : o.direction_ = 1 ∨ o.direction_ = -1) (hmax : o.max_steps_ = 5)
    (hs : 0 ≤ o.steps_moved_ ∧ o.steps_moved_ < 5) :
    (o.UpdateVertical.direction_ = 1 ∨ o.UpdateVertical.direction_ = -1) ∧
      o.UpdateVertical.position_.y =
        (o.position_.y + o.UpdateVertical.direction_) % o.grid_height_ ∧
      0 ≤ o.UpdateVertical.position_.y ∧ o.UpdateVertical.position_.y < o.grid_height_ ∧
      (0 ≤ o.UpdateVertical.steps_moved_ ∧ o.UpdateVertical.steps_moved_ < 5) ∧
      (o.steps_moved_ + 1 = 5 →
        o.UpdateVertical.direction_ = -o.direction_ ∧ o.UpdateVertical.steps_moved_ = 0) ∧
      (o.steps_moved_ + 1 ≠ 5 →
        o.UpdateVertical.direction_ = o.direction_ ∧
          o.UpdateVertical.steps_moved_ = o.steps_moved_ + 1) := by
  unfold MovingObstacle.UpdateVertical
  simp only [hmax, decide_eq_true_eq]
  by_cases hr : o.steps_moved_ + 1 ≥ 5
  · simp only [hr, if_true]
    have hd2 : o.direction_ * -1 = 1 ∨ o.direction_ * -1 = -1 := by omega
    obtain ⟨w1, w2, w3⟩ := wrap_spec o.position_.y o.grid_height_ (o.direction_ * -1) h0 h1 hd2
    exact ⟨hd2, w1, w2, w3, ⟨by omega, by omega⟩, fun _ => ⟨by omega, by first | rfl | trivial⟩,
      fun h => absurd (by omega) h⟩
  · simp only [hr, if_false]
    obtain ⟨w1, w2, w3⟩ := wrap_spec o.position_.y o.grid_height_ o.direction_ h0 h1 hd
    exact ⟨hd, w1, w2, w3, ⟨by omega, by omega⟩, fun h => absurd (by omega) hr,
      fun _ => ⟨by first | rfl | trivial, by first | rfl | trivial⟩⟩

/-- C31. Linear moving obstacles wrap around the grid and stay inside it.  For an
obstacle on the grid with direction 1 or -1, `max_steps_ = 5` and a step counter
from 0 to 4 (as the constructor sets them and every `Update` leaves them): one
`Update` of a horizontal obstacle changes `x` to `(x + d) mod W`, where `d` is
the direction after the call, and leaves `y` unchanged, one `Update` of a
vertical obstacle does the same to `y` with `H`; the obstacle is on the grid
afterwards, the direction is again 1 or -1 and the counter again from 0 to 4;
the direction is reversed, and the counter reset, exactly when the incremented
counter reaches 5. -/
theorem MovingObstacle_linear_update (UpdateCircular : MovingObstacle → MovingObstacle)
    (o : MovingObstacle)
    (hx : 0 ≤ o.position_.x ∧ o.position_.x < o.grid_width_)
    (hy : 0 ≤ o.position_.y ∧ o.position_.y < o.grid_height_)
    (hd : o.direction_ = 1 ∨ o.direction_ = -1) (hmax : o.max_steps_ = 5)
    (hs : 0 ≤ o.steps_moved_ ∧ o.steps_moved_ < 5) (hp : o.pattern_ ≠ Pattern.Circular) :
    (o.pattern_ = Pattern.Horizontal →
        (o.Update UpdateCircular).position_.x =
          (o.position_.x + (o.Update UpdateCircular).direction_) % o.grid_width_ ∧
        (o.Update UpdateCircular).position_.y = o.position_.y) ∧
      (o.pattern_ = Pattern.Vertical →
        (o.Update UpdateCircular).position_.y =
          (o.position_.y + (o.Update UpdateCircular).direction_) % o.grid_height_ ∧
        (o.Update UpdateCircular).position_.x = o.position_.x) ∧
      (0 ≤ (o.Update UpdateCircular).position_.x ∧
        (o.Update UpdateCircular).position_.x < o.grid_width_ ∧
        0 ≤ (o.Update UpdateCircular).position_.y ∧
        (o.Update UpdateCircular).position_.y < o.grid_height_) ∧
      ((o.Update UpdateCircular).direction_ = 1 ∨ (o.Update UpdateCircular).direction_ = -1) ∧
      (0 ≤ (o.Update UpdateCircular).steps_moved_ ∧
        (o.Update UpdateCircular).steps_moved_ < 5) ∧
      ((o.Update UpdateCircular).grid_width_ = o.grid_width_ ∧
        (o.Update UpdateCircular).grid_height_ = o.grid_height_ ∧
        (o.Update UpdateCircular).max_steps_ = 5 ∧
        (o.Update UpdateCircular).pattern_ = o.pattern_) ∧
      (o.steps_moved_ + 1 = 5 →
        (o.Update UpdateCircular).direction_ = -o.direction_ ∧
          (o.Update UpdateCircular).steps_moved_ = 0) ∧
      (o.steps_moved_ + 1 ≠ 5 →
        (o.Update UpdateCircular).direction_ = o.direction_ ∧
          (o.Update UpdateCircular).steps_moved_ = o.steps_moved_ + 1) := by
  obtain ⟨a1, a2, a3, a4, a5, a6, a7⟩ := updateHorizontal_spec o hx.1 hx.2 hd hmax hs
  obtain ⟨b1, b2, b3, b4, b5, b6, b7⟩ := updateVertical_spec o hy.1 hy.2 hd hmax hs
  unfold MovingObstacle.Update
  cases hpat : o.pattern_ with
  | Horizontal =>
    exact ⟨fun _ => ⟨a2, rfl⟩, (fun h => by cases h), ⟨a3, a4, hy.1, hy.2⟩, a1, a5,
      ⟨rfl, rfl, hmax, hpat⟩, a6, a7⟩
  | Vertical =>
    exact ⟨(fun h => by cases h), fun _ => ⟨b2, rfl⟩, ⟨hx.1, hx.2, b3, b4⟩, b1, b5,
      ⟨rfl, rfl, hmax, hpat⟩, b6, b7⟩
  | Circular => exact absurd hpat hp

/-- An instance of C31 on the 32x32 grid: a horizontal obstacle at (31,4) that
has made four steps to the right turns round and moves to (30,4). -/
theorem MovingObstacle_linear_update_witness :
    (MovingObstacle.Update id
      { position_ := ⟨31, 4⟩, grid_width_ := 32, grid_height_ := 32,
        pattern_ := Pattern.Horizontal, steps_moved_ := 4 }).direction_ = -1 :=
  ((MovingObstacle_linear_update id
      { position_ := ⟨31, 4⟩, grid_width_ := 32, grid_height_ := 32,
        pattern_ := Pattern.Horizontal, steps_moved_ := 4 }
      (by decide) (by decide) (by decide) (by decide) (by decide) (by decide)).2.2.2.2.2.2.1
    (by decide)).1

theorem foods_any_isAt_iff (foods : List Food) (x y : Int) :
    foods.any (fun food => food.IsAt x y) = true ↔
      (⟨x, y⟩ : SDL_Point) ∈ foods.map (fun f => f.position_) := by
  rw [List.any_eq_true, List.mem_map]
  constructor
  · rintro ⟨f, hf, h⟩
    unfold Food.IsAt at h
    simp only [Bool.and_eq_true, beq_iff_eq] at h
    refine ⟨f, hf, ?_⟩
    obtain ⟨⟨px, py⟩, t⟩ := f
    simp only at h
    rw [h.1, h.2]
  · rintro ⟨f, hf, h⟩
    refine ⟨f, hf, ?_⟩
    unfold Food.IsAt
    rw [h]
    simp

theorem isValidFoodPosition_iff (g : Game) (x y : Int) :
    g.IsValidFoodPosition x y = true ↔
      g.snake_ x y = false ∧ g.ai_snake_ x y = false ∧ (⟨x, y⟩ : SDL_Point) ∉ g.obstacles_ ∧
        (⟨x, y⟩ : SDL_Point) ∉ g.foods_.map (fun f => f.position_) := by
  unfold Game.IsValidFoodPosition
  rw [← occupies_iff, ← foods_any_isAt_iff]
  cases g.snake_ x y <;> cases g.ai_snake_ x y <;> cases occupies g.obstacles_ x y <;>
    cases g.foods_.any (fun food => food.IsAt x y) <;> simp

theorem placeFoodLoop_spec (g : Game) (created : Nat → Food) :
    ∀ (fuel attempts : Nat), attempts < max_attempts → max_attempts ≤ fuel + attempts →
      ∃ f n, placeFoodLoop g created fuel attempts = some (f, n) ∧ n ≤ max_attempts ∧
        (n < max_attempts → g.IsValidFoodPosition f.GetX f.GetY = true)
  | 0, attempts, h1, h2 => by omega
  | fuel + 1, attempts, h1, h2 => by
    unfold placeFoodLoop
    simp only
    by_cases hc : (!g.IsValidFoodPosition (created attempts).GetX (created attempts).GetY &&
        decide (attempts + 1 < max_attempts)) = true
    · rw [if_pos hc]
      simp only [Bool.and_eq_true, decide_eq_true_eq] at hc
      exact placeFoodLoop_spec g created fuel (attempts + 1) hc.2 (by omega)
    · rw [if_neg hc]
      refine ⟨_, _, rfl, by omega, fun hn => ?_⟩
      simp only [Bool.and_eq_true, decide_eq_true_eq, not_and, Bool.not_eq_true',
        Bool.not_eq_false] at hc
      by_contra hv
      have hv2 : g.IsValidFoodPosition (created attempts).GetX (created attempts).GetY = false := by
        simpa using hv
      exact absurd hn (hc hv2)

/-- C34. `PlaceFood` keeps the food list valid.  A call always returns; the list
is unchanged or has one food appended; a food is appended only while the list
is shorter than `kMaxFoodItems = 5`, so a list of at most 5 foods stays so; the
appended food lies on a cell for which `IsValidFoodPosition` is true: not on
the player snake, the AI snake, an obstacle or an existing food; hence foods on
pairwise different cells stay on pairwise different cells. -/
theorem PlaceFood_keeps_foods_valid (created : Nat → Food) (g : Game) :
    ∃ g1, g.PlaceFood created = some g1 ∧
      (g1.foods_ = g.foods_ ∨
        ∃ f, g1.foods_ = g.foods_ ++ [f] ∧ g.foods_.length < kMaxFoodItems ∧
          g.IsValidFoodPosition f.GetX f.GetY = true ∧
          g.snake_ f.GetX f.GetY = false ∧ g.ai_snake_ f.GetX f.GetY = false ∧
          f.position_ ∉ g.obstacles_ ∧ f.position_ ∉ g.foods_.map (fun e => e.position_)) ∧
      (g.foods_.length ≤ kMaxFoodItems → g1.foods_.length ≤ kMaxFoodItems) ∧
      ((g.foods_.map (fun e => e.position_)).Nodup →
        (g1.foods_.map (fun e => e.position_)).Nodup) ∧
      g1.obstacles_ = g.obstacles_ ∧ g1.snake_ = g.snake_ ∧ g1.ai_snake_ = g.ai_snake_ := by
  unfold Game.PlaceFood
  by_cases hfull : g.foods_.length ≥ kMaxFoodItems
  · rw [if_pos hfull]
    exact ⟨g, rfl, Or.inl rfl, fun h => h, fun h => h, rfl, rfl, rfl⟩
  · rw [if_neg hfull]
    obtain ⟨f, n, hloop, hn, hvalid⟩ := placeFoodLoop_spec g created max_attempts 0
      (by decide) (by omega)
    rw [hloop]
    simp only
    by_cases hlt : n < max_attempts
    · rw [if_pos hlt]
      have hv := hvalid hlt
      obtain ⟨v1, v2, v3, v4⟩ := (isValidFoodPosition_iff g f.GetX f.GetY).mp hv
      have hpos : (⟨f.GetX, f.GetY⟩ : SDL_Point) = f.position_ := rfl
      rw [hpos] at v3 v4
      refine ⟨_, rfl, Or.inr ⟨f, rfl, by omega, hv, v1, v2, v3, v4⟩, fun _ => ?_, fun hnd => ?_,
        rfl, rfl, rfl⟩
      · simp only [List.length_append, List.length_singleton]
        omega
      · simp only [List.map_append, List.map_cons, List.map_nil]
        rw [List.nodup_append]
        refine ⟨hnd, List.nodup_singleton _, ?_⟩
        intro a ha hb
        rw [List.mem_singleton] at hb
        exact v4 (hb ▸ ha)
    · rw [if_neg hlt]
      exact ⟨g, rfl, Or.inl rfl, fun h => h, fun h => h, rfl, rfl, rfl⟩

/-! ## Coalescing of goal updates -/

end SnakeGame
